import Mathlib

/-!
# Intcode virtual machine: a shallow embedding of `intcode.go`

The Go program is translated function by function.

* Go's `int` is the 64-bit two's-complement integer: values are `Int`, and every
  addition and multiplication the program performs goes through `wrapInt`.
* A Go function that may hit a run-time panic (an index out of range) returns an
  `Outcome`: either `ret x` (the function returned `x`) or `panic`.
* A Go function returning `(value, error)` returns a pair whose second component
  is `none` for the `nil` error.
* Methods that mutate the receiver `*IntCodeVM` take the state and return the
  state after the call next to the returned error.
* `vm.Stdin` and `vm.Stdout` are `*IntCodePipe` values as installed by `NewVM`;
  the embedding of one VM keeps them as two separate buffers.
-/

namespace Intcode

/-! ## Machine integers -/

/-- Two's-complement reduction of an integer to the range of Go's 64-bit `int`. -/
def wrapInt (x : Int) : Int := (x + 2 ^ 63) % 2 ^ 64 - 2 ^ 63

/-- Go `a + b` on `int`. -/
def goAdd (a b : Int) : Int := wrapInt (a + b)

/-- Go `a * b` on `int`. -/
def goMul (a b : Int) : Int := wrapInt (a * b)

/-- Membership in the range of Go's 64-bit `int`. -/
def InIntRange (x : Int) : Prop := -(2 ^ 63) ≤ x ∧ x < 2 ^ 63

instance (x : Int) : Decidable (InIntRange x) := by
  unfold InIntRange; exact inferInstance

/-! ## Results of Go calls -/

/-- Result of a Go call: it returned a value, or a run-time panic unwound it. -/
inductive Outcome (α : Type) where
  | ret (a : α) : Outcome α
  | panic : Outcome α
  deriving DecidableEq, Repr

/-- The error values of the package (`errors.New` values are compared by identity). -/
inductive Err where
  /-- Go `ErrSegFault`. -/
  | SegFault : Err
  /-- Go `ErrHalt`. -/
  | Halt : Err
  /-- Go `ReadError`. -/
  | ReadError : Err
  /-- The value `errors.New("IMEDIATE_MODE memset")` of `SaveByMode`. -/
  | ImediateMemset : Err
  /-- The value `errors.New(fmt.Sprintf("Unknown Opcode %d", op))` of `Step`. -/
  | UnknownOpcode (op : Int) : Err
  deriving DecidableEq, Repr

/-! ## Data model -/

abbrev Memory := List Int

abbrev ParameterMode := Int

def IMEDIATE_MODE : ParameterMode := 1
def RELATIVE_MODE : ParameterMode := 2
def POSITION_MODE : ParameterMode := 0

structure Parameter where
  Mode : ParameterMode
  Arg : Int
  deriving DecidableEq, Repr

structure IntCodePipe where
  Buffer : List Int
  deriving DecidableEq, Repr

structure IntCodeVM where
  IntructionPointer : Int
  RelativeBase : Int
  Memory : Memory
  Stdin : IntCodePipe
  Stdout : IntCodePipe
  deriving DecidableEq, Repr

/-- Go slice indexing `m[i]`: panics unless `0 ≤ i < len(m)`. -/
def memIndex (m : Memory) (i : Int) : Outcome Int :=
  if i < 0 then .panic
  else match m[i.toNat]? with
    | some v => .ret v
    | none => .panic

/-! ## Parameters -/

def Parameter.GetByMode (p : Parameter) (vm : IntCodeVM) : Outcome (Int × Option Err) :=
  if p.Mode = IMEDIATE_MODE then .ret (p.Arg, none)
  else if p.Mode = RELATIVE_MODE then
    let offset := goAdd vm.RelativeBase p.Arg
    if offset ≥ vm.Memory.length ∨ offset < 0 then .ret (0, some .SegFault)
    else match memIndex vm.Memory offset with
      | .panic => .panic
      | .ret v => .ret (v, none)
  else
    if p.Arg ≥ vm.Memory.length then .ret (0, some .SegFault)
    else match memIndex vm.Memory p.Arg with
      | .panic => .panic
      | .ret v => .ret (v, none)

/-- The `offset` that `SaveByMode` computes before its bounds check
(`none` on the immediate-mode return). -/
def Parameter.saveOffset (p : Parameter) (vm : IntCodeVM) : Option Int :=
  if p.Mode = RELATIVE_MODE then some (goAdd vm.RelativeBase p.Arg)
  else if p.Mode = IMEDIATE_MODE then none
  else some p.Arg

def Parameter.SaveByMode (p : Parameter) (vm : IntCodeVM) (value : Int) :
    IntCodeVM × Option Err :=
  match p.saveOffset vm with
  | none => (vm, some .ImediateMemset)
  | some offset =>
    if offset < 0 ∨ offset ≥ vm.Memory.length then (vm, some .SegFault)
    else ({ vm with Memory := vm.Memory.set offset.toNat value }, none)

/-! ## Pipes -/

def IntCodePipe.Read (pipe : IntCodePipe) : (Int × Option Err) × IntCodePipe :=
  match pipe.Buffer with
  | [] => ((0, some .ReadError), pipe)
  | x :: rest => ((x, none), { Buffer := rest })

def IntCodePipe.Write (pipe : IntCodePipe) (n : Int) : IntCodePipe :=
  { Buffer := pipe.Buffer ++ [n] }

/-! ## Instruction decoding -/

/-- Go `map[int]ParameterMode`; the keys the program uses are the non-negative
loop counters `index` and `i`. -/
abbrev ModeMap := Nat → Option ParameterMode

/-- The loop `for modebits != 0 { ... }` of `ParseParameterModes`. The first argument
bounds the number of iterations; `ParseParameterModes` passes a bound the loop
never reaches (`parseLoop_fuel`). -/
def parseLoop : Nat → Int → Nat → ModeMap → ModeMap
  | 0, _, _, modes => modes
  | fuel + 1, modebits, index, modes =>
    if modebits ≠ 0 then
      parseLoop fuel (modebits.tdiv 10) (index + 1)
        (fun k => if k = index then some (modebits.tmod 10) else modes k)
    else modes

def ParseParameterModes (instruction : Int) : ModeMap × Int :=
  let opcode := instruction.tmod 100
  let modebits := instruction.tdiv 100
  (parseLoop (modebits.natAbs + 1) modebits 0 (fun _ => none), opcode)

/-- The lookup `mode, ok := modes[i]; if !ok { mode = POSITION_MODE }` of `Step`. -/
def modeAt (modes : ModeMap) (i : Nat) : ParameterMode :=
  match modes i with
  | some mode => mode
  | none => POSITION_MODE

/-! ## Opcode table -/

structure OpCode where
  Mnemonic : String
  Number : Int
  Argc : Nat
  Operation : IntCodeVM → List Parameter → Outcome (IntCodeVM × Option Err)

/-- The call `paramters[i].GetByMode(vm)` of a handler. -/
def readParm (paramters : List Parameter) (i : Nat) (vm : IntCodeVM) :
    Outcome (Int × Option Err) :=
  match paramters[i]? with
  | none => .panic
  | some p => p.GetByMode vm

/-- The call `paramters[i].SaveByMode(vm, value)` of a handler. -/
def saveParm (paramters : List Parameter) (i : Nat) (vm : IntCodeVM) (value : Int) :
    Outcome (IntCodeVM × Option Err) :=
  match paramters[i]? with
  | none => .panic
  | some p => .ret (p.SaveByMode vm value)

def opAdd (vm : IntCodeVM) (paramters : List Parameter) :
    Outcome (IntCodeVM × Option Err) :=
  match readParm paramters 0 vm with
  | .panic => .panic
  | .ret (_, some err) => .ret (vm, some err)
  | .ret (a, none) =>
    match readParm paramters 1 vm with
    | .panic => .panic
    | .ret (_, some err) => .ret (vm, some err)
    | .ret (b, none) => saveParm paramters 2 vm (goAdd a b)

def opMult (vm : IntCodeVM) (paramters : List Parameter) :
    Outcome (IntCodeVM × Option Err) :=
  match readParm paramters 0 vm with
  | .panic => .panic
  | .ret (_, some err) => .ret (vm, some err)
  | .ret (a, none) =>
    match readParm paramters 1 vm with
    | .panic => .panic
    | .ret (_, some err) => .ret (vm, some err)
    | .ret (b, none) => saveParm paramters 2 vm (goMul a b)

def opInput (vm : IntCodeVM) (paramters : List Parameter) :
    Outcome (IntCodeVM × Option Err) :=
  match vm.Stdin.Read with
  | ((_, some err), stdin) => .ret ({ vm with Stdin := stdin }, some err)
  | ((value, none), stdin) => saveParm paramters 0 { vm with Stdin := stdin } value

def opOutput (vm : IntCodeVM) (paramters : List Parameter) :
    Outcome (IntCodeVM × Option Err) :=
  match readParm paramters 0 vm with
  | .panic => .panic
  | .ret (_, some err) => .ret (vm, some err)
  | .ret (value, none) => .ret ({ vm with Stdout := vm.Stdout.Write value }, none)

def opJmpIfTrue (vm : IntCodeVM) (paramters : List Parameter) :
    Outcome (IntCodeVM × Option Err) :=
  match readParm paramters 0 vm with
  | .panic => .panic
  | .ret (_, some err) => .ret (vm, some err)
  | .ret (value, none) =>
    if value ≠ 0 then
      match readParm paramters 1 vm with
      | .panic => .panic
      | .ret (_, some err) => .ret (vm, some err)
      | .ret (location, none) => .ret ({ vm with IntructionPointer := location }, none)
    else .ret (vm, none)

def opJmpIfFalse (vm : IntCodeVM) (paramters : List Parameter) :
    Outcome (IntCodeVM × Option Err) :=
  match readParm paramters 0 vm with
  | .panic => .panic
  | .ret (_, some err) => .ret (vm, some err)
  | .ret (value, none) =>
    if value = 0 then
      match readParm paramters 1 vm with
      | .panic => .panic
      | .ret (_, some err) => .ret (vm, some err)
      | .ret (location, none) => .ret ({ vm with IntructionPointer := location }, none)
    else .ret (vm, none)

def opLessThan (vm : IntCodeVM) (paramters : List Parameter) :
    Outcome (IntCodeVM × Option Err) :=
  match readParm paramters 0 vm with
  | .panic => .panic
  | .ret (_, some err) => .ret (vm, some err)
  | .ret (a, none) =>
    match readParm paramters 1 vm with
    | .panic => .panic
    | .ret (_, some err) => .ret (vm, some err)
    | .ret (b, none) =>
      if a < b then saveParm paramters 2 vm 1
      else saveParm paramters 2 vm 0

def opEquals (vm : IntCodeVM) (paramters : List Parameter) :
    Outcome (IntCodeVM × Option Err) :=
  match readParm paramters 0 vm with
  | .panic => .panic
  | .ret (_, some err) => .ret (vm, some err)
  | .ret (a, none) =>
    match readParm paramters 1 vm with
    | .panic => .panic
    | .ret (_, some err) => .ret (vm, some err)
    | .ret (b, none) =>
      if a = b then saveParm paramters 2 vm 1
      else saveParm paramters 2 vm 0

def opAdjustBase (vm : IntCodeVM) (paramters : List Parameter) :
    Outcome (IntCodeVM × Option Err) :=
  match readParm paramters 0 vm with
  | .panic => .panic
  | .ret (_, some err) => .ret (vm, some err)
  | .ret (base, none) =>
    .ret ({ vm with RelativeBase := goAdd vm.RelativeBase base }, none)

def opHalt (vm : IntCodeVM) (_paramters : List Parameter) :
    Outcome (IntCodeVM × Option Err) :=
  .ret (vm, some .Halt)

def OpCodes : List OpCode :=
  [ ⟨"add", 1, 3, opAdd⟩,
    ⟨"mult", 2, 3, opMult⟩,
    ⟨"input", 3, 1, opInput⟩,
    ⟨"output", 4, 1, opOutput⟩,
    ⟨"jmp-if-true", 5, 2, opJmpIfTrue⟩,
    ⟨"jmp-if-false", 6, 2, opJmpIfFalse⟩,
    ⟨"less-than", 7, 3, opLessThan⟩,
    ⟨"equals", 8, 3, opEquals⟩,
    ⟨"adjust-base", 9, 1, opAdjustBase⟩,
    ⟨"halt", 99, 0, opHalt⟩ ]

/-- The map `vm.OpCodes` as `NewVM` fills it:
`for _, opcode := range OpCodes { vm.OpCodes[opcode.Number] = opcode }`. -/
def vmOpCodes : Int → Option OpCode :=
  OpCodes.foldl (fun m opcode => fun k => if k = opcode.Number then some opcode else m k)
    (fun _ => none)

/-! ## The interpreter -/

def IntCodeVM.GetInstruction (vm : IntCodeVM) : Outcome (Int × Option Err) :=
  if vm.IntructionPointer > vm.Memory.length then .ret (0, some .SegFault)
  else match memIndex vm.Memory vm.IntructionPointer with
    | .panic => .panic
    | .ret v => .ret (v, none)

/-- The loop of `Step` that fills `parms`: `loadParms vm modes n i` runs the
iterations `i, i+1, ..., i+n-1` and returns the parameters they build. -/
def loadParms (vm : IntCodeVM) (modes : ModeMap) : Nat → Nat → Outcome (List Parameter × Option Err)
  | 0, _ => .ret ([], none)
  | n + 1, i =>
    let offset := goAdd (goAdd vm.IntructionPointer i) 1
    if offset > vm.Memory.length then .ret ([], some .SegFault)
    else match memIndex vm.Memory offset with
      | .panic => .panic
      | .ret arg =>
        match loadParms vm modes n (i + 1) with
        | .panic => .panic
        | .ret (_, some err) => .ret ([], some err)
        | .ret (rest, none) => .ret ({ Mode := modeAt modes i, Arg := arg } :: rest, none)

def IntCodeVM.Step (vm : IntCodeVM) : Outcome (IntCodeVM × Option Err) :=
  match vm.GetInstruction with
  | .panic => .panic
  | .ret (_, some err) => .ret (vm, some err)
  | .ret (instruction, none) =>
    let oldIp := vm.IntructionPointer
    match ParseParameterModes instruction with
    | (modes, op) =>
      match vmOpCodes op with
      | none => .ret (vm, some (.UnknownOpcode op))
      | some opcode =>
        match loadParms vm modes opcode.Argc 0 with
        | .panic => .panic
        | .ret (_, some err) => .ret (vm, some err)
        | .ret (parms, none) =>
          match opcode.Operation vm parms with
          | .panic => .panic
          | .ret (vm1, some err) => .ret (vm1, some err)
          | .ret (vm1, none) =>
            if oldIp = vm1.IntructionPointer then
              .ret ({ vm1 with
                IntructionPointer := goAdd vm1.IntructionPointer (goAdd 1 opcode.Argc) }, none)
            else .ret (vm1, none)

/-- The loop of `RunUntilError`, cut after `fuel` calls of `Step`: `none` when
the loop is still running at that point. -/
def IntCodeVM.RunUntilError : Nat → IntCodeVM → Option (Outcome (IntCodeVM × Err))
  | 0, _ => none
  | fuel + 1, vm =>
    match vm.Step with
    | .panic => some .panic
    | .ret (vm1, some err) => some (.ret (vm1, err))
    | .ret (vm1, none) => IntCodeVM.RunUntilError fuel vm1

/-! ## Program text -/

/-- Errors of `strconv.Atoi` (`strconv.ErrSyntax`, `strconv.ErrRange`). -/
inductive NumError where
  | Syntax : NumError
  | Range : NumError
  deriving DecidableEq, Repr

/-- Go `strings.Split(s, ",")` on the characters of `s`. -/
def splitComma : List Char → List (List Char)
  | [] => [[]]
  | c :: cs =>
    if c = ',' then [] :: splitComma cs
    else match splitComma cs with
      | [] => [[c]]
      | item :: items => (c :: item) :: items

/-- Value of a run of decimal digits, `none` when a character is not a digit. -/
def parseDigits : List Char → Nat → Option Nat
  | [], n => some n
  | c :: cs, n =>
    if 48 ≤ c.toNat ∧ c.toNat ≤ 57 then parseDigits cs (n * 10 + (c.toNat - 48))
    else none

/-- Go `strconv.Atoi`: an optional sign, then one or more decimal digits, the
value within the range of `int`. -/
def Atoi (s : List Char) : Int × Option NumError :=
  let neg := decide (s.head? = some '-')
  let body := if s.head? = some '-' ∨ s.head? = some '+' then s.tail else s
  match body with
  | [] => (0, some .Syntax)
  | _ :: _ =>
    match parseDigits body 0 with
    | none => (0, some .Syntax)
    | some n =>
      if neg then
        if n ≤ 2 ^ 63 then (-(n : Int), none) else (-(2 ^ 63), some .Range)
      else
        if n < 2 ^ 63 then ((n : Int), none) else (2 ^ 63 - 1, some .Range)

/-- The loop of `ParseProgram` over `items[i], items[i+1], ...`. -/
def parseItems : Memory → List (List Char) → Nat → Memory × Option NumError
  | memory, [], _ => (memory, none)
  | memory, item :: items, i =>
    match Atoi item with
    | (_, some err) => (memory, some err)
    | (value, none) => parseItems (memory.set i value) items (i + 1)

def ParseProgram (program : String) : Memory × Option NumError :=
  let items := splitComma program.data
  let memory : Memory := List.replicate items.length 0
  parseItems memory items 0

/-- The loop `for i, instruction := range programCode { memory[i] = instruction }`
of `NewVM`. -/
def copyProgram : Memory → List Int → Nat → Outcome Memory
  | memory, [], _ => .ret memory
  | memory, instruction :: rest, i =>
    if i < memory.length then copyProgram (memory.set i instruction) rest (i + 1)
    else .panic

def NewVM (program : String) : Outcome IntCodeVM :=
  match ParseProgram program with
  | (programCode, _) =>
    let memory : Memory := List.replicate (1024 * 100) 0
    match copyProgram memory programCode 0 with
    | .panic => .panic
    | .ret memory =>
      .ret { IntructionPointer := 0, RelativeBase := 0, Memory := memory,
             Stdin := { Buffer := [] }, Stdout := { Buffer := [] } }

/-- The loop of `RunUntilOutput`, cut after `fuel` calls of `Step` (`none` when the
loop is still running at that point). `output` is the named result of the Go
function: it holds the value of the last read. -/
def runUntilOutputLoop :
    Nat → Int → IntCodeVM → Option (Outcome (IntCodeVM × Int × Option Err))
  | 0, _, _ => none
  | fuel + 1, output, vm =>
    match vm.Step with
    | .panic => some .panic
    | .ret (vm1, some err) => some (.ret (vm1, output, some err))
    | .ret (vm1, none) =>
      match vm1.Stdout.Read with
      | ((out, some .ReadError), stdout) =>
        runUntilOutputLoop fuel out { vm1 with Stdout := stdout }
      | ((out, err), stdout) => some (.ret ({ vm1 with Stdout := stdout }, out, err))

def IntCodeVM.RunUntilOutput (fuel : Nat) (vm : IntCodeVM) :
    Option (Outcome (IntCodeVM × Int × Option Err)) :=
  runUntilOutputLoop fuel 0 vm

def IntCodeVM.RunUntilHalt (fuel : Nat) (vm : IntCodeVM) :
    Option (Outcome (IntCodeVM × Option Err)) :=
  match vm.RunUntilError fuel with
  | none => none
  | some .panic => some .panic
  | some (.ret (vm1, err)) =>
    if err ≠ .Halt then some (.ret (vm1, some err))
    else some (.ret (vm1, none))

/-! ## Amplifier networks

The amplifiers of one search step share pipes through pointers
(`amp.VM.Stdout = other.VM.Stdin`). A `Network` holds the pipes in a list and every
amplifier holds, for each of its two channel fields, the position of the pipe the
field points to. The functions that run a VM return `none` when the run needs more
than `fuel` calls of `Step`, and also for a VM whose two fields point to the same
pipe, which the two buffers of `IntCodeVM` do not represent. -/

structure Amplifier where
  PhaseSetting : Int
  IntructionPointer : Int
  RelativeBase : Int
  Memory : Memory
  /-- Position in `Network.pipes` of the pipe `VM.Stdin` points to. -/
  Stdin : Nat
  /-- Position in `Network.pipes` of the pipe `VM.Stdout` points to. -/
  Stdout : Nat
  deriving DecidableEq, Repr

structure Network where
  amps : List Amplifier
  pipes : List IntCodePipe
  deriving DecidableEq, Repr

/-- `amps = append(amps, NewAmplifier(phaseSetting, program))`: the VM of `NewVM`,
its two new pipes placed at the end of the pipe list. -/
def NewAmplifier (net : Network) (phaseSetting : Int) (program : String) : Outcome Network :=
  match NewVM program with
  | .panic => .panic
  | .ret vm =>
    .ret { amps := net.amps ++ [⟨phaseSetting, vm.IntructionPointer, vm.RelativeBase, vm.Memory,
                                 net.pipes.length, net.pipes.length + 1⟩],
           pipes := net.pipes ++ [vm.Stdin, vm.Stdout] }

/-- The loop `for _, setting := range permutation { amps = append(amps, ...) }`. -/
def makeAmps (program : String) : List Int → Network → Outcome Network
  | [], net => .ret net
  | setting :: permutation, net =>
    match NewAmplifier net setting program with
    | .panic => .panic
    | .ret net1 => makeAmps program permutation net1

/-- `amps[i].Connect(amps[j])`, that is `amp.VM.Stdout = other.VM.Stdin`. -/
def Network.Connect (net : Network) (i j : Nat) : Outcome Network :=
  match net.amps[i]?, net.amps[j]? with
  | some amp, some other =>
    .ret { net with amps := net.amps.set i { amp with Stdout := other.Stdin } }
  | _, _ => .panic

/-- The loop `for i, amp := range amps[:len(amps)-1] { amp.Connect(amps[i+1]) }`,
iterations `i, i+1, ...`, `n` of them. -/
def connectLoop : Nat → Nat → Network → Outcome Network
  | 0, _, net => .ret net
  | n + 1, i, net =>
    match net.Connect i (i + 1) with
    | .panic => .panic
    | .ret net1 => connectLoop n (i + 1) net1

/-- `pipe.Write(n)` for the pipe at position `addr`. -/
def Network.pipeWrite (net : Network) (addr : Nat) (n : Int) : Outcome Network :=
  match net.pipes[addr]? with
  | none => .panic
  | some pipe => .ret { net with pipes := net.pipes.set addr (pipe.Write n) }

/-- `amps[i].Init()`, that is `amp.VM.Stdin.Write(amp.PhaseSetting)`. -/
def Network.Init (net : Network) (i : Nat) : Outcome Network :=
  match net.amps[i]? with
  | none => .panic
  | some amp => net.pipeWrite amp.Stdin amp.PhaseSetting

/-- The loop `for _, amp := range amps { amp.Init() }`, iterations `i, i+1, ...`,
`n` of them. -/
def initLoop : Nat → Nat → Network → Outcome Network
  | 0, _, net => .ret net
  | n + 1, i, net =>
    match net.Init i with
    | .panic => .panic
    | .ret net1 => initLoop n (i + 1) net1

/-- The VM of `amp` together with the two pipes its channel fields point to. -/
def Network.vmOf (net : Network) (amp : Amplifier) : Option IntCodeVM :=
  if amp.Stdin = amp.Stdout then none
  else
    match net.pipes[amp.Stdin]?, net.pipes[amp.Stdout]? with
    | some stdin, some stdout =>
      some ⟨amp.IntructionPointer, amp.RelativeBase, amp.Memory, stdin, stdout⟩
    | _, _ => none

/-- The network after the VM of `amps[i]` has run and ended in state `vm`. -/
def Network.put (net : Network) (i : Nat) (amp : Amplifier) (vm : IntCodeVM) : Network :=
  { amps := net.amps.set i { amp with IntructionPointer := vm.IntructionPointer,
                                      RelativeBase := vm.RelativeBase,
                                      Memory := vm.Memory },
    pipes := (net.pipes.set amp.Stdin vm.Stdin).set amp.Stdout vm.Stdout }

/-- The part of both searches that builds the amplifiers of one permutation,
connects each to the next, in the looped search also sets
`amps[0].VM.Stdin = amps[len(amps)-1].VM.Stdout`, calls `Init` on each and writes
the initial input 0 to `amps[0].VM.Stdin`. -/
def buildNetwork (looped : Bool) (program : String) (permutation : List Int) :
    Outcome Network :=
  match makeAmps program permutation { amps := [], pipes := [] } with
  | .panic => .panic
  | .ret net0 =>
    if net0.amps.length = 0 then .panic
    else
      match connectLoop (net0.amps.length - 1) 0 net0 with
      | .panic => .panic
      | .ret net1 =>
        match net1.amps[0]?, net1.amps[net1.amps.length - 1]? with
        | some first, some last =>
          let net2 : Network :=
            if looped then
              { net1 with amps := net1.amps.set 0 { first with Stdin := last.Stdout } }
            else net1
          match initLoop net2.amps.length 0 net2 with
          | .panic => .panic
          | .ret net3 =>
            match net3.amps[0]? with
            | none => .panic
            | some amp0 => net3.pipeWrite amp0.Stdin 0
        | _, _ => .panic

/-- The loop `for _, amp := range amps { err = amp.VM.RunUntilHalt(); ... }` of
`OptimizeAmplifierPhaseSettings`, iterations `i, i+1, ...`, `n` of them; it ends at
the first error. -/
def runChain (fuel : Nat) : Nat → Nat → Network → Option (Outcome (Network × Option Err))
  | 0, _, net => some (.ret (net, none))
  | n + 1, i, net =>
    match net.amps[i]? with
    | none => some .panic
    | some amp =>
      match net.vmOf amp with
      | none => none
      | some vm =>
        match vm.RunUntilHalt fuel with
        | none => none
        | some .panic => some .panic
        | some (.ret (vm1, some err)) => some (.ret (net.put i amp vm1, some err))
        | some (.ret (vm1, none)) => runChain fuel n (i + 1) (net.put i amp vm1)

/-- `amps[len(amps)-1].VM.Stdout.Read()`. -/
def Network.readLast (net : Network) : Outcome ((Int × Option Err) × Network) :=
  match net.amps[net.amps.length - 1]? with
  | none => .panic
  | some last =>
    match net.pipes[last.Stdout]? with
    | none => .panic
    | some pipe =>
      match pipe.Read with
      | (r, pipe1) => .ret (r, { net with pipes := net.pipes.set last.Stdout pipe1 })

/-- The body of the loop of `OptimizeAmplifierPhaseSettings` for one permutation, up
to and including the read of `result`: the value read and the error of the read,
or the error of the VM run that failed, and the network at that point. -/
def chainSignal (fuel : Nat) (program : String) (permutation : List Int) :
    Option (Outcome (Network × (Int × Option Err) × Option Err)) :=
  match buildNetwork false program permutation with
  | .panic => some .panic
  | .ret net =>
    match runChain fuel net.amps.length 0 net with
    | none => none
    | some .panic => some .panic
    | some (.ret (net1, some err)) => some (.ret (net1, (0, none), some err))
    | some (.ret (net1, none)) =>
      match net1.readLast with
      | .panic => some .panic
      | .ret (r, net2) => some (.ret (net2, r, none))

/-- The loop `for permutation := range GeneratePermutations(...)` of both searches,
from the state `best`, `bestp` on, with `signal` the body of the loop up to the read
of `result`. `GeneratePermutations` is not among the sources: the permutations it
sends, in the order it sends them, are the list parameter. A nil slice is the empty
list. -/
def searchLoop (signal : List Int → Option (Outcome (Network × (Int × Option Err) × Option Err))) :
    List (List Int) → Int → List Int → Option (Outcome (List Int × Int × Option Err))
  | [], best, bestp => some (.ret (bestp, best, none))
  | permutation :: perms, best, bestp =>
    match signal permutation with
    | none => none
    | some .panic => some .panic
    | some (.ret (_, _, some err)) => some (.ret ([], 0, some err))
    | some (.ret (_, (result, _), none)) =>
      if result > best then searchLoop signal perms result permutation
      else searchLoop signal perms best bestp

/-- `OptimizeAmplifierPhaseSettings(program)`, with `perms` the permutations that
`GeneratePermutations([]int{0, 1, 2, 3, 4})` sends and `fuel` the number of `Step`
calls granted to each run of a VM. -/
def OptimizeAmplifierPhaseSettings (fuel : Nat) (perms : List (List Int))
    (program : String) : Option (Outcome (List Int × Int × Option Err)) :=
  searchLoop (chainSignal fuel program) perms (-1) []

/-- One pass of the loop `for _, amp := range amps { err = amp.VM.RunUntilError();
switch err { ... } }` of the looped search, iterations `i, i+1, ...`, `n` of them,
with the counter `halts`. -/
def sweep (fuel : Nat) :
    Nat → Nat → Network → Nat → Option (Outcome (Network × Nat × Option Err))
  | 0, _, net, halts => some (.ret (net, halts, none))
  | n + 1, i, net, halts =>
    match net.amps[i]? with
    | none => some .panic
    | some amp =>
      match net.vmOf amp with
      | none => none
      | some vm =>
        match vm.RunUntilError fuel with
        | none => none
        | some .panic => some .panic
        | some (.ret (vm1, .Halt)) => sweep fuel n (i + 1) (net.put i amp vm1) (halts + 1)
        | some (.ret (vm1, .ReadError)) => sweep fuel n (i + 1) (net.put i amp vm1) halts
        | some (.ret (vm1, err)) => some (.ret (net.put i amp vm1, halts, some err))

/-- The loop `for halts < len(amps) { ... }` of the looped search, cut after `sweeps`
passes (`none` when it is still running at that point). -/
def sweepLoop (fuel : Nat) :
    Nat → Network → Nat → Option (Outcome (Network × Nat × Option Err))
  | 0, _, _ => none
  | sweeps + 1, net, halts =>
    if halts < net.amps.length then
      match sweep fuel net.amps.length 0 net halts with
      | none => none
      | some .panic => some .panic
      | some (.ret (net1, halts1, some err)) => some (.ret (net1, halts1, some err))
      | some (.ret (net1, halts1, none)) => sweepLoop fuel sweeps net1 halts1
    else some (.ret (net, halts, none))

/-- The body of the loop of `OptimizeLoopedAmplifierPhaseSettings` for one
permutation, up to the end of the loop `for halts < len(amps)`: the network and the
counter `halts` at that point, or the error that ended the search. -/
def loopedNetwork (fuel sweeps : Nat) (program : String) (permutation : List Int) :
    Option (Outcome (Network × Nat × Option Err)) :=
  match buildNetwork true program permutation with
  | .panic => some .panic
  | .ret net => sweepLoop fuel (sweeps + 1) net 0

/-- The body of the loop of `OptimizeLoopedAmplifierPhaseSettings` for one
permutation, up to and including the read of `result`. -/
def loopedSignal (fuel sweeps : Nat) (program : String) (permutation : List Int) :
    Option (Outcome (Network × (Int × Option Err) × Option Err)) :=
  match loopedNetwork fuel sweeps program permutation with
  | none => none
  | some .panic => some .panic
  | some (.ret (net1, _, some err)) => some (.ret (net1, (0, none), some err))
  | some (.ret (net1, _, none)) =>
    match net1.readLast with
    | .panic => some .panic
    | .ret (r, net2) => some (.ret (net2, r, none))

/-- `OptimizeLoopedAmplifierPhaseSettings(program)`, with `perms` the permutations
that `GeneratePermutations([]int{5, 6, 7, 8, 9})` sends, `fuel` the number of `Step`
calls granted to each run of a VM and `sweeps` the number of passes granted to the
loop `for halts < len(amps)`. -/
def OptimizeLoopedAmplifierPhaseSettings (fuel sweeps : Nat) (perms : List (List Int))
    (program : String) : Option (Outcome (List Int × Int × Option Err)) :=
  searchLoop (loopedSignal fuel sweeps program) perms (-1) []

/-! ## Auxiliary definitions used in the statements below -/

/-- The slice `parms` that the loop of `Step` builds from iteration `i` on, when the
`n` parameter words it reads all lie inside the memory. -/
def stepParms (vm : IntCodeVM) (modes : ModeMap) (n i : Nat) : List Parameter :=
  (List.range' i n).map fun j =>
    { Mode := modeAt modes j, Arg := vm.Memory.getD (vm.IntructionPointer + j + 1).toNat 0 }

/-- The end of `Step`, from the handler's result on: an error is passed on, and the
instruction pointer is advanced when the handler left it equal to `oldIp`. -/
def finishStep (oldIp : Int) (argc : Nat) :
    Outcome (IntCodeVM × Option Err) → Outcome (IntCodeVM × Option Err)
  | .panic => .panic
  | .ret (vm1, some err) => .ret (vm1, some err)
  | .ret (vm1, none) =>
    if oldIp = vm1.IntructionPointer then
      .ret ({ vm1 with
        IntructionPointer := goAdd vm1.IntructionPointer (goAdd 1 argc) }, none)
    else .ret (vm1, none)

/-- Calls of `pipe.Write(x)` for the elements `x` of a list, in order. -/
def writeAll (pipe : IntCodePipe) : List Int → IntCodePipe
  | [] => pipe
  | x :: xs => writeAll (pipe.Write x) xs

/-- The results of `n` successive calls of `pipe.Read()`, and the pipe after them. -/
def readN : Nat → IntCodePipe → List (Int × Option Err) × IntCodePipe
  | 0, pipe => ([], pipe)
  | n + 1, pipe =>
    match pipe.Read with
    | (r, pipe1) =>
      match readN n pipe1 with
      | (rs, pipe2) => (r :: rs, pipe2)

/-- The state after `k` consecutive calls of `Step` that all return no error and of
which none executes an output instruction (opcode 4); `none` when there is no such
sequence of calls. -/
def quietSteps : Nat → IntCodeVM → Option IntCodeVM
  | 0, vm => some vm
  | k + 1, vm =>
    match vm.GetInstruction, vm.Step with
    | .ret (w, none), .ret (vm1, none) =>
      if (ParseParameterModes w).2 = 4 then none else quietSteps k vm1
    | _, _ => none

/-- Decimal digits of a natural number, most significant first. -/
def renderNat (n : Nat) : List Char :=
  if n = 0 then ['0'] else (Nat.digits 10 n).reverse.map Nat.digitChar

/-- Decimal rendering of an integer: a minus sign for a negative one, then the
digits of its absolute value. -/
def renderInt (x : Int) : List Char :=
  if x < 0 then '-' :: renderNat x.natAbs else renderNat x.natAbs

/-- Comma-separated decimal rendering of a list of integers. -/
def renderProgram (xs : List Int) : String :=
  String.mk (List.intercalate [','] (xs.map renderInt))

/-- The five phase settings of one permutation, as the slice the search ranges over. -/
def settingsOf (t : Int × Int × Int × Int × Int) : List Int :=
  [t.1, t.2.1, t.2.2.1, t.2.2.2.1, t.2.2.2.2]

/-! ## Machine integers: basic facts -/

theorem wrapInt_of_inRange (x : Int) (h : InIntRange x) : wrapInt x = x := by
  unfold InIntRange at h
  unfold wrapInt
  omega

theorem wrapInt_inRange (x : Int) : InIntRange (wrapInt x) := by
  unfold InIntRange wrapInt
  omega

theorem goAdd_of_inRange (a b : Int) (h : InIntRange (a + b)) : goAdd a b = a + b :=
  wrapInt_of_inRange _ h

theorem goMul_of_inRange (a b : Int) (h : InIntRange (a * b)) : goMul a b = a * b :=
  wrapInt_of_inRange _ h

/-! ## Slice indexing -/

theorem memIndex_ret_iff (m : Memory) (i v : Int) :
    memIndex m i = .ret v ↔ 0 ≤ i ∧ m[i.toNat]? = some v := by
  unfold memIndex
  by_cases hi : i < 0
  · simp [hi]
  · cases hm : m[i.toNat]? with
    | none => simp [hi, hm]
    | some u => simp [hi, hm]; omega

theorem memIndex_panic_iff (m : Memory) (i : Int) :
    memIndex m i = .panic ↔ i < 0 ∨ (m.length : Int) ≤ i := by
  unfold memIndex
  by_cases hi : i < 0
  · simp [hi]
  · cases hm : m[i.toNat]? with
    | none =>
      simp only [hi, if_false, true_iff, false_or]
      have := List.getElem?_eq_none_iff.mp hm
      omega
    | some u =>
      have hlt : i.toNat < m.length := by
        by_contra hcon
        have := List.getElem?_eq_none_iff.mpr (Nat.le_of_not_lt hcon)
        simp [this] at hm
      simp only [hi, if_false, false_or]
      constructor
      · intro h; cases h
      · intro h; omega

theorem memIndex_of_lt (m : Memory) (i : Int) (h0 : 0 ≤ i) (h1 : i < m.length) :
    ∃ v, m[i.toNat]? = some v ∧ memIndex m i = .ret v := by
  have hlt : i.toNat < m.length := by omega
  refine ⟨m[i.toNat], List.getElem?_eq_getElem hlt, ?_⟩
  rw [memIndex_ret_iff]
  exact ⟨h0, List.getElem?_eq_getElem hlt⟩

/-! ## Instruction decoding -/

theorem parseLoop_natCast (fuel : Nat) : ∀ (n idx : Nat) (modes : ModeMap),
    n < fuel → (∀ k, idx ≤ k → modes k = none) →
    ∀ k, modeAt (parseLoop fuel (n : Int) idx modes) k =
      if k < idx then modeAt modes k else ((n / 10 ^ (k - idx) % 10 : Nat) : Int) := by
  induction fuel with
  | zero => intro n idx modes h; omega
  | succ fuel ih =>
    intro n idx modes hn hnone k
    unfold parseLoop
    by_cases h0 : n = 0
    · subst h0
      by_cases hk : k < idx
      · simp [hk]
      · have := hnone k (Nat.le_of_not_lt hk)
        simp [hk, modeAt, this, POSITION_MODE]
    · have hne : (n : Int) ≠ 0 := by exact_mod_cast h0
      have hdiv : (n : Int).tdiv 10 = ((n / 10 : Nat) : Int) := by
        rw [Int.tdiv_eq_ediv (by omega) (by omega)]; norm_cast
      have hmod : (n : Int).tmod 10 = ((n % 10 : Nat) : Int) := by
        rw [Int.tmod_eq_emod (by omega) (by omega)]; norm_cast
      rw [if_pos hne, hdiv, hmod]
      rw [ih (n / 10) (idx + 1) _ (by omega) (by
        intro j hj
        have : j ≠ idx := by omega
        simp [this, hnone j (by omega)])]
      by_cases hk : k < idx
      · have h1 : k < idx + 1 := by omega
        have h2 : k ≠ idx := by omega
        simp [hk, h1, h2, modeAt]
      · by_cases hk2 : k = idx
        · subst hk2
          simp [modeAt]
        · have h1 : ¬ k < idx + 1 := by omega
          have h3 : k - idx = (k - (idx + 1)) + 1 := by omega
          rw [if_neg h1, if_neg hk, h3, pow_succ, Nat.mul_comm, ← Nat.div_div_eq_div_mul]

/-- The iteration bound passed by `ParseParameterModes` is never reached: any two
bounds above `|modebits|` give the same map. -/
theorem parseLoop_fuel (f1 : Nat) : ∀ (f2 : Nat) (modebits : Int) (index : Nat) (modes : ModeMap),
    modebits.natAbs < f1 → modebits.natAbs < f2 →
    parseLoop f1 modebits index modes = parseLoop f2 modebits index modes := by
  induction f1 with
  | zero => intro f2 mb idx modes h; omega
  | succ f1 ih =>
    intro f2 mb idx modes h1 h2
    cases f2 with
    | zero => omega
    | succ f2 =>
      unfold parseLoop
      by_cases h0 : mb = 0
      · simp [h0]
      · have hlt : (mb.tdiv 10).natAbs < mb.natAbs := by
          rw [Int.natAbs_tdiv]
          have hpos : 0 < mb.natAbs := Int.natAbs_pos.mpr h0
          show mb.natAbs / 10 < mb.natAbs
          omega
        rw [if_pos h0, if_pos h0]
        exact ih f2 _ _ _ (by omega) (by omega)

/-! ## Parameters: reads and writes -/

/-- A store through a position-mode or relative-mode parameter whose offset is
outside `[0, capacity)` returns `ErrSegFault` and changes nothing. -/
theorem saveByMode_segfault (vm : IntCodeVM) (p : Parameter) (value offset : Int)
    (hoff : p.saveOffset vm = some offset)
    (hout : offset < 0 ∨ (vm.Memory.length : Int) ≤ offset) :
    p.SaveByMode vm value = (vm, some .SegFault) := by
  unfold Parameter.SaveByMode
  rw [hoff]
  simp only
  rw [if_pos (by omega)]

/-- A store through a parameter whose offset lies in `[0, capacity)` writes that
cell and nothing else. -/
theorem saveByMode_ok (vm : IntCodeVM) (p : Parameter) (value offset : Int)
    (hoff : p.saveOffset vm = some offset)
    (h0 : 0 ≤ offset) (h1 : offset < vm.Memory.length) :
    p.SaveByMode vm value =
      ({ vm with Memory := vm.Memory.set offset.toNat value }, none) := by
  unfold Parameter.SaveByMode
  rw [hoff]
  simp only
  rw [if_neg (by omega)]

/-! ## One step: fetch, decode, parameters -/

theorem getInstruction_ret_iff (vm : IntCodeVM) (w : Int) :
    vm.GetInstruction = .ret (w, none) ↔
      0 ≤ vm.IntructionPointer ∧ vm.Memory[vm.IntructionPointer.toNat]? = some w := by
  unfold IntCodeVM.GetInstruction
  by_cases hgt : vm.IntructionPointer > vm.Memory.length
  · rw [if_pos hgt]
    constructor
    · intro h; cases h
    · rintro ⟨h0, hw⟩
      have : vm.IntructionPointer.toNat < vm.Memory.length := by
        by_contra hcon
        rw [List.getElem?_eq_none_iff.mpr (Nat.le_of_not_lt hcon)] at hw
        cases hw
      omega
  · rw [if_neg hgt]
    cases hidx : memIndex vm.Memory vm.IntructionPointer with
    | panic =>
      simp only [false_iff, reduceCtorEq]
      rintro ⟨h0, hw⟩
      have := (memIndex_ret_iff vm.Memory vm.IntructionPointer w).mpr ⟨h0, hw⟩
      rw [hidx] at this
      cases this
    | ret u =>
      have hu := (memIndex_ret_iff _ _ _).mp hidx
      constructor
      · intro h
        have : u = w := by cases h; rfl
        subst this
        exact hu
      · rintro ⟨_, hw⟩
        rw [hu.2] at hw
        cases hw
        rfl

theorem getInstruction_bounds (vm : IntCodeVM) (w : Int)
    (h : vm.GetInstruction = .ret (w, none)) :
    0 ≤ vm.IntructionPointer ∧ vm.IntructionPointer < vm.Memory.length := by
  obtain ⟨h0, hw⟩ := (getInstruction_ret_iff vm w).mp h
  refine ⟨h0, ?_⟩
  have : vm.IntructionPointer.toNat < vm.Memory.length := by
    by_contra hcon
    rw [List.getElem?_eq_none_iff.mpr (Nat.le_of_not_lt hcon)] at hw
    cases hw
  omega

theorem stepParms_zero (vm : IntCodeVM) (modes : ModeMap) (i : Nat) :
    stepParms vm modes 0 i = [] := rfl

theorem stepParms_succ (vm : IntCodeVM) (modes : ModeMap) (n i : Nat) :
    stepParms vm modes (n + 1) i =
      { Mode := modeAt modes i,
        Arg := vm.Memory.getD (vm.IntructionPointer + i + 1).toNat 0 } ::
        stepParms vm modes n (i + 1) := by
  simp [stepParms, List.range'_succ]

/-- With the instruction pointer inside the memory, the parameter loop of `Step`
returns the parameter slice when all `n` parameter words lie inside the memory, and
otherwise indexes the slice at `len(vm.Memory)` (a run-time panic). -/
theorem loadParms_eq (vm : IntCodeVM) (modes : ModeMap)
    (hcap : (vm.Memory.length : Int) < 2 ^ 63) (h0 : 0 ≤ vm.IntructionPointer) :
    ∀ (n i : Nat), vm.IntructionPointer + i < vm.Memory.length →
      loadParms vm modes n i =
        if vm.IntructionPointer + i + n < vm.Memory.length
        then .ret (stepParms vm modes n i, none) else .panic := by
  intro n
  induction n with
  | zero =>
    intro i hi
    simp [loadParms, stepParms_zero, hi]
  | succ n ih =>
    intro i hi
    have hoff : goAdd (goAdd vm.IntructionPointer i) 1 = vm.IntructionPointer + i + 1 := by
      rw [goAdd_of_inRange vm.IntructionPointer i ⟨by omega, by omega⟩,
        goAdd_of_inRange _ 1 ⟨by omega, by omega⟩]
    unfold loadParms
    simp only [hoff]
    rw [if_neg (by omega)]
    by_cases hnext : vm.IntructionPointer + i + 1 < vm.Memory.length
    · obtain ⟨arg, harg, hidx⟩ := memIndex_of_lt vm.Memory _ (by omega) hnext
      have hD : vm.Memory.getD (vm.IntructionPointer + i + 1).toNat 0 = arg := by
        simp [List.getD, harg]
      rw [hidx]
      simp only
      rw [ih (i + 1) (by push_cast; omega)]
      by_cases hall : vm.IntructionPointer + i + (n + 1 : Nat) < vm.Memory.length
      · rw [if_pos (by push_cast at hall ⊢; omega), if_pos hall, stepParms_succ, hD]
      · rw [if_neg (by push_cast at hall ⊢; omega), if_neg hall]
    · have hp : memIndex vm.Memory (vm.IntructionPointer + i + 1) = .panic :=
        (memIndex_panic_iff _ _).mpr (Or.inr (by omega))
      rw [hp, if_neg (by push_cast; omega)]

theorem vmOpCodes_eq (k : Int) :
    vmOpCodes k =
      if k = 99 then some ⟨"halt", 99, 0, opHalt⟩
      else if k = 9 then some ⟨"adjust-base", 9, 1, opAdjustBase⟩
      else if k = 8 then some ⟨"equals", 8, 3, opEquals⟩
      else if k = 7 then some ⟨"less-than", 7, 3, opLessThan⟩
      else if k = 6 then some ⟨"jmp-if-false", 6, 2, opJmpIfFalse⟩
      else if k = 5 then some ⟨"jmp-if-true", 5, 2, opJmpIfTrue⟩
      else if k = 4 then some ⟨"output", 4, 1, opOutput⟩
      else if k = 3 then some ⟨"input", 3, 1, opInput⟩
      else if k = 2 then some ⟨"mult", 2, 3, opMult⟩
      else if k = 1 then some ⟨"add", 1, 3, opAdd⟩
      else none := rfl

/-- Shape of `Step` once the instruction word is fetched and its opcode is in the
table: a panic when a parameter word lies outside the memory, else the handler's
result followed by the advance of the instruction pointer. -/
theorem step_of_fetch (vm : IntCodeVM) (w : Int) (opcode : OpCode)
    (hcap : (vm.Memory.length : Int) < 2 ^ 63)
    (hfetch : vm.GetInstruction = .ret (w, none))
    (hop : vmOpCodes (ParseParameterModes w).2 = some opcode) :
    vm.Step =
      if vm.IntructionPointer + opcode.Argc < vm.Memory.length then
        finishStep vm.IntructionPointer opcode.Argc
          (opcode.Operation vm (stepParms vm (ParseParameterModes w).1 opcode.Argc 0))
      else .panic := by
  obtain ⟨h0, h1⟩ := getInstruction_bounds vm w hfetch
  have hload := loadParms_eq vm (ParseParameterModes w).1 hcap h0 opcode.Argc 0
    (by simpa using h1)
  simp only [Nat.cast_zero, add_zero] at hload
  unfold IntCodeVM.Step
  rw [hfetch]
  simp only [hop, hload]
  by_cases hroom : vm.IntructionPointer + opcode.Argc < vm.Memory.length
  · rw [if_pos hroom, if_pos hroom]
    simp only
    cases hres : opcode.Operation vm (stepParms vm (ParseParameterModes w).1 opcode.Argc 0) with
    | panic => rfl
    | ret r =>
      obtain ⟨vm1, e⟩ := r
      cases e with
      | some err => rfl
      | none => rfl
  · rw [if_neg hroom, if_neg hroom]

theorem stepParms_one (vm : IntCodeVM) (modes : ModeMap) :
    stepParms vm modes 1 0 =
      [⟨modeAt modes 0, vm.Memory.getD (vm.IntructionPointer + 1).toNat 0⟩] := by
  simp [stepParms_succ, stepParms_zero]

theorem stepParms_two (vm : IntCodeVM) (modes : ModeMap) :
    stepParms vm modes 2 0 =
      [⟨modeAt modes 0, vm.Memory.getD (vm.IntructionPointer + 1).toNat 0⟩,
       ⟨modeAt modes 1, vm.Memory.getD (vm.IntructionPointer + 2).toNat 0⟩] := by
  simp [stepParms_succ, stepParms_zero, add_assoc]

theorem stepParms_three (vm : IntCodeVM) (modes : ModeMap) :
    stepParms vm modes 3 0 =
      [⟨modeAt modes 0, vm.Memory.getD (vm.IntructionPointer + 1).toNat 0⟩,
       ⟨modeAt modes 1, vm.Memory.getD (vm.IntructionPointer + 2).toNat 0⟩,
       ⟨modeAt modes 2, vm.Memory.getD (vm.IntructionPointer + 3).toNat 0⟩] := by
  simp [stepParms_succ, stepParms_zero, add_assoc]

theorem getElem?_getD_of_lt (m : Memory) (i : Int) (h0 : 0 ≤ i) (h1 : i < m.length) :
    m[i.toNat]? = some (m.getD i.toNat 0) := by
  have hlt : i.toNat < m.length := by omega
  simp [List.getD, List.getElem?_eq_getElem hlt]

theorem finishStep_ok_inv (oldIp : Int) (argc : Nat) (r : Outcome (IntCodeVM × Option Err))
    (vm' : IntCodeVM) (h : finishStep oldIp argc r = .ret (vm', none)) :
    ∃ vm1, r = .ret (vm1, none) ∧
      vm' = if oldIp = vm1.IntructionPointer then
          { vm1 with IntructionPointer := goAdd vm1.IntructionPointer (goAdd 1 argc) }
        else vm1 := by
  cases r with
  | panic => cases h
  | ret r =>
    obtain ⟨vm1, e⟩ := r
    cases e with
    | some err => simp [finishStep] at h
    | none =>
      refine ⟨vm1, rfl, ?_⟩
      simp only [finishStep] at h
      by_cases hip : oldIp = vm1.IntructionPointer
      · rw [if_pos hip] at h
        rw [if_pos hip]
        cases h; rfl
      · rw [if_neg hip] at h
        rw [if_neg hip]
        cases h; rfl

theorem saveByMode_ok_inv (vm vm1 : IntCodeVM) (p : Parameter) (value : Int)
    (h : p.SaveByMode vm value = (vm1, none)) :
    ∃ d, p.saveOffset vm = some d ∧ 0 ≤ d ∧ d < vm.Memory.length ∧
      vm1 = { vm with Memory := vm.Memory.set d.toNat value } := by
  unfold Parameter.SaveByMode at h
  cases hoff : p.saveOffset vm with
  | none => rw [hoff] at h; cases h
  | some d =>
    rw [hoff] at h
    simp only at h
    by_cases hout : d < 0 ∨ d ≥ vm.Memory.length
    · rw [if_pos hout] at h; cases h
    · rw [if_neg hout] at h
      refine ⟨d, rfl, by omega, by omega, ?_⟩
      cases h; rfl

/-- What the four three-parameter handlers do on a three-element parameter slice,
`f` being the value they store. -/
theorem arith_handlers (vm : IntCodeVM) (p0 p1 p2 : Parameter) :
    ∀ (op : IntCodeVM → List Parameter → Outcome (IntCodeVM × Option Err))
      (f : Int → Int → Int),
      (op = opAdd ∧ f = goAdd) ∨ (op = opMult ∧ f = goMul) ∨
      (op = opLessThan ∧ f = fun a b => if a < b then 1 else 0) ∨
      (op = opEquals ∧ f = fun a b => if a = b then 1 else 0) →
      op vm [p0, p1, p2] =
        match p0.GetByMode vm with
        | .panic => .panic
        | .ret (_, some err) => .ret (vm, some err)
        | .ret (a, none) =>
          match p1.GetByMode vm with
          | .panic => .panic
          | .ret (_, some err) => .ret (vm, some err)
          | .ret (b, none) => .ret (p2.SaveByMode vm (f a b)) := by
  intro op f h
  rcases h with ⟨rfl, rfl⟩ | ⟨rfl, rfl⟩ | ⟨rfl, rfl⟩ | ⟨rfl, rfl⟩
  · simp only [opAdd, readParm, saveParm, List.getElem?_cons_zero, List.getElem?_cons_succ]
  · simp only [opMult, readParm, saveParm, List.getElem?_cons_zero, List.getElem?_cons_succ]
  · simp only [opLessThan, readParm, saveParm, List.getElem?_cons_zero,
      List.getElem?_cons_succ]
    cases p0.GetByMode vm with
    | panic => rfl
    | ret r0 =>
      obtain ⟨a, e0⟩ := r0
      cases e0 with
      | some err => rfl
      | none =>
        cases p1.GetByMode vm with
        | panic => rfl
        | ret r1 =>
          obtain ⟨b, e1⟩ := r1
          cases e1 with
          | some err => rfl
          | none =>
            simp only
            split <;> rfl
  · simp only [opEquals, readParm, saveParm, List.getElem?_cons_zero,
      List.getElem?_cons_succ]
    cases p0.GetByMode vm with
    | panic => rfl
    | ret r0 =>
      obtain ⟨a, e0⟩ := r0
      cases e0 with
      | some err => rfl
      | none =>
        cases p1.GetByMode vm with
        | panic => rfl
        | ret r1 =>
          obtain ⟨b, e1⟩ := r1
          cases e1 with
          | some err => rfl
          | none =>
            simp only
            split <;> rfl

/-- A successful `Step` on an instruction whose handler is one of the four
three-parameter handlers: the two reads, the store and the advance by 4. -/
theorem step_three_inv (vm vm' : IntCodeVM) (w : Int) (opcode : OpCode)
    (f : Int → Int → Int)
    (hcap : (vm.Memory.length : Int) < 2 ^ 63)
    (hfetch : vm.GetInstruction = .ret (w, none))
    (hop : vmOpCodes (ParseParameterModes w).2 = some opcode)
    (hargc : opcode.Argc = 3)
    (hf : (opcode.Operation = opAdd ∧ f = goAdd) ∨ (opcode.Operation = opMult ∧ f = goMul) ∨
      (opcode.Operation = opLessThan ∧ f = fun a b => if a < b then 1 else 0) ∨
      (opcode.Operation = opEquals ∧ f = fun a b => if a = b then 1 else 0))
    (hstep : vm.Step = .ret (vm', none)) :
    ∃ arg0 arg1 arg2 a b d : Int,
      vm.Memory[(vm.IntructionPointer + 1).toNat]? = some arg0 ∧
      vm.Memory[(vm.IntructionPointer + 2).toNat]? = some arg1 ∧
      vm.Memory[(vm.IntructionPointer + 3).toNat]? = some arg2 ∧
      Parameter.GetByMode ⟨modeAt (ParseParameterModes w).1 0, arg0⟩ vm = .ret (a, none) ∧
      Parameter.GetByMode ⟨modeAt (ParseParameterModes w).1 1, arg1⟩ vm = .ret (b, none) ∧
      Parameter.saveOffset ⟨modeAt (ParseParameterModes w).1 2, arg2⟩ vm = some d ∧
      0 ≤ d ∧ d < vm.Memory.length ∧
      vm'.Memory = vm.Memory.set d.toNat (f a b) ∧
      vm'.IntructionPointer = vm.IntructionPointer + 4 ∧
      vm'.RelativeBase = vm.RelativeBase ∧
      vm'.Stdin = vm.Stdin ∧ vm'.Stdout = vm.Stdout := by
  obtain ⟨h0, h1⟩ := getInstruction_bounds vm w hfetch
  rw [step_of_fetch vm w opcode hcap hfetch hop, hargc] at hstep
  by_cases hroom : vm.IntructionPointer + (3 : Nat) < vm.Memory.length
  · rw [if_pos hroom] at hstep
    obtain ⟨vm1, hres, hvm'⟩ := finishStep_ok_inv _ _ _ _ hstep
    rw [stepParms_three, arith_handlers vm _ _ _ opcode.Operation f hf] at hres
    push_cast at hroom
    refine ⟨vm.Memory.getD (vm.IntructionPointer + 1).toNat 0,
      vm.Memory.getD (vm.IntructionPointer + 2).toNat 0,
      vm.Memory.getD (vm.IntructionPointer + 3).toNat 0, ?_⟩
    cases hg0 : Parameter.GetByMode ⟨modeAt (ParseParameterModes w).1 0,
        vm.Memory.getD (vm.IntructionPointer + 1).toNat 0⟩ vm with
    | panic => rw [hg0] at hres; cases hres
    | ret r0 =>
      obtain ⟨a, e0⟩ := r0
      cases e0 with
      | some err => rw [hg0] at hres; cases hres
      | none =>
        cases hg1 : Parameter.GetByMode ⟨modeAt (ParseParameterModes w).1 1,
            vm.Memory.getD (vm.IntructionPointer + 2).toNat 0⟩ vm with
        | panic => rw [hg0, hg1] at hres; cases hres
        | ret r1 =>
          obtain ⟨b, e1⟩ := r1
          cases e1 with
          | some err => rw [hg0, hg1] at hres; cases hres
          | none =>
            rw [hg0, hg1] at hres
            simp only [Outcome.ret.injEq] at hres
            obtain ⟨d, hd, hd0, hd1, hvm1⟩ := saveByMode_ok_inv _ _ _ _ hres
            have hip : vm.IntructionPointer = vm1.IntructionPointer := by rw [hvm1]
            rw [if_pos hip] at hvm'
            have hadv : goAdd vm1.IntructionPointer (goAdd 1 (3 : Nat)) =
                vm.IntructionPointer + 4 := by
              rw [← hip]
              have h4 : goAdd 1 ((3 : Nat) : Int) = 4 := by decide
              rw [h4, goAdd_of_inRange _ _ ⟨by omega, by omega⟩]
            refine ⟨a, b, d, getElem?_getD_of_lt _ _ (by omega) (by omega),
              getElem?_getD_of_lt _ _ (by omega) (by omega),
              getElem?_getD_of_lt _ _ (by omega) (by omega), rfl, rfl, hd, hd0, hd1, ?_⟩
            rw [hvm', hadv, hvm1]
            exact ⟨rfl, rfl, rfl, rfl, rfl⟩
  · rw [if_neg hroom] at hstep
    cases hstep

/-! ## Construction of a VM -/

theorem copyProgram_append : ∀ (prog : List Int) (pre mid post : List Int),
    mid.length = prog.length →
    copyProgram (pre ++ mid ++ post) prog pre.length = .ret (pre ++ prog ++ post) := by
  intro prog
  induction prog with
  | nil =>
    intro pre mid post hlen
    have : mid = [] := List.length_eq_zero.mp hlen
    subst this
    simp [copyProgram]
  | cons x rest ih =>
    intro pre mid post hlen
    cases mid with
    | nil => simp at hlen
    | cons y mid =>
      have hlen' : mid.length = rest.length := by simpa using hlen
      unfold copyProgram
      rw [if_pos (by simp)]
      have hset : (pre ++ y :: mid ++ post).set pre.length x = (pre ++ [x]) ++ mid ++ post := by
        simp [List.append_assoc]
      have := ih (pre ++ [x]) mid post hlen'
      rw [List.length_append, List.length_singleton] at this
      rw [hset, this]
      simp [List.append_assoc]

/-- The VM that `NewVM` builds around a parsed program of at most 102400 words. -/
theorem newVM_eq (program : String) (prog : List Int) (err : Option NumError)
    (hparse : ParseProgram program = (prog, err)) (hlen : prog.length ≤ 102400) :
    NewVM program =
      .ret ⟨0, 0, prog ++ List.replicate (102400 - prog.length) 0, ⟨[]⟩, ⟨[]⟩⟩ := by
  have hsplit : List.replicate (1024 * 100) (0 : Int) =
      [] ++ List.replicate prog.length 0 ++ List.replicate (102400 - prog.length) 0 := by
    rw [List.nil_append, List.append_replicate_replicate]
    congr 1
    omega
  have hcopy := copyProgram_append prog [] (List.replicate prog.length 0)
    (List.replicate (102400 - prog.length) 0) (by simp)
  rw [← hsplit] at hcopy
  unfold NewVM
  rw [hparse]
  simp only [List.length_nil] at hcopy
  simp only [hcopy, List.nil_append]

theorem newVM_add_program :
    NewVM "1,0,0,0,99" =
      .ret ⟨0, 0, [1, 0, 0, 0, 99] ++ List.replicate 102395 0, ⟨[]⟩, ⟨[]⟩⟩ :=
  newVM_eq "1,0,0,0,99" [1, 0, 0, 0, 99] none (by decide) (by decide)

theorem newVM_immediate_add_program :
    NewVM "1101,100,-1,4,0" =
      .ret ⟨0, 0, [1101, 100, -1, 4, 0] ++ List.replicate 102395 0, ⟨[]⟩, ⟨[]⟩⟩ :=
  newVM_eq "1101,100,-1,4,0" [1101, 100, -1, 4, 0] none (by decide) (by decide)

theorem newVM_echo_program :
    NewVM "3,0,4,0,99" =
      .ret ⟨0, 0, [3, 0, 4, 0, 99] ++ List.replicate 102395 0, ⟨[]⟩, ⟨[]⟩⟩ :=
  newVM_eq "3,0,4,0,99" [3, 0, 4, 0, 99] none (by decide) (by decide)

/-! ## One step: what each instruction does -/

theorem getD_of_getElem? (m : Memory) (i : Nat) (v : Int) (h : m[i]? = some v) :
    m.getD i 0 = v := by
  simp [List.getD, h]

theorem lt_length_of_getElem? (m : Memory) (i v : Int) (h0 : 0 ≤ i)
    (h : m[i.toNat]? = some v) : i < m.length := by
  have : i.toNat < m.length := by
    by_contra hcon
    rw [List.getElem?_eq_none_iff.mpr (Nat.le_of_not_lt hcon)] at h
    cases h
  omega

theorem getByMode_immediate (vm : IntCodeVM) (p : Parameter) (hm : p.Mode = IMEDIATE_MODE) :
    p.GetByMode vm = .ret (p.Arg, none) := by
  unfold Parameter.GetByMode
  rw [if_pos hm]

theorem getByMode_position (vm : IntCodeVM) (p : Parameter) (v : Int)
    (hm : p.Mode = POSITION_MODE) (h0 : 0 ≤ p.Arg)
    (hv : vm.Memory[p.Arg.toNat]? = some v) :
    p.GetByMode vm = .ret (v, none) := by
  have h1 := lt_length_of_getElem? _ _ _ h0 hv
  unfold Parameter.GetByMode
  rw [if_neg (by rw [hm]; decide), if_neg (by rw [hm]; decide), if_neg (by omega),
    (memIndex_ret_iff _ _ _).mpr ⟨h0, hv⟩]

theorem getByMode_relative (vm : IntCodeVM) (p : Parameter) (v : Int)
    (hcap : (vm.Memory.length : Int) < 2 ^ 63)
    (hm : p.Mode = RELATIVE_MODE) (h0 : 0 ≤ vm.RelativeBase + p.Arg)
    (hv : vm.Memory[(vm.RelativeBase + p.Arg).toNat]? = some v) :
    p.GetByMode vm = .ret (v, none) := by
  have h1 := lt_length_of_getElem? _ _ _ h0 hv
  have hw : goAdd vm.RelativeBase p.Arg = vm.RelativeBase + p.Arg :=
    goAdd_of_inRange _ _ ⟨by omega, by omega⟩
  unfold Parameter.GetByMode
  rw [if_neg (by rw [hm]; decide), if_pos hm]
  simp only [hw]
  rw [if_neg (by omega), (memIndex_ret_iff _ _ _).mpr ⟨h0, hv⟩]

theorem saveOffset_position (vm : IntCodeVM) (p : Parameter) (hm : p.Mode = POSITION_MODE) :
    p.saveOffset vm = some p.Arg := by
  unfold Parameter.saveOffset
  rw [if_neg (by rw [hm]; decide), if_neg (by rw [hm]; decide)]

theorem saveOffset_relative (vm : IntCodeVM) (p : Parameter) (hm : p.Mode = RELATIVE_MODE)
    (h : InIntRange (vm.RelativeBase + p.Arg)) :
    p.saveOffset vm = some (vm.RelativeBase + p.Arg) := by
  unfold Parameter.saveOffset
  rw [if_pos hm, goAdd_of_inRange _ _ h]

/-- The three-parameter instructions, forwards: both reads succeed and the
destination is inside the memory, so `Step` stores `f a b` and advances by 4. -/
theorem step_three_ok (vm : IntCodeVM) (w arg0 arg1 arg2 a b d : Int) (opcode : OpCode)
    (f : Int → Int → Int)
    (hcap : (vm.Memory.length : Int) < 2 ^ 63)
    (h0 : 0 ≤ vm.IntructionPointer)
    (hw : vm.Memory[vm.IntructionPointer.toNat]? = some w)
    (hop : vmOpCodes (ParseParameterModes w).2 = some opcode)
    (hargc : opcode.Argc = 3)
    (hf : (opcode.Operation = opAdd ∧ f = goAdd) ∨ (opcode.Operation = opMult ∧ f = goMul) ∨
      (opcode.Operation = opLessThan ∧ f = fun a b => if a < b then 1 else 0) ∨
      (opcode.Operation = opEquals ∧ f = fun a b => if a = b then 1 else 0))
    (h1 : vm.Memory[(vm.IntructionPointer + 1).toNat]? = some arg0)
    (h2 : vm.Memory[(vm.IntructionPointer + 2).toNat]? = some arg1)
    (h3 : vm.Memory[(vm.IntructionPointer + 3).toNat]? = some arg2)
    (hg0 : Parameter.GetByMode ⟨modeAt (ParseParameterModes w).1 0, arg0⟩ vm = .ret (a, none))
    (hg1 : Parameter.GetByMode ⟨modeAt (ParseParameterModes w).1 1, arg1⟩ vm = .ret (b, none))
    (hd : Parameter.saveOffset ⟨modeAt (ParseParameterModes w).1 2, arg2⟩ vm = some d)
    (hd0 : 0 ≤ d) (hd1 : d < vm.Memory.length) :
    vm.Step = .ret ({ vm with
      Memory := vm.Memory.set d.toNat (f a b),
      IntructionPointer := vm.IntructionPointer + 4 }, none) := by
  have hroom := lt_length_of_getElem? _ _ _ (by omega) h3
  rw [step_of_fetch vm w opcode hcap ((getInstruction_ret_iff vm w).mpr ⟨h0, hw⟩) hop, hargc,
    if_pos (by push_cast; omega), stepParms_three,
    arith_handlers vm _ _ _ opcode.Operation f hf,
    getD_of_getElem? _ _ _ h1, getD_of_getElem? _ _ _ h2, getD_of_getElem? _ _ _ h3,
    hg0, hg1]
  simp only [saveByMode_ok vm _ (f a b) d hd hd0 hd1, finishStep, if_true]
  have h4 : goAdd 1 ((3 : Nat) : Int) = 4 := by decide
  rw [h4, goAdd_of_inRange _ _ ⟨by omega, by omega⟩]

theorem step_halt (vm : IntCodeVM) (w : Int)
    (hcap : (vm.Memory.length : Int) < 2 ^ 63)
    (h0 : 0 ≤ vm.IntructionPointer)
    (hw : vm.Memory[vm.IntructionPointer.toNat]? = some w)
    (hop : (ParseParameterModes w).2 = 99) :
    vm.Step = .ret (vm, some .Halt) := by
  have hlt := lt_length_of_getElem? _ _ _ h0 hw
  rw [step_of_fetch vm w ⟨"halt", 99, 0, opHalt⟩ hcap
    ((getInstruction_ret_iff vm w).mpr ⟨h0, hw⟩) (by rw [hop]; rfl)]
  simp only [Nat.cast_zero, add_zero]
  rw [if_pos hlt]
  rfl

/-! ## Runs of the reference programs -/

theorem length_five_append_lt (pad : List Int) (hpad : (pad.length : Int) < 2 ^ 62)
    (x y z u t : Int) : ((([x, y, z, u, t] ++ pad).length : Nat) : Int) < 2 ^ 63 := by
  simp only [List.length_append, List.length_cons, List.length_nil]
  push_cast
  omega

theorem length_padding_lt : ((List.replicate 102395 (0 : Int)).length : Int) < 2 ^ 62 := by
  rw [List.length_replicate]; decide

/-- The program `1,0,0,0,99` in front of any further memory: one add, then halt. -/
theorem run_add_program (pad : List Int) (hpad : (pad.length : Int) < 2 ^ 62) (n : Nat) :
    IntCodeVM.RunUntilError (n + 2) ⟨0, 0, [1, 0, 0, 0, 99] ++ pad, ⟨[]⟩, ⟨[]⟩⟩ =
      some (.ret (⟨4, 0, [2, 0, 0, 0, 99] ++ pad, ⟨[]⟩, ⟨[]⟩⟩, .Halt)) := by
  have s1 : IntCodeVM.Step ⟨0, 0, [1, 0, 0, 0, 99] ++ pad, ⟨[]⟩, ⟨[]⟩⟩ =
      .ret (⟨4, 0, [2, 0, 0, 0, 99] ++ pad, ⟨[]⟩, ⟨[]⟩⟩, none) := by
    rw [step_three_ok ⟨0, 0, [1, 0, 0, 0, 99] ++ pad, ⟨[]⟩, ⟨[]⟩⟩ 1 0 0 0 1 1 0
      ⟨"add", 1, 3, opAdd⟩ goAdd (length_five_append_lt pad hpad _ _ _ _ _)
      (by simp) (by simp) rfl rfl
      (Or.inl ⟨rfl, rfl⟩) (by simp) (by simp) (by simp)
      (getByMode_position _ _ 1 (by decide) (by simp) (by simp))
      (getByMode_position _ _ 1 (by decide) (by simp) (by simp))
      (saveOffset_position _ _ (by decide)) (by simp)
      (by simp only [List.length_append, List.length_cons]; push_cast; omega)]
    have : goAdd 1 1 = 2 := by decide
    simp [this]
  have s2 : IntCodeVM.Step ⟨4, 0, [2, 0, 0, 0, 99] ++ pad, ⟨[]⟩, ⟨[]⟩⟩ =
      .ret (⟨4, 0, [2, 0, 0, 0, 99] ++ pad, ⟨[]⟩, ⟨[]⟩⟩, some .Halt) :=
    step_halt _ 99 (length_five_append_lt pad hpad _ _ _ _ _) (by simp) (by simp) (by decide)
  simp only [IntCodeVM.RunUntilError, s1, s2]

/-- The program `1101,100,-1,4,0` in front of any further memory: the immediate-mode
add writes 99 over the last word, which then halts the run. -/
theorem run_immediate_add_program (pad : List Int) (hpad : (pad.length : Int) < 2 ^ 62)
    (n : Nat) :
    IntCodeVM.RunUntilError (n + 2) ⟨0, 0, [1101, 100, -1, 4, 0] ++ pad, ⟨[]⟩, ⟨[]⟩⟩ =
      some (.ret (⟨4, 0, [1101, 100, -1, 4, 99] ++ pad, ⟨[]⟩, ⟨[]⟩⟩, .Halt)) := by
  have s1 : IntCodeVM.Step ⟨0, 0, [1101, 100, -1, 4, 0] ++ pad, ⟨[]⟩, ⟨[]⟩⟩ =
      .ret (⟨4, 0, [1101, 100, -1, 4, 99] ++ pad, ⟨[]⟩, ⟨[]⟩⟩, none) := by
    rw [step_three_ok ⟨0, 0, [1101, 100, -1, 4, 0] ++ pad, ⟨[]⟩, ⟨[]⟩⟩ 1101 100 (-1) 4 100 (-1) 4
      ⟨"add", 1, 3, opAdd⟩ goAdd (length_five_append_lt pad hpad _ _ _ _ _)
      (by simp) (by simp) rfl rfl
      (Or.inl ⟨rfl, rfl⟩) (by simp) (by simp) (by simp)
      (getByMode_immediate _ _ (by decide))
      (getByMode_immediate _ _ (by decide))
      (saveOffset_position _ _ (by decide)) (by simp)
      (by simp only [List.length_append, List.length_cons]; push_cast; omega)]
    have : goAdd 100 (-1) = 99 := by decide
    simp [this]
  have s2 : IntCodeVM.Step ⟨4, 0, [1101, 100, -1, 4, 99] ++ pad, ⟨[]⟩, ⟨[]⟩⟩ =
      .ret (⟨4, 0, [1101, 100, -1, 4, 99] ++ pad, ⟨[]⟩, ⟨[]⟩⟩, some .Halt) :=
    step_halt _ 99 (length_five_append_lt pad hpad _ _ _ _ _) (by simp) (by simp) (by decide)
  simp only [IntCodeVM.RunUntilError, s1, s2]

/-! ## Input, output and jumps -/

theorem step_input_empty (vm : IntCodeVM) (w arg : Int)
    (hcap : (vm.Memory.length : Int) < 2 ^ 63)
    (h0 : 0 ≤ vm.IntructionPointer)
    (hw : vm.Memory[vm.IntructionPointer.toNat]? = some w)
    (hop : (ParseParameterModes w).2 = 3)
    (h1 : vm.Memory[(vm.IntructionPointer + 1).toNat]? = some arg)
    (hempty : vm.Stdin.Buffer = []) :
    vm.Step = .ret (vm, some .ReadError) := by
  have hroom := lt_length_of_getElem? _ _ _ (by omega) h1
  rw [step_of_fetch vm w ⟨"input", 3, 1, opInput⟩ hcap
    ((getInstruction_ret_iff vm w).mpr ⟨h0, hw⟩) (by rw [hop]; rfl)]
  simp only [Nat.cast_one]
  rw [if_pos hroom]
  simp only [opInput, IntCodePipe.Read, hempty, finishStep]

theorem step_input_ok (vm : IntCodeVM) (w arg d v : Int) (rest : List Int)
    (hcap : (vm.Memory.length : Int) < 2 ^ 63)
    (h0 : 0 ≤ vm.IntructionPointer)
    (hw : vm.Memory[vm.IntructionPointer.toNat]? = some w)
    (hop : (ParseParameterModes w).2 = 3)
    (h1 : vm.Memory[(vm.IntructionPointer + 1).toNat]? = some arg)
    (hin : vm.Stdin.Buffer = v :: rest)
    (hd : Parameter.saveOffset ⟨modeAt (ParseParameterModes w).1 0, arg⟩ vm = some d)
    (hd0 : 0 ≤ d) (hd1 : d < vm.Memory.length) :
    vm.Step = .ret ({ vm with
      Memory := vm.Memory.set d.toNat v,
      IntructionPointer := vm.IntructionPointer + 2,
      Stdin := { Buffer := rest } }, none) := by
  have hroom := lt_length_of_getElem? _ _ _ (by omega) h1
  rw [step_of_fetch vm w ⟨"input", 3, 1, opInput⟩ hcap
    ((getInstruction_ret_iff vm w).mpr ⟨h0, hw⟩) (by rw [hop]; rfl)]
  simp only [Nat.cast_one]
  rw [if_pos hroom, stepParms_one, getD_of_getElem? _ _ _ h1]
  have hsave := saveByMode_ok { vm with Stdin := { Buffer := rest } }
    ⟨modeAt (ParseParameterModes w).1 0, arg⟩ v d hd hd0 hd1
  simp only [opInput, IntCodePipe.Read, hin, saveParm, List.getElem?_cons_zero, hsave,
    finishStep, if_true]
  have h2 : goAdd 1 ((1 : Nat) : Int) = 2 := by decide
  rw [h2, goAdd_of_inRange _ _ ⟨by omega, by omega⟩]

theorem step_output_ok (vm : IntCodeVM) (w arg a : Int)
    (hcap : (vm.Memory.length : Int) < 2 ^ 63)
    (h0 : 0 ≤ vm.IntructionPointer)
    (hw : vm.Memory[vm.IntructionPointer.toNat]? = some w)
    (hop : (ParseParameterModes w).2 = 4)
    (h1 : vm.Memory[(vm.IntructionPointer + 1).toNat]? = some arg)
    (hg : Parameter.GetByMode ⟨modeAt (ParseParameterModes w).1 0, arg⟩ vm = .ret (a, none)) :
    vm.Step = .ret ({ vm with
      Stdout := vm.Stdout.Write a,
      IntructionPointer := vm.IntructionPointer + 2 }, none) := by
  have hroom := lt_length_of_getElem? _ _ _ (by omega) h1
  rw [step_of_fetch vm w ⟨"output", 4, 1, opOutput⟩ hcap
    ((getInstruction_ret_iff vm w).mpr ⟨h0, hw⟩) (by rw [hop]; rfl)]
  simp only [Nat.cast_one]
  rw [if_pos hroom, stepParms_one, getD_of_getElem? _ _ _ h1]
  simp only [opOutput, readParm, List.getElem?_cons_zero, hg, finishStep, if_true]
  have h2 : goAdd 1 ((1 : Nat) : Int) = 2 := by decide
  rw [h2, goAdd_of_inRange _ _ ⟨by omega, by omega⟩]

theorem step_adjust_ok (vm : IntCodeVM) (w arg a : Int)
    (hcap : (vm.Memory.length : Int) < 2 ^ 63)
    (h0 : 0 ≤ vm.IntructionPointer)
    (hw : vm.Memory[vm.IntructionPointer.toNat]? = some w)
    (hop : (ParseParameterModes w).2 = 9)
    (h1 : vm.Memory[(vm.IntructionPointer + 1).toNat]? = some arg)
    (hg : Parameter.GetByMode ⟨modeAt (ParseParameterModes w).1 0, arg⟩ vm = .ret (a, none)) :
    vm.Step = .ret ({ vm with
      RelativeBase := goAdd vm.RelativeBase a,
      IntructionPointer := vm.IntructionPointer + 2 }, none) := by
  have hroom := lt_length_of_getElem? _ _ _ (by omega) h1
  rw [step_of_fetch vm w ⟨"adjust-base", 9, 1, opAdjustBase⟩ hcap
    ((getInstruction_ret_iff vm w).mpr ⟨h0, hw⟩) (by rw [hop]; rfl)]
  simp only [Nat.cast_one]
  rw [if_pos hroom, stepParms_one, getD_of_getElem? _ _ _ h1]
  simp only [opAdjustBase, readParm, List.getElem?_cons_zero, hg, finishStep, if_true]
  have h2 : goAdd 1 ((1 : Nat) : Int) = 2 := by decide
  rw [h2, goAdd_of_inRange _ _ ⟨by omega, by omega⟩]

/-- Opcode 9 in immediate mode followed by opcode 3 in relative mode: the input is
stored at the new relative base plus the raw argument of the input instruction. -/
theorem adjust_then_input (vm : IntCodeVM) (b o v : Int) (rest : List Int)
    (hcap : (vm.Memory.length : Int) < 2 ^ 63)
    (h0 : 0 ≤ vm.IntructionPointer)
    (hw0 : vm.Memory[vm.IntructionPointer.toNat]? = some 109)
    (hw1 : vm.Memory[(vm.IntructionPointer + 1).toNat]? = some b)
    (hw2 : vm.Memory[(vm.IntructionPointer + 2).toNat]? = some 203)
    (hw3 : vm.Memory[(vm.IntructionPointer + 3).toNat]? = some o)
    (hin : vm.Stdin.Buffer = v :: rest)
    (hbase : InIntRange (vm.RelativeBase + b))
    (hd0 : 0 ≤ vm.RelativeBase + b + o)
    (hd1 : vm.RelativeBase + b + o < vm.Memory.length) :
    vm.Step = .ret ({ vm with
        RelativeBase := vm.RelativeBase + b,
        IntructionPointer := vm.IntructionPointer + 2 }, none) ∧
    IntCodeVM.Step { vm with
        RelativeBase := vm.RelativeBase + b,
        IntructionPointer := vm.IntructionPointer + 2 } =
      .ret ({ vm with
        RelativeBase := vm.RelativeBase + b,
        IntructionPointer := vm.IntructionPointer + 4,
        Memory := vm.Memory.set (vm.RelativeBase + b + o).toNat v,
        Stdin := { Buffer := rest } }, none) := by
  have hlt3 := lt_length_of_getElem? _ _ _ (by omega) hw3
  constructor
  · rw [step_adjust_ok vm 109 b b hcap h0 hw0 (by decide) hw1
      (getByMode_immediate _ _
        (show modeAt (ParseParameterModes 109).1 0 = IMEDIATE_MODE by decide)),
      goAdd_of_inRange _ _ hbase]
  · have hstep := step_input_ok
      { vm with RelativeBase := vm.RelativeBase + b,
                IntructionPointer := vm.IntructionPointer + 2 }
      203 o (vm.RelativeBase + b + o) v rest hcap
      (show 0 ≤ vm.IntructionPointer + 2 by omega) hw2 (by decide)
      (by
        show vm.Memory[(vm.IntructionPointer + 2 + 1).toNat]? = some o
        rw [show vm.IntructionPointer + 2 + 1 = vm.IntructionPointer + 3 by omega]
        exact hw3)
      hin
      (saveOffset_relative _ ⟨_, o⟩
        (show modeAt (ParseParameterModes 203).1 0 = RELATIVE_MODE by decide)
        (show InIntRange (vm.RelativeBase + b + o) from ⟨by omega, by omega⟩))
      hd0 hd1
    rw [hstep]
    simp only [Outcome.ret.injEq, Prod.mk.injEq, and_true]
    congr 1
    omega

/-- The program `3,0,4,0,99` in front of any further memory, with `v` waiting on the
input channel: input, output, halt. -/
theorem run_echo_program (pad : List Int) (hpad : (pad.length : Int) < 2 ^ 62)
    (v : Int) (n : Nat) :
    IntCodeVM.RunUntilError (n + 3) ⟨0, 0, [3, 0, 4, 0, 99] ++ pad, ⟨[v]⟩, ⟨[]⟩⟩ =
      some (.ret (⟨4, 0, [v, 0, 4, 0, 99] ++ pad, ⟨[]⟩, ⟨[v]⟩⟩, .Halt)) := by
  have s1 : IntCodeVM.Step ⟨0, 0, [3, 0, 4, 0, 99] ++ pad, ⟨[v]⟩, ⟨[]⟩⟩ =
      .ret (⟨2, 0, [v, 0, 4, 0, 99] ++ pad, ⟨[]⟩, ⟨[]⟩⟩, none) := by
    rw [step_input_ok ⟨0, 0, [3, 0, 4, 0, 99] ++ pad, ⟨[v]⟩, ⟨[]⟩⟩ 3 0 0 v []
      (length_five_append_lt pad hpad _ _ _ _ _) (by simp) (by simp) rfl (by simp) rfl
      (saveOffset_position _ _ (by decide)) (by simp)
      (by simp only [List.length_append, List.length_cons]; push_cast; omega)]
    simp
  have s2 : IntCodeVM.Step ⟨2, 0, [v, 0, 4, 0, 99] ++ pad, ⟨[]⟩, ⟨[]⟩⟩ =
      .ret (⟨4, 0, [v, 0, 4, 0, 99] ++ pad, ⟨[]⟩, ⟨[v]⟩⟩, none) := by
    rw [step_output_ok ⟨2, 0, [v, 0, 4, 0, 99] ++ pad, ⟨[]⟩, ⟨[]⟩⟩ 4 0 v
      (length_five_append_lt pad hpad _ _ _ _ _) (by simp) (by simp) rfl (by simp)
      (getByMode_position _ _ v (by decide) (by simp) (by simp))]
    simp [IntCodePipe.Write]
  have s3 : IntCodeVM.Step ⟨4, 0, [v, 0, 4, 0, 99] ++ pad, ⟨[]⟩, ⟨[v]⟩⟩ =
      .ret (⟨4, 0, [v, 0, 4, 0, 99] ++ pad, ⟨[]⟩, ⟨[v]⟩⟩, some .Halt) :=
    step_halt _ 99 (length_five_append_lt pad hpad _ _ _ _ _) (by simp) (by simp) (by decide)
  simp only [IntCodeVM.RunUntilError, s1, s2, s3]

/-! ## The relative base -/

theorem saveByMode_relativeBase (p : Parameter) (vm vm1 : IntCodeVM) (value : Int)
    (e : Option Err) (h : p.SaveByMode vm value = (vm1, e)) :
    vm1.RelativeBase = vm.RelativeBase := by
  unfold Parameter.SaveByMode at h
  repeat' split at h
  all_goals (cases h; rfl)

theorem opAdd_relativeBase (vm vm1 : IntCodeVM) (ps : List Parameter) (e : Option Err)
    (h : opAdd vm ps = .ret (vm1, e)) : vm1.RelativeBase = vm.RelativeBase := by
  simp only [opAdd, readParm, saveParm] at h
  repeat' split at h
  all_goals first
    | (cases h; done)
    | (cases h; rfl)
    | (have hsave := saveByMode_relativeBase _ _ _ _ _ (Outcome.ret.inj h); exact hsave)

theorem opMult_relativeBase (vm vm1 : IntCodeVM) (ps : List Parameter) (e : Option Err)
    (h : opMult vm ps = .ret (vm1, e)) : vm1.RelativeBase = vm.RelativeBase := by
  simp only [opMult, readParm, saveParm] at h
  repeat' split at h
  all_goals first
    | (cases h; done)
    | (cases h; rfl)
    | (have hsave := saveByMode_relativeBase _ _ _ _ _ (Outcome.ret.inj h); exact hsave)

theorem opInput_relativeBase (vm vm1 : IntCodeVM) (ps : List Parameter) (e : Option Err)
    (h : opInput vm ps = .ret (vm1, e)) : vm1.RelativeBase = vm.RelativeBase := by
  simp only [opInput, readParm, saveParm, IntCodePipe.Read] at h
  repeat' split at h
  all_goals first
    | (cases h; done)
    | (cases h; rfl)
    | (have hsave := saveByMode_relativeBase _ _ _ _ _ (Outcome.ret.inj h); exact hsave)

theorem opOutput_relativeBase (vm vm1 : IntCodeVM) (ps : List Parameter) (e : Option Err)
    (h : opOutput vm ps = .ret (vm1, e)) : vm1.RelativeBase = vm.RelativeBase := by
  simp only [opOutput, readParm, saveParm] at h
  repeat' split at h
  all_goals first
    | (cases h; done)
    | (cases h; rfl)

theorem opJmpIfTrue_relativeBase (vm vm1 : IntCodeVM) (ps : List Parameter) (e : Option Err)
    (h : opJmpIfTrue vm ps = .ret (vm1, e)) : vm1.RelativeBase = vm.RelativeBase := by
  simp only [opJmpIfTrue, readParm, saveParm] at h
  repeat' split at h
  all_goals first
    | (cases h; done)
    | (cases h; rfl)

theorem opJmpIfFalse_relativeBase (vm vm1 : IntCodeVM) (ps : List Parameter) (e : Option Err)
    (h : opJmpIfFalse vm ps = .ret (vm1, e)) : vm1.RelativeBase = vm.RelativeBase := by
  simp only [opJmpIfFalse, readParm, saveParm] at h
  repeat' split at h
  all_goals first
    | (cases h; done)
    | (cases h; rfl)

theorem opLessThan_relativeBase (vm vm1 : IntCodeVM) (ps : List Parameter) (e : Option Err)
    (h : opLessThan vm ps = .ret (vm1, e)) : vm1.RelativeBase = vm.RelativeBase := by
  simp only [opLessThan, readParm, saveParm] at h
  repeat' split at h
  all_goals first
    | (cases h; done)
    | (cases h; rfl)
    | (have hsave := saveByMode_relativeBase _ _ _ _ _ (Outcome.ret.inj h); exact hsave)

theorem opEquals_relativeBase (vm vm1 : IntCodeVM) (ps : List Parameter) (e : Option Err)
    (h : opEquals vm ps = .ret (vm1, e)) : vm1.RelativeBase = vm.RelativeBase := by
  simp only [opEquals, readParm, saveParm] at h
  repeat' split at h
  all_goals first
    | (cases h; done)
    | (cases h; rfl)
    | (have hsave := saveByMode_relativeBase _ _ _ _ _ (Outcome.ret.inj h); exact hsave)

theorem opHalt_relativeBase (vm vm1 : IntCodeVM) (ps : List Parameter) (e : Option Err)
    (h : opHalt vm ps = .ret (vm1, e)) : vm1.RelativeBase = vm.RelativeBase := by
  cases h; rfl

theorem finishStep_relativeBase (oldIp : Int) (argc : Nat)
    (r : Outcome (IntCodeVM × Option Err)) (vm' : IntCodeVM) (e : Option Err)
    (h : finishStep oldIp argc r = .ret (vm', e)) :
    ∃ vm1 e1, r = .ret (vm1, e1) ∧ vm'.RelativeBase = vm1.RelativeBase := by
  cases r with
  | panic => cases h
  | ret r =>
    obtain ⟨vm1, e1⟩ := r
    refine ⟨vm1, e1, rfl, ?_⟩
    cases e1 with
    | some err => simp only [finishStep] at h; cases h; rfl
    | none =>
      simp only [finishStep] at h
      split at h <;> (cases h; rfl)

/-- The entries of the opcode table, by number. -/
theorem vmOpCodes_some (k : Int) (opcode : OpCode) (h : vmOpCodes k = some opcode) :
    (k = 99 ∧ opcode = ⟨"halt", 99, 0, opHalt⟩) ∨
    (k = 9 ∧ opcode = ⟨"adjust-base", 9, 1, opAdjustBase⟩) ∨
    (k = 8 ∧ opcode = ⟨"equals", 8, 3, opEquals⟩) ∨
    (k = 7 ∧ opcode = ⟨"less-than", 7, 3, opLessThan⟩) ∨
    (k = 6 ∧ opcode = ⟨"jmp-if-false", 6, 2, opJmpIfFalse⟩) ∨
    (k = 5 ∧ opcode = ⟨"jmp-if-true", 5, 2, opJmpIfTrue⟩) ∨
    (k = 4 ∧ opcode = ⟨"output", 4, 1, opOutput⟩) ∨
    (k = 3 ∧ opcode = ⟨"input", 3, 1, opInput⟩) ∨
    (k = 2 ∧ opcode = ⟨"mult", 2, 3, opMult⟩) ∨
    (k = 1 ∧ opcode = ⟨"add", 1, 3, opAdd⟩) := by
  rw [vmOpCodes_eq] at h
  by_cases h99 : k = 99
  · left
    rw [if_pos h99] at h
    exact ⟨h99, (Option.some.inj h).symm⟩
  right
  by_cases h9 : k = 9
  · left
    rw [if_neg h99, if_pos h9] at h
    exact ⟨h9, (Option.some.inj h).symm⟩
  right
  by_cases h8 : k = 8
  · left
    rw [if_neg h99, if_neg h9, if_pos h8] at h
    exact ⟨h8, (Option.some.inj h).symm⟩
  right
  by_cases h7 : k = 7
  · left
    rw [if_neg h99, if_neg h9, if_neg h8, if_pos h7] at h
    exact ⟨h7, (Option.some.inj h).symm⟩
  right
  by_cases h6 : k = 6
  · left
    rw [if_neg h99, if_neg h9, if_neg h8, if_neg h7, if_pos h6] at h
    exact ⟨h6, (Option.some.inj h).symm⟩
  right
  by_cases h5 : k = 5
  · left
    rw [if_neg h99, if_neg h9, if_neg h8, if_neg h7, if_neg h6, if_pos h5] at h
    exact ⟨h5, (Option.some.inj h).symm⟩
  right
  by_cases h4 : k = 4
  · left
    rw [if_neg h99, if_neg h9, if_neg h8, if_neg h7, if_neg h6, if_neg h5, if_pos h4] at h
    exact ⟨h4, (Option.some.inj h).symm⟩
  right
  by_cases h3 : k = 3
  · left
    rw [if_neg h99, if_neg h9, if_neg h8, if_neg h7, if_neg h6, if_neg h5, if_neg h4, if_pos h3] at h
    exact ⟨h3, (Option.some.inj h).symm⟩
  right
  by_cases h2 : k = 2
  · left
    rw [if_neg h99, if_neg h9, if_neg h8, if_neg h7, if_neg h6, if_neg h5, if_neg h4, if_neg h3, if_pos h2] at h
    exact ⟨h2, (Option.some.inj h).symm⟩
  right
  by_cases h1 : k = 1
  · rw [if_neg h99, if_neg h9, if_neg h8, if_neg h7, if_neg h6, if_neg h5, if_neg h4, if_neg h3, if_neg h2, if_pos h1] at h
    exact ⟨h1, (Option.some.inj h).symm⟩
  rw [if_neg h99, if_neg h9, if_neg h8, if_neg h7, if_neg h6, if_neg h5, if_neg h4, if_neg h3, if_neg h2, if_neg h1] at h
  cases h

/-- Whatever `Step` returns, an instruction other than opcode 9 leaves the relative
base as it was. -/
theorem step_relativeBase_of_ne (vm vm' : IntCodeVM) (w : Int) (e : Option Err)
    (hcap : (vm.Memory.length : Int) < 2 ^ 63)
    (hfetch : vm.GetInstruction = .ret (w, none))
    (hne : (ParseParameterModes w).2 ≠ 9)
    (hstep : vm.Step = .ret (vm', e)) :
    vm'.RelativeBase = vm.RelativeBase := by
  cases hop : vmOpCodes (ParseParameterModes w).2 with
  | none =>
    unfold IntCodeVM.Step at hstep
    rw [hfetch] at hstep
    simp only [hop] at hstep
    cases hstep
    rfl
  | some opcode =>
    rw [step_of_fetch vm w opcode hcap hfetch hop] at hstep
    split at hstep
    · obtain ⟨vm1, e1, hres, hrb⟩ := finishStep_relativeBase _ _ _ _ _ hstep
      rw [hrb]
      rcases vmOpCodes_some _ _ hop with ⟨_, h⟩ | ⟨h9, _⟩ | ⟨_, h⟩ | ⟨_, h⟩ | ⟨_, h⟩ |
        ⟨_, h⟩ | ⟨_, h⟩ | ⟨_, h⟩ | ⟨_, h⟩ | ⟨_, h⟩
      · rw [h] at hres; exact opHalt_relativeBase vm vm1 [] e1 hres
      · exact absurd h9 hne
      · rw [h] at hres; exact opEquals_relativeBase _ _ _ _ hres
      · rw [h] at hres; exact opLessThan_relativeBase _ _ _ _ hres
      · rw [h] at hres; exact opJmpIfFalse_relativeBase _ _ _ _ hres
      · rw [h] at hres; exact opJmpIfTrue_relativeBase _ _ _ _ hres
      · rw [h] at hres; exact opOutput_relativeBase _ _ _ _ hres
      · rw [h] at hres; exact opInput_relativeBase _ _ _ _ hres
      · rw [h] at hres; exact opMult_relativeBase _ _ _ _ hres
      · rw [h] at hres; exact opAdd_relativeBase _ _ _ _ hres
    · cases hstep

/-! ## Bounds checks of the read path -/

/-- Reads outside `[0, capacity)`: the relative-mode branch returns `ErrSegFault` on
both sides, the position-mode branch returns `ErrSegFault` above the capacity and
indexes the slice (a run-time panic) below zero. -/
theorem getByMode_out_of_range (vm : IntCodeVM) (p : Parameter) :
    (p.Mode = RELATIVE_MODE →
      (goAdd vm.RelativeBase p.Arg < 0 ∨ (vm.Memory.length : Int) ≤ goAdd vm.RelativeBase p.Arg) →
      p.GetByMode vm = .ret (0, some .SegFault)) ∧
    (p.Mode = POSITION_MODE → (vm.Memory.length : Int) ≤ p.Arg →
      p.GetByMode vm = .ret (0, some .SegFault)) ∧
    (p.Mode = POSITION_MODE → p.Arg < 0 → p.GetByMode vm = .panic) := by
  refine ⟨?_, ?_, ?_⟩
  · intro hm hout
    unfold Parameter.GetByMode
    rw [if_neg (by rw [hm]; decide), if_pos hm]
    simp only
    rw [if_pos (by omega)]
  · intro hm hout
    unfold Parameter.GetByMode
    rw [if_neg (by rw [hm]; decide), if_neg (by rw [hm]; decide), if_pos (by omega)]
  · intro hm hneg
    unfold Parameter.GetByMode
    rw [if_neg (by rw [hm]; decide), if_neg (by rw [hm]; decide), if_neg (by omega),
      (memIndex_panic_iff _ _).mpr (Or.inl hneg)]

/-! ## Jumps -/

/-- What the two jump handlers do on a two-element parameter slice, `taken` being
the test on the first parameter. -/
theorem jump_handlers (vm : IntCodeVM) (p0 p1 : Parameter) :
    ∀ (op : IntCodeVM → List Parameter → Outcome (IntCodeVM × Option Err))
      (taken : Int → Prop) [DecidablePred taken],
      (op = opJmpIfTrue ∧ ∀ a, taken a ↔ a ≠ 0) ∨ (op = opJmpIfFalse ∧ ∀ a, taken a ↔ a = 0) →
      op vm [p0, p1] =
        match p0.GetByMode vm with
        | .panic => .panic
        | .ret (_, some err) => .ret (vm, some err)
        | .ret (a, none) =>
          if taken a then
            match p1.GetByMode vm with
            | .panic => .panic
            | .ret (_, some err) => .ret (vm, some err)
            | .ret (location, none) => .ret ({ vm with IntructionPointer := location }, none)
          else .ret (vm, none) := by
  intro op taken _ h
  rcases h with ⟨rfl, ht⟩ | ⟨rfl, ht⟩
  · simp only [opJmpIfTrue, readParm, List.getElem?_cons_zero, List.getElem?_cons_succ]
    cases p0.GetByMode vm with
    | panic => rfl
    | ret r0 =>
      obtain ⟨a, e0⟩ := r0
      cases e0 with
      | some err => rfl
      | none =>
        simp only
        by_cases ha : a ≠ 0
        · rw [if_pos ha, if_pos ((ht a).mpr ha)]
        · rw [if_neg ha, if_neg (fun h => ha ((ht a).mp h))]
  · simp only [opJmpIfFalse, readParm, List.getElem?_cons_zero, List.getElem?_cons_succ]
    cases p0.GetByMode vm with
    | panic => rfl
    | ret r0 =>
      obtain ⟨a, e0⟩ := r0
      cases e0 with
      | some err => rfl
      | none =>
        simp only
        by_cases ha : a = 0
        · rw [if_pos ha, if_pos ((ht a).mpr ha)]
        · rw [if_neg ha, if_neg (fun h => ha ((ht a).mp h))]

/-- A successful `Step` on a jump instruction: when the jump is not taken the
instruction pointer advances by 3; when it is taken to `b`, the instruction pointer
is `b`, except for `b` equal to the address of the jump, where it advances by 3.
Memory, relative base and channels are unchanged. -/
theorem step_jump_inv (vm vm' : IntCodeVM) (w : Int) (opcode : OpCode)
    (taken : Int → Prop) [DecidablePred taken]
    (hcap : (vm.Memory.length : Int) < 2 ^ 63)
    (hfetch : vm.GetInstruction = .ret (w, none))
    (hop : vmOpCodes (ParseParameterModes w).2 = some opcode)
    (hargc : opcode.Argc = 2)
    (hj : (opcode.Operation = opJmpIfTrue ∧ ∀ a, taken a ↔ a ≠ 0) ∨
      (opcode.Operation = opJmpIfFalse ∧ ∀ a, taken a ↔ a = 0))
    (hstep : vm.Step = .ret (vm', none)) :
    ∃ arg0 arg1 a : Int,
      vm.Memory[(vm.IntructionPointer + 1).toNat]? = some arg0 ∧
      vm.Memory[(vm.IntructionPointer + 2).toNat]? = some arg1 ∧
      Parameter.GetByMode ⟨modeAt (ParseParameterModes w).1 0, arg0⟩ vm = .ret (a, none) ∧
      (taken a → ∃ b,
        Parameter.GetByMode ⟨modeAt (ParseParameterModes w).1 1, arg1⟩ vm = .ret (b, none) ∧
        vm'.IntructionPointer =
          if b = vm.IntructionPointer then vm.IntructionPointer + 3 else b) ∧
      (¬ taken a → vm'.IntructionPointer = vm.IntructionPointer + 3) ∧
      vm'.Memory = vm.Memory ∧ vm'.RelativeBase = vm.RelativeBase ∧
      vm'.Stdin = vm.Stdin ∧ vm'.Stdout = vm.Stdout := by
  obtain ⟨h0, h1⟩ := getInstruction_bounds vm w hfetch
  rw [step_of_fetch vm w opcode hcap hfetch hop, hargc] at hstep
  by_cases hroom : vm.IntructionPointer + (2 : Nat) < vm.Memory.length
  · rw [if_pos hroom] at hstep
    obtain ⟨vm1, hres, hvm'⟩ := finishStep_ok_inv _ _ _ _ hstep
    rw [stepParms_two, jump_handlers vm _ _ opcode.Operation taken hj] at hres
    push_cast at hroom
    have h3 : goAdd 1 ((2 : Nat) : Int) = 3 := by decide
    have hadv : goAdd vm.IntructionPointer (goAdd 1 ((2 : Nat) : Int)) =
        vm.IntructionPointer + 3 := by
      rw [h3, goAdd_of_inRange _ _ ⟨by omega, by omega⟩]
    refine ⟨vm.Memory.getD (vm.IntructionPointer + 1).toNat 0,
      vm.Memory.getD (vm.IntructionPointer + 2).toNat 0, ?_⟩
    cases hg0 : Parameter.GetByMode ⟨modeAt (ParseParameterModes w).1 0,
        vm.Memory.getD (vm.IntructionPointer + 1).toNat 0⟩ vm with
    | panic => rw [hg0] at hres; cases hres
    | ret r0 =>
      obtain ⟨a, e0⟩ := r0
      cases e0 with
      | some err => rw [hg0] at hres; cases hres
      | none =>
        rw [hg0] at hres
        simp only at hres
        refine ⟨a, getElem?_getD_of_lt _ _ (by omega) (by omega),
          getElem?_getD_of_lt _ _ (by omega) (by omega), rfl, ?_⟩
        by_cases ht : taken a
        · rw [if_pos ht] at hres
          cases hg1 : Parameter.GetByMode ⟨modeAt (ParseParameterModes w).1 1,
              vm.Memory.getD (vm.IntructionPointer + 2).toNat 0⟩ vm with
          | panic => rw [hg1] at hres; cases hres
          | ret r1 =>
            obtain ⟨b, e1⟩ := r1
            cases e1 with
            | some err => rw [hg1] at hres; cases hres
            | none =>
              rw [hg1] at hres
              simp only [Outcome.ret.injEq, Prod.mk.injEq, and_true] at hres
              subst hres
              by_cases hb : b = vm.IntructionPointer
              · subst hb
                simp only [if_true] at hvm'
                rw [hadv] at hvm'
                subst hvm'
                exact ⟨fun _ => ⟨_, rfl, by simp⟩, fun hn => absurd ht hn, rfl, rfl, rfl, rfl⟩
              · have hne : ¬ vm.IntructionPointer = b := fun h => hb h.symm
                simp only [if_neg hne] at hvm'
                subst hvm'
                exact ⟨fun _ => ⟨b, rfl, by simp [hb]⟩, fun hn => absurd ht hn,
                  rfl, rfl, rfl, rfl⟩
        · rw [if_neg ht] at hres
          simp only [Outcome.ret.injEq, Prod.mk.injEq, and_true] at hres
          subst hres
          simp only [if_true] at hvm'
          rw [hadv] at hvm'
          subst hvm'
          exact ⟨fun h => absurd h ht, fun _ => rfl, rfl, rfl, rfl, rfl⟩
  · rw [if_neg hroom] at hstep
    cases hstep

/-! ## Failed steps -/

theorem getByMode_error (p : Parameter) (vm : IntCodeVM) (v : Int) (e : Err)
    (h : p.GetByMode vm = .ret (v, some e)) : e = .SegFault := by
  unfold Parameter.GetByMode at h
  by_cases h1 : p.Mode = IMEDIATE_MODE
  · rw [if_pos h1] at h; cases h
  · rw [if_neg h1] at h
    by_cases h2 : p.Mode = RELATIVE_MODE
    · rw [if_pos h2] at h
      simp only at h
      split at h
      · cases h; rfl
      · split at h <;> cases h
    · rw [if_neg h2] at h
      split at h
      · cases h; rfl
      · split at h <;> cases h

theorem readParm_error (ps : List Parameter) (i : Nat) (vm : IntCodeVM) (v : Int) (e : Err)
    (h : readParm ps i vm = .ret (v, some e)) : e = .SegFault := by
  unfold readParm at h
  split at h
  · cases h
  · exact getByMode_error _ _ _ _ h

theorem saveByMode_error (p : Parameter) (vm vm1 : IntCodeVM) (value : Int) (e : Err)
    (h : p.SaveByMode vm value = (vm1, some e)) :
    vm1 = vm ∧ (e = .SegFault ∨ e = .ImediateMemset) := by
  unfold Parameter.SaveByMode at h
  repeat' split at h
  · cases h; exact ⟨rfl, Or.inr rfl⟩
  · cases h; exact ⟨rfl, Or.inl rfl⟩
  · cases h

theorem saveParm_error (ps : List Parameter) (i : Nat) (vm vm1 : IntCodeVM) (value : Int)
    (e : Err) (h : saveParm ps i vm value = .ret (vm1, some e)) :
    vm1 = vm ∧ (e = .SegFault ∨ e = .ImediateMemset) := by
  unfold saveParm at h
  split at h
  · cases h
  · exact saveByMode_error _ _ _ _ _ (Outcome.ret.inj h)

theorem opAdd_error (vm vm1 : IntCodeVM) (ps : List Parameter) (e : Err)
    (h : opAdd vm ps = .ret (vm1, some e)) :
    vm1 = vm ∧ (e = .SegFault ∨ e = .ImediateMemset) := by
  simp only [opAdd] at h
  repeat' split at h
  all_goals first
    | (cases h; done)
    | (cases h; exact ⟨rfl, Or.inl (readParm_error _ _ _ _ _ (by assumption))⟩)
    | exact saveParm_error _ _ _ _ _ _ h

theorem opMult_error (vm vm1 : IntCodeVM) (ps : List Parameter) (e : Err)
    (h : opMult vm ps = .ret (vm1, some e)) :
    vm1 = vm ∧ (e = .SegFault ∨ e = .ImediateMemset) := by
  simp only [opMult] at h
  repeat' split at h
  all_goals first
    | (cases h; done)
    | (cases h; exact ⟨rfl, Or.inl (readParm_error _ _ _ _ _ (by assumption))⟩)
    | exact saveParm_error _ _ _ _ _ _ h

theorem opLessThan_error (vm vm1 : IntCodeVM) (ps : List Parameter) (e : Err)
    (h : opLessThan vm ps = .ret (vm1, some e)) :
    vm1 = vm ∧ (e = .SegFault ∨ e = .ImediateMemset) := by
  simp only [opLessThan] at h
  repeat' split at h
  all_goals first
    | (cases h; done)
    | (cases h; exact ⟨rfl, Or.inl (readParm_error _ _ _ _ _ (by assumption))⟩)
    | exact saveParm_error _ _ _ _ _ _ h

theorem opEquals_error (vm vm1 : IntCodeVM) (ps : List Parameter) (e : Err)
    (h : opEquals vm ps = .ret (vm1, some e)) :
    vm1 = vm ∧ (e = .SegFault ∨ e = .ImediateMemset) := by
  simp only [opEquals] at h
  repeat' split at h
  all_goals first
    | (cases h; done)
    | (cases h; exact ⟨rfl, Or.inl (readParm_error _ _ _ _ _ (by assumption))⟩)
    | exact saveParm_error _ _ _ _ _ _ h

theorem opOutput_error (vm vm1 : IntCodeVM) (ps : List Parameter) (e : Err)
    (h : opOutput vm ps = .ret (vm1, some e)) :
    vm1 = vm ∧ (e = .SegFault ∨ e = .ImediateMemset) := by
  simp only [opOutput] at h
  repeat' split at h
  all_goals first
    | (cases h; done)
    | (cases h; exact ⟨rfl, Or.inl (readParm_error _ _ _ _ _ (by assumption))⟩)

theorem opJmpIfTrue_error (vm vm1 : IntCodeVM) (ps : List Parameter) (e : Err)
    (h : opJmpIfTrue vm ps = .ret (vm1, some e)) :
    vm1 = vm ∧ (e = .SegFault ∨ e = .ImediateMemset) := by
  simp only [opJmpIfTrue] at h
  repeat' split at h
  all_goals first
    | (cases h; done)
    | (cases h; exact ⟨rfl, Or.inl (readParm_error _ _ _ _ _ (by assumption))⟩)

theorem opJmpIfFalse_error (vm vm1 : IntCodeVM) (ps : List Parameter) (e : Err)
    (h : opJmpIfFalse vm ps = .ret (vm1, some e)) :
    vm1 = vm ∧ (e = .SegFault ∨ e = .ImediateMemset) := by
  simp only [opJmpIfFalse] at h
  repeat' split at h
  all_goals first
    | (cases h; done)
    | (cases h; exact ⟨rfl, Or.inl (readParm_error _ _ _ _ _ (by assumption))⟩)

theorem opAdjustBase_error (vm vm1 : IntCodeVM) (ps : List Parameter) (e : Err)
    (h : opAdjustBase vm ps = .ret (vm1, some e)) :
    vm1 = vm ∧ (e = .SegFault ∨ e = .ImediateMemset) := by
  simp only [opAdjustBase] at h
  repeat' split at h
  all_goals first
    | (cases h; done)
    | (cases h; exact ⟨rfl, Or.inl (readParm_error _ _ _ _ _ (by assumption))⟩)

/-- A failed input instruction: either the channel was empty and nothing changed, or
a value was taken from the channel and the store through the parameter failed. -/
theorem opInput_error (vm vm1 : IntCodeVM) (ps : List Parameter) (e : Err)
    (h : opInput vm ps = .ret (vm1, some e)) :
    (vm1 = vm ∧ e = .ReadError ∧ vm.Stdin.Buffer = []) ∨
    (∃ p v rest, ps[0]? = some p ∧ vm.Stdin.Buffer = v :: rest ∧
      vm1 = { vm with Stdin := { Buffer := rest } } ∧
      p.SaveByMode { vm with Stdin := { Buffer := rest } } v = (vm1, some e)) := by
  unfold opInput IntCodePipe.Read at h
  cases hbuf : vm.Stdin.Buffer with
  | nil =>
    rw [hbuf] at h
    simp only at h
    cases h
    exact Or.inl ⟨rfl, rfl, rfl⟩
  | cons v rest =>
    rw [hbuf] at h
    simp only [saveParm] at h
    split at h
    · cases h
    · rename_i p hp
      have hs := Outcome.ret.inj h
      have hv := (saveByMode_error _ _ _ _ _ hs).1
      exact Or.inr ⟨p, v, rest, hp, rfl, hv, hs⟩

theorem getInstruction_error (vm : IntCodeVM) (v : Int) (e : Err)
    (h : vm.GetInstruction = .ret (v, some e)) : e = .SegFault := by
  unfold IntCodeVM.GetInstruction at h
  split at h
  · cases h; rfl
  · split at h <;> cases h

theorem loadParms_error (vm : IntCodeVM) (modes : ModeMap) :
    ∀ (n i : Nat) (ps : List Parameter) (e : Err),
      loadParms vm modes n i = .ret (ps, some e) → e = .SegFault := by
  intro n
  induction n with
  | zero => intro i ps e h; cases h
  | succ n ih =>
    intro i ps e h
    unfold loadParms at h
    simp only at h
    split at h
    · cases h; rfl
    · split at h
      · cases h
      · split at h
        · cases h
        · rename_i hrec
          cases h
          exact ih _ _ _ hrec
        · cases h

theorem finishStep_error_inv (oldIp : Int) (argc : Nat) (r : Outcome (IntCodeVM × Option Err))
    (vm' : IntCodeVM) (e : Err) (h : finishStep oldIp argc r = .ret (vm', some e)) :
    r = .ret (vm', some e) := by
  cases r with
  | panic => cases h
  | ret r =>
    obtain ⟨vm1, e1⟩ := r
    cases e1 with
    | some err => simp only [finishStep] at h; exact h
    | none =>
      simp only [finishStep] at h
      split at h <;> cases h

/-- The ways `Step` can return: a fault of the fetch or of the parameter loop, the
unknown-opcode error, or the end of `Step` applied to the handler's result. -/
theorem step_inv (vm vm' : IntCodeVM) (e : Option Err) (h : vm.Step = .ret (vm', e)) :
    (vm' = vm ∧ e = some .SegFault) ∨
    (∃ w, vm.GetInstruction = .ret (w, none) ∧
      vmOpCodes (ParseParameterModes w).2 = none ∧
      vm' = vm ∧ e = some (.UnknownOpcode (ParseParameterModes w).2)) ∨
    (∃ w opcode parms, vm.GetInstruction = .ret (w, none) ∧
      vmOpCodes (ParseParameterModes w).2 = some opcode ∧
      loadParms vm (ParseParameterModes w).1 opcode.Argc 0 = .ret (parms, none) ∧
      finishStep vm.IntructionPointer opcode.Argc (opcode.Operation vm parms) =
        .ret (vm', e)) := by
  unfold IntCodeVM.Step at h
  cases hf : vm.GetInstruction with
  | panic => rw [hf] at h; cases h
  | ret r =>
    obtain ⟨w, eo⟩ := r
    cases eo with
    | some err =>
      rw [hf] at h
      have := getInstruction_error vm w err hf
      subst this
      cases h
      exact Or.inl ⟨rfl, rfl⟩
    | none =>
      rw [hf] at h
      simp only at h
      cases hop : vmOpCodes (ParseParameterModes w).2 with
      | none =>
        simp only [hop] at h
        cases h
        exact Or.inr (Or.inl ⟨w, rfl, hop, rfl, rfl⟩)
      | some opcode =>
        simp only [hop] at h
        cases hl : loadParms vm (ParseParameterModes w).1 opcode.Argc 0 with
        | panic => rw [hl] at h; cases h
        | ret r =>
          obtain ⟨parms, el⟩ := r
          cases el with
          | some err =>
            rw [hl] at h
            have := loadParms_error vm _ _ _ _ _ hl
            subst this
            cases h
            exact Or.inl ⟨rfl, rfl⟩
          | none =>
            rw [hl] at h
            simp only at h
            refine Or.inr (Or.inr ⟨w, opcode, parms, rfl, hop, hl, ?_⟩)
            cases hres : opcode.Operation vm parms with
            | panic => rw [hres] at h; cases h
            | ret r =>
              obtain ⟨vm1, e1⟩ := r
              rw [hres] at h
              cases e1 with
              | some err => simp only [finishStep]; exact h
              | none => simp only [finishStep]; exact h

/-- A handler of the opcode table that returns an error: nothing has changed, except
for the input instruction whose store failed after it took a value from the input
channel. -/
theorem handler_error (k : Int) (opcode : OpCode) (vm vm1 : IntCodeVM) (ps : List Parameter)
    (e : Err) (hop : vmOpCodes k = some opcode)
    (h : opcode.Operation vm ps = .ret (vm1, some e)) :
    (vm1 = vm ∧ (e = .SegFault ∨ e = .ImediateMemset ∨ (e = .Halt ∧ k = 99) ∨
      (e = .ReadError ∧ k = 3 ∧ vm.Stdin.Buffer = []))) ∨
    (k = 3 ∧ ∃ p v rest, ps[0]? = some p ∧ vm.Stdin.Buffer = v :: rest ∧
      vm1 = { vm with Stdin := { Buffer := rest } } ∧
      p.SaveByMode { vm with Stdin := { Buffer := rest } } v = (vm1, some e)) := by
  have weaken : vm1 = vm ∧ (e = .SegFault ∨ e = .ImediateMemset) →
      (vm1 = vm ∧ (e = .SegFault ∨ e = .ImediateMemset ∨ (e = .Halt ∧ k = 99) ∨
        (e = .ReadError ∧ k = 3 ∧ vm.Stdin.Buffer = []))) ∨
      (k = 3 ∧ ∃ p v rest, ps[0]? = some p ∧ vm.Stdin.Buffer = v :: rest ∧
        vm1 = { vm with Stdin := { Buffer := rest } } ∧
        p.SaveByMode { vm with Stdin := { Buffer := rest } } v = (vm1, some e)) := by
    rintro ⟨h1, h2 | h2⟩
    · exact Or.inl ⟨h1, Or.inl h2⟩
    · exact Or.inl ⟨h1, Or.inr (Or.inl h2)⟩
  rcases vmOpCodes_some _ _ hop with ⟨hk, ho⟩ | ⟨_, ho⟩ | ⟨_, ho⟩ | ⟨_, ho⟩ | ⟨_, ho⟩ |
    ⟨_, ho⟩ | ⟨_, ho⟩ | ⟨hk, ho⟩ | ⟨_, ho⟩ | ⟨_, ho⟩
  · rw [ho] at h
    have h' : Outcome.ret (vm, some Err.Halt) = Outcome.ret (vm1, some e) := h
    cases h'
    exact Or.inl ⟨rfl, Or.inr (Or.inr (Or.inl ⟨rfl, hk⟩))⟩
  · rw [ho] at h; exact weaken (opAdjustBase_error _ _ _ _ h)
  · rw [ho] at h; exact weaken (opEquals_error _ _ _ _ h)
  · rw [ho] at h; exact weaken (opLessThan_error _ _ _ _ h)
  · rw [ho] at h; exact weaken (opJmpIfFalse_error _ _ _ _ h)
  · rw [ho] at h; exact weaken (opJmpIfTrue_error _ _ _ _ h)
  · rw [ho] at h; exact weaken (opOutput_error _ _ _ _ h)
  · rw [ho] at h
    rcases opInput_error _ _ _ _ h with ⟨h1, h2, h3⟩ | hx
    · exact Or.inl ⟨h1, Or.inr (Or.inr (Or.inr ⟨h2, hk, h3⟩))⟩
    · exact Or.inr ⟨hk, hx⟩
  · rw [ho] at h; exact weaken (opMult_error _ _ _ _ h)
  · rw [ho] at h; exact weaken (opAdd_error _ _ _ _ h)

theorem vmOpCodes_none_iff (k : Int) :
    vmOpCodes k = none ↔ k ∉ ([1, 2, 3, 4, 5, 6, 7, 8, 9, 99] : List Int) := by
  constructor
  · intro h hmem
    have hsome : ∀ j : Int, j ∈ ([1, 2, 3, 4, 5, 6, 7, 8, 9, 99] : List Int) →
        (vmOpCodes j).isSome = true := by decide
    have := hsome k hmem
    rw [h] at this
    cases this
  · intro hmem
    simp only [List.mem_cons, List.mem_singleton, List.not_mem_nil, or_false, not_or] at hmem
    obtain ⟨h1, h2, h3, h4, h5, h6, h7, h8, h9, h99⟩ := hmem
    rw [vmOpCodes_eq, if_neg h99, if_neg h9, if_neg h8, if_neg h7, if_neg h6, if_neg h5,
      if_neg h4, if_neg h3, if_neg h2, if_neg h1]

theorem step_unknown (vm : IntCodeVM) (w : Int)
    (hfetch : vm.GetInstruction = .ret (w, none))
    (hop : vmOpCodes (ParseParameterModes w).2 = none) :
    vm.Step = .ret (vm, some (.UnknownOpcode (ParseParameterModes w).2)) := by
  unfold IntCodeVM.Step
  rw [hfetch]
  simp only [hop]

/-- An input instruction that takes `v` from the input channel and whose store
fails: `Step` returns the error of the store, and `v` is gone from the channel. -/
theorem step_input_store_failed (vm vm1 : IntCodeVM) (w v : Int) (parms : List Parameter)
    (p : Parameter) (rest : List Int) (e : Err)
    (hfetch : vm.GetInstruction = .ret (w, none))
    (hop : (ParseParameterModes w).2 = 3)
    (hload : loadParms vm (ParseParameterModes w).1 1 0 = .ret (parms, none))
    (hp : parms[0]? = some p)
    (hin : vm.Stdin.Buffer = v :: rest)
    (hsave : p.SaveByMode { vm with Stdin := { Buffer := rest } } v = (vm1, some e)) :
    vm.Step = .ret ({ vm with Stdin := { Buffer := rest } }, some e) := by
  have hv := (saveByMode_error _ _ _ _ _ hsave).1
  have hopc : vmOpCodes (ParseParameterModes w).2 = some ⟨"input", 3, 1, opInput⟩ := by
    rw [hop]; rfl
  unfold IntCodeVM.Step
  rw [hfetch]
  simp only [hopc, hload, opInput, IntCodePipe.Read, hin, saveParm, hp, hsave, hv]

theorem step_panic_of_fetch_panic (vm : IntCodeVM)
    (h : vm.IntructionPointer < 0 ∨ vm.IntructionPointer = vm.Memory.length) :
    vm.Step = .panic := by
  have hp : memIndex vm.Memory vm.IntructionPointer = .panic :=
    (memIndex_panic_iff _ _).mpr (by omega)
  unfold IntCodeVM.Step IntCodeVM.GetInstruction
  rw [if_neg (by omega), hp]

theorem step_segfault_of_beyond (vm : IntCodeVM)
    (h : (vm.Memory.length : Int) < vm.IntructionPointer) :
    vm.Step = .ret (vm, some .SegFault) := by
  unfold IntCodeVM.Step IntCodeVM.GetInstruction
  rw [if_pos (by omega)]

/-- With the instruction pointer in range and an opcode of the table, a parameter
word at an address `≥ capacity` makes the parameter loop index the slice at
`len(vm.Memory)`: `Step` panics, it does not return `ErrSegFault`. -/
theorem step_panic_of_parm_beyond (vm : IntCodeVM) (w : Int) (opcode : OpCode)
    (hcap : (vm.Memory.length : Int) < 2 ^ 63)
    (hfetch : vm.GetInstruction = .ret (w, none))
    (hop : vmOpCodes (ParseParameterModes w).2 = some opcode)
    (hbeyond : (vm.Memory.length : Int) ≤ vm.IntructionPointer + opcode.Argc) :
    vm.Step = .panic := by
  rw [step_of_fetch vm w opcode hcap hfetch hop, if_neg (by omega)]

/-- A failed `Step` returns the VM it was given, except when an input instruction
took a value from the input channel and its store failed: then that value is gone
from the channel and nothing else has changed. -/
theorem step_error_inv (vm vm' : IntCodeVM) (e : Err) (h : vm.Step = .ret (vm', some e)) :
    vm' = vm ∨
    ∃ w parms p v rest, vm.GetInstruction = .ret (w, none) ∧
      (ParseParameterModes w).2 = 3 ∧
      loadParms vm (ParseParameterModes w).1 1 0 = .ret (parms, none) ∧
      parms[0]? = some p ∧ vm.Stdin.Buffer = v :: rest ∧
      vm' = { vm with Stdin := { Buffer := rest } } ∧
      p.SaveByMode { vm with Stdin := { Buffer := rest } } v = (vm', some e) := by
  rcases step_inv vm vm' (some e) h with ⟨hv, _⟩ | ⟨w, _, _, hv, _⟩ |
    ⟨w, opcode, parms, hfetch, hop, hload, hfin⟩
  · exact Or.inl hv
  · exact Or.inl hv
  · have hres := finishStep_error_inv _ _ _ _ _ hfin
    rcases handler_error _ opcode vm vm' parms e hop hres with ⟨hv, _⟩ |
      ⟨hk, p, v, rest, hp, hin, hv, hsave⟩
    · exact Or.inl hv
    · rw [hk] at hop
      have hopc : opcode = ⟨"input", 3, 1, opInput⟩ := by
        have h3 : vmOpCodes 3 = some ⟨"input", 3, 1, opInput⟩ := rfl
        rw [h3] at hop
        exact (Option.some.inj hop).symm
      rw [hopc] at hload
      exact Or.inr ⟨w, parms, p, v, rest, hfetch, hk, hload, hp, hin, hv, hsave⟩

theorem runUntilError_of_step_error (vm vm' : IntCodeVM) (e : Err) (n : Nat)
    (h : vm.Step = .ret (vm', some e)) :
    vm.RunUntilError (n + 1) = some (.ret (vm', e)) := by
  simp only [IntCodeVM.RunUntilError, h]

theorem runUntilError_of_step_ok (vm vm1 : IntCodeVM) (n : Nat)
    (h : vm.Step = .ret (vm1, none)) :
    vm.RunUntilError (n + 1) = vm1.RunUntilError n := by
  simp only [IntCodeVM.RunUntilError, h]

theorem runUntilError_of_step_panic (vm : IntCodeVM) (n : Nat) (h : vm.Step = .panic) :
    vm.RunUntilError (n + 1) = some .panic := by
  simp only [IntCodeVM.RunUntilError, h]

/-- A taken jump to an address other than that of the jump instruction. -/
theorem step_jump_taken (vm : IntCodeVM) (w arg0 arg1 a b : Int) (opcode : OpCode)
    (taken : Int → Prop) [DecidablePred taken]
    (hcap : (vm.Memory.length : Int) < 2 ^ 63)
    (h0 : 0 ≤ vm.IntructionPointer)
    (hw : vm.Memory[vm.IntructionPointer.toNat]? = some w)
    (hop : vmOpCodes (ParseParameterModes w).2 = some opcode)
    (hargc : opcode.Argc = 2)
    (hj : (opcode.Operation = opJmpIfTrue ∧ ∀ a, taken a ↔ a ≠ 0) ∨
      (opcode.Operation = opJmpIfFalse ∧ ∀ a, taken a ↔ a = 0))
    (h1 : vm.Memory[(vm.IntructionPointer + 1).toNat]? = some arg0)
    (h2 : vm.Memory[(vm.IntructionPointer + 2).toNat]? = some arg1)
    (hg0 : Parameter.GetByMode ⟨modeAt (ParseParameterModes w).1 0, arg0⟩ vm = .ret (a, none))
    (ht : taken a)
    (hg1 : Parameter.GetByMode ⟨modeAt (ParseParameterModes w).1 1, arg1⟩ vm = .ret (b, none))
    (hb : b ≠ vm.IntructionPointer) :
    vm.Step = .ret ({ vm with IntructionPointer := b }, none) := by
  have hroom := lt_length_of_getElem? _ _ _ (by omega) h2
  have hne : ¬ vm.IntructionPointer = b := fun h => hb h.symm
  rw [step_of_fetch vm w opcode hcap ((getInstruction_ret_iff vm w).mpr ⟨h0, hw⟩) hop, hargc,
    if_pos (by push_cast; omega), stepParms_two,
    jump_handlers vm _ _ opcode.Operation taken hj,
    getD_of_getElem? _ _ _ h1, getD_of_getElem? _ _ _ h2, hg0]
  simp only [if_pos ht, hg1, finishStep, if_neg hne]

/-- The program `1105,1,102400` in a memory of 102400 cells: the jump lands on the
address equal to the capacity, and the next `Step` panics in the fetch. -/
theorem run_jump_to_capacity (pad : List Int) (hpad : pad.length = 102397) (n : Nat) :
    IntCodeVM.RunUntilError (n + 2) ⟨0, 0, [1105, 1, 102400] ++ pad, ⟨[]⟩, ⟨[]⟩⟩ =
      some .panic := by
  have hlen : (([1105, 1, 102400] ++ pad).length : Int) = 102400 := by
    simp only [List.length_append, List.length_cons, List.length_nil, hpad]
    norm_num
  have s1 : IntCodeVM.Step ⟨0, 0, [1105, 1, 102400] ++ pad, ⟨[]⟩, ⟨[]⟩⟩ =
      .ret (⟨102400, 0, [1105, 1, 102400] ++ pad, ⟨[]⟩, ⟨[]⟩⟩, none) :=
    step_jump_taken ⟨0, 0, [1105, 1, 102400] ++ pad, ⟨[]⟩, ⟨[]⟩⟩ 1105 1 102400 1 102400
      ⟨"jmp-if-true", 5, 2, opJmpIfTrue⟩ (fun a => a ≠ 0)
      (by rw [hlen]; decide) (by simp) (by simp) rfl rfl
      (Or.inl ⟨rfl, fun _ => Iff.rfl⟩) (by simp) (by simp)
      (getByMode_immediate _ _ (show modeAt (ParseParameterModes 1105).1 0 = IMEDIATE_MODE
        by decide))
      (by decide)
      (getByMode_immediate _ _ (show modeAt (ParseParameterModes 1105).1 1 = IMEDIATE_MODE
        by decide))
      (show (102400 : Int) ≠ 0 by decide)
  have s2 : IntCodeVM.Step ⟨102400, 0, [1105, 1, 102400] ++ pad, ⟨[]⟩, ⟨[]⟩⟩ = .panic :=
    step_panic_of_fetch_panic _ (Or.inr hlen.symm)
  rw [runUntilError_of_step_ok _ _ (n + 1) s1]
  exact runUntilError_of_step_panic _ n s2

theorem newVM_jump_to_capacity :
    NewVM "1105,1,102400" =
      .ret ⟨0, 0, [1105, 1, 102400] ++ List.replicate 102397 0, ⟨[]⟩, ⟨[]⟩⟩ :=
  newVM_eq "1105,1,102400" [1105, 1, 102400] none (by decide) (by decide)

/-! ## Pipes -/

theorem writeAll_eq (xs : List Int) : ∀ pipe : IntCodePipe,
    writeAll pipe xs = { Buffer := pipe.Buffer ++ xs } := by
  induction xs with
  | nil => intro pipe; simp [writeAll]
  | cons x xs ih =>
    intro pipe
    simp only [writeAll, ih, IntCodePipe.Write, List.append_assoc, List.singleton_append]

theorem readN_eq (k : Nat) : ∀ l : List Int,
    readN k { Buffer := l } =
      ((l.take k).map (fun x => (x, none)) ++
          List.replicate (k - l.length) (0, some Err.ReadError),
        { Buffer := l.drop k }) := by
  induction k with
  | zero => intro l; simp [readN]
  | succ k ih =>
    intro l
    cases l with
    | nil =>
      have := ih []
      simp only [List.take_nil, List.map_nil, List.nil_append, List.length_nil, Nat.sub_zero,
        List.drop_nil] at this
      simp only [readN, IntCodePipe.Read, this, List.take_nil, List.map_nil, List.nil_append,
        List.length_nil, Nat.sub_zero, List.drop_nil, List.replicate_succ]
    | cons x l =>
      simp only [readN, IntCodePipe.Read, ih l, List.take_succ_cons, List.map_cons,
        List.cons_append, List.length_cons, Nat.add_sub_add_right, List.drop_succ_cons]

/-! ## Running to halt -/

theorem runUntilError_mono (f : Nat) : ∀ (vm : IntCodeVM) (r : Outcome (IntCodeVM × Err)),
    vm.RunUntilError f = some r → ∀ n, vm.RunUntilError (f + n) = some r := by
  induction f with
  | zero => intro vm r h; cases h
  | succ f ih =>
    intro vm r h n
    rw [show f + 1 + n = (f + n) + 1 by omega]
    unfold IntCodeVM.RunUntilError at h ⊢
    cases hs : vm.Step with
    | panic => rw [hs] at h; exact h
    | ret x =>
      obtain ⟨vm1, e⟩ := x
      cases e with
      | some err => rw [hs] at h; exact h
      | none => rw [hs] at h; exact ih vm1 r h n

/-! ## The output channel -/

theorem saveByMode_stdout (p : Parameter) (vm vm1 : IntCodeVM) (value : Int)
    (e : Option Err) (h : p.SaveByMode vm value = (vm1, e)) :
    vm1.Stdout = vm.Stdout := by
  unfold Parameter.SaveByMode at h
  repeat' split at h
  all_goals (cases h; rfl)

theorem opAdd_stdout (vm vm1 : IntCodeVM) (ps : List Parameter) (e : Option Err)
    (h : opAdd vm ps = .ret (vm1, e)) : vm1.Stdout = vm.Stdout := by
  simp only [opAdd, readParm, saveParm] at h
  repeat' split at h
  all_goals first
    | (cases h; done)
    | (cases h; rfl)
    | (have hsave := saveByMode_stdout _ _ _ _ _ (Outcome.ret.inj h); exact hsave)

theorem opMult_stdout (vm vm1 : IntCodeVM) (ps : List Parameter) (e : Option Err)
    (h : opMult vm ps = .ret (vm1, e)) : vm1.Stdout = vm.Stdout := by
  simp only [opMult, readParm, saveParm] at h
  repeat' split at h
  all_goals first
    | (cases h; done)
    | (cases h; rfl)
    | (have hsave := saveByMode_stdout _ _ _ _ _ (Outcome.ret.inj h); exact hsave)

theorem opInput_stdout (vm vm1 : IntCodeVM) (ps : List Parameter) (e : Option Err)
    (h : opInput vm ps = .ret (vm1, e)) : vm1.Stdout = vm.Stdout := by
  simp only [opInput, readParm, saveParm, IntCodePipe.Read] at h
  repeat' split at h
  all_goals first
    | (cases h; done)
    | (cases h; rfl)
    | (have hsave := saveByMode_stdout _ _ _ _ _ (Outcome.ret.inj h); exact hsave)

theorem opJmpIfTrue_stdout (vm vm1 : IntCodeVM) (ps : List Parameter) (e : Option Err)
    (h : opJmpIfTrue vm ps = .ret (vm1, e)) : vm1.Stdout = vm.Stdout := by
  simp only [opJmpIfTrue, readParm, saveParm] at h
  repeat' split at h
  all_goals first
    | (cases h; done)
    | (cases h; rfl)

theorem opJmpIfFalse_stdout (vm vm1 : IntCodeVM) (ps : List Parameter) (e : Option Err)
    (h : opJmpIfFalse vm ps = .ret (vm1, e)) : vm1.Stdout = vm.Stdout := by
  simp only [opJmpIfFalse, readParm, saveParm] at h
  repeat' split at h
  all_goals first
    | (cases h; done)
    | (cases h; rfl)

theorem opLessThan_stdout (vm vm1 : IntCodeVM) (ps : List Parameter) (e : Option Err)
    (h : opLessThan vm ps = .ret (vm1, e)) : vm1.Stdout = vm.Stdout := by
  simp only [opLessThan, readParm, saveParm] at h
  repeat' split at h
  all_goals first
    | (cases h; done)
    | (cases h; rfl)
    | (have hsave := saveByMode_stdout _ _ _ _ _ (Outcome.ret.inj h); exact hsave)

theorem opEquals_stdout (vm vm1 : IntCodeVM) (ps : List Parameter) (e : Option Err)
    (h : opEquals vm ps = .ret (vm1, e)) : vm1.Stdout = vm.Stdout := by
  simp only [opEquals, readParm, saveParm] at h
  repeat' split at h
  all_goals first
    | (cases h; done)
    | (cases h; rfl)
    | (have hsave := saveByMode_stdout _ _ _ _ _ (Outcome.ret.inj h); exact hsave)

theorem opAdjustBase_stdout (vm vm1 : IntCodeVM) (ps : List Parameter) (e : Option Err)
    (h : opAdjustBase vm ps = .ret (vm1, e)) : vm1.Stdout = vm.Stdout := by
  simp only [opAdjustBase, readParm, saveParm] at h
  repeat' split at h
  all_goals first
    | (cases h; done)
    | (cases h; rfl)

theorem opHalt_stdout (vm vm1 : IntCodeVM) (ps : List Parameter) (e : Option Err)
    (h : opHalt vm ps = .ret (vm1, e)) : vm1.Stdout = vm.Stdout := by
  cases h; rfl

theorem opOutput_ok_inv (vm vm1 : IntCodeVM) (ps : List Parameter)
    (h : opOutput vm ps = .ret (vm1, none)) :
    ∃ v, readParm ps 0 vm = .ret (v, none) ∧
      vm1 = { vm with Stdout := vm.Stdout.Write v } := by
  unfold opOutput at h
  cases hr : readParm ps 0 vm with
  | panic => rw [hr] at h; cases h
  | ret r =>
    obtain ⟨v, e⟩ := r
    cases e with
    | some err => rw [hr] at h; cases h
    | none =>
      rw [hr] at h
      simp only [Outcome.ret.injEq, Prod.mk.injEq, and_true] at h
      exact ⟨v, rfl, h.symm⟩

/-- A successful `Step` writes to the output channel exactly when it executes an
output instruction, and then it appends the value of that instruction's parameter. -/
theorem step_ok_stdout (vm vm' : IntCodeVM) (w : Int)
    (hfetch : vm.GetInstruction = .ret (w, none))
    (hstep : vm.Step = .ret (vm', none)) :
    ((ParseParameterModes w).2 ≠ 4 → vm'.Stdout = vm.Stdout) ∧
    ((ParseParameterModes w).2 = 4 → ∃ parms v,
      loadParms vm (ParseParameterModes w).1 1 0 = .ret (parms, none) ∧
      readParm parms 0 vm = .ret (v, none) ∧ vm'.Stdout = vm.Stdout.Write v) := by
  rcases step_inv vm vm' none hstep with ⟨_, he⟩ | ⟨_, _, _, _, he⟩ |
    ⟨w', opcode, parms, hf', hop, hload, hfin⟩
  · cases he
  · cases he
  · rw [hfetch] at hf'
    cases hf'
    obtain ⟨vm1, hres, hvm'⟩ := finishStep_ok_inv _ _ _ _ hfin
    have hout : vm'.Stdout = vm1.Stdout := by
      rw [hvm']; split <;> rfl
    rw [hout]
    rcases vmOpCodes_some _ _ hop with ⟨hk, h⟩ | ⟨hk, h⟩ | ⟨hk, h⟩ | ⟨hk, h⟩ | ⟨hk, h⟩ |
      ⟨hk, h⟩ | ⟨hk, h⟩ | ⟨hk, h⟩ | ⟨hk, h⟩ | ⟨hk, h⟩
    · rw [h] at hres
      exact ⟨fun _ => opHalt_stdout vm vm1 [] none hres,
        fun h4 => absurd (hk.symm.trans h4) (by decide)⟩
    · rw [h] at hres
      exact ⟨fun _ => opAdjustBase_stdout _ _ _ _ hres,
        fun h4 => absurd (hk.symm.trans h4) (by decide)⟩
    · rw [h] at hres
      exact ⟨fun _ => opEquals_stdout _ _ _ _ hres,
        fun h4 => absurd (hk.symm.trans h4) (by decide)⟩
    · rw [h] at hres
      exact ⟨fun _ => opLessThan_stdout _ _ _ _ hres,
        fun h4 => absurd (hk.symm.trans h4) (by decide)⟩
    · rw [h] at hres
      exact ⟨fun _ => opJmpIfFalse_stdout _ _ _ _ hres,
        fun h4 => absurd (hk.symm.trans h4) (by decide)⟩
    · rw [h] at hres
      exact ⟨fun _ => opJmpIfTrue_stdout _ _ _ _ hres,
        fun h4 => absurd (hk.symm.trans h4) (by decide)⟩
    · rw [h] at hres hload
      obtain ⟨v, hv, hvm1⟩ := opOutput_ok_inv _ _ _ hres
      exact ⟨fun hne => absurd hk hne, fun _ => ⟨parms, v, hload, hv, by rw [hvm1]⟩⟩
    · rw [h] at hres
      exact ⟨fun _ => opInput_stdout _ _ _ _ hres,
        fun h4 => absurd (hk.symm.trans h4) (by decide)⟩
    · rw [h] at hres
      exact ⟨fun _ => opMult_stdout _ _ _ _ hres,
        fun h4 => absurd (hk.symm.trans h4) (by decide)⟩
    · rw [h] at hres
      exact ⟨fun _ => opAdd_stdout _ _ _ _ hres,
        fun h4 => absurd (hk.symm.trans h4) (by decide)⟩

/-! ## Running to the next output -/

theorem step_ok_fetch (vm vm' : IntCodeVM) (h : vm.Step = .ret (vm', none)) :
    ∃ w, vm.GetInstruction = .ret (w, none) := by
  rcases step_inv vm vm' none h with ⟨_, he⟩ | ⟨_, _, _, _, he⟩ | ⟨w, _, _, hf, _⟩
  · cases he
  · cases he
  · exact ⟨w, hf⟩

theorem read_nil (pipe : IntCodePipe) (h : pipe.Buffer = []) :
    pipe.Read = ((0, some .ReadError), pipe) := by
  unfold IntCodePipe.Read
  rw [h]

theorem read_cons (pipe : IntCodePipe) (x : Int) (rest : List Int)
    (h : pipe.Buffer = x :: rest) :
    pipe.Read = ((x, none), { Buffer := rest }) := by
  unfold IntCodePipe.Read
  rw [h]

theorem runUntilOutputLoop_of_step_error (vm vm' : IntCodeVM) (e : Err) (output : Int)
    (n : Nat) (h : vm.Step = .ret (vm', some e)) :
    runUntilOutputLoop (n + 1) output vm = some (.ret (vm', output, some e)) := by
  simp only [runUntilOutputLoop, h]

/-- A successful step that leaves the output channel empty: the loop of
`RunUntilOutput` goes round once more. -/
theorem runUntilOutputLoop_of_step_quiet (vm vm1 : IntCodeVM) (output : Int) (n : Nat)
    (h : vm.Step = .ret (vm1, none)) (hout : vm1.Stdout.Buffer = []) :
    runUntilOutputLoop (n + 1) output vm = runUntilOutputLoop n 0 vm1 := by
  simp only [runUntilOutputLoop, h, read_nil _ hout]

/-- A successful step after which the output channel is not empty: `RunUntilOutput`
returns the first value of the channel and removes it. -/
theorem runUntilOutputLoop_of_step_output (vm vm1 : IntCodeVM) (output v : Int)
    (rest : List Int) (n : Nat)
    (h : vm.Step = .ret (vm1, none)) (hout : vm1.Stdout.Buffer = v :: rest) :
    runUntilOutputLoop (n + 1) output vm =
      some (.ret ({ vm1 with Stdout := { Buffer := rest } }, v, none)) := by
  simp only [runUntilOutputLoop, h, read_cons _ _ _ hout]

theorem quietSteps_succ (vm vm1 : IntCodeVM) (w : Int) (k : Nat)
    (hfetch : vm.GetInstruction = .ret (w, none))
    (hstep : vm.Step = .ret (vm1, none))
    (hop : (ParseParameterModes w).2 ≠ 4) :
    quietSteps (k + 1) vm = quietSteps k vm1 := by
  simp only [quietSteps, hfetch, hstep, if_neg hop]

theorem quietSteps_succ_inv (vm vmk : IntCodeVM) (k : Nat)
    (h : quietSteps (k + 1) vm = some vmk) :
    ∃ w vm1, vm.GetInstruction = .ret (w, none) ∧ vm.Step = .ret (vm1, none) ∧
      (ParseParameterModes w).2 ≠ 4 ∧ quietSteps k vm1 = some vmk := by
  unfold quietSteps at h
  split at h
  · rename_i w vm1 hf hs
    by_cases hop : (ParseParameterModes w).2 = 4
    · rw [if_pos hop] at h; cases h
    · rw [if_neg hop] at h
      exact ⟨w, vm1, hf, hs, hop, h⟩
  · cases h

/-- Steps that write nothing are invisible to `RunUntilOutput` when the output
channel is empty. -/
theorem runUntilOutputLoop_skip (k : Nat) : ∀ (vm vmk : IntCodeVM),
    vm.Stdout.Buffer = [] → quietSteps k vm = some vmk →
    vmk.Stdout.Buffer = [] ∧
    ∀ n output, runUntilOutputLoop (k + 1 + n) output vm =
      runUntilOutputLoop (n + 1) (if k = 0 then output else 0) vmk := by
  induction k with
  | zero =>
    intro vm vmk hout hq
    cases hq
    refine ⟨hout, fun n output => ?_⟩
    rw [show 0 + 1 + n = n + 1 by omega]
    rfl
  | succ k ih =>
    intro vm vmk hout hq
    obtain ⟨w, vm1, hf, hs, hop, hq1⟩ := quietSteps_succ_inv vm vmk k hq
    have hout1 : vm1.Stdout.Buffer = [] := by
      rw [(step_ok_stdout vm vm1 w hf hs).1 hop]; exact hout
    obtain ⟨hk, hrun⟩ := ih vm1 vmk hout1 hq1
    refine ⟨hk, fun n output => ?_⟩
    rw [show k + 1 + 1 + n = (k + 1 + n) + 1 by omega,
      runUntilOutputLoop_of_step_quiet vm vm1 output _ hs hout1, hrun n 0]
    simp

/-- What a return of `RunUntilOutput` means when the output channel was empty at the
call: some number of steps that wrote nothing, then either a failed step, or an
output instruction whose value is returned. -/
theorem runUntilOutputLoop_inv (fuel : Nat) : ∀ (vm : IntCodeVM),
    vm.Stdout.Buffer = [] →
    ∀ vm' v e, runUntilOutputLoop fuel 0 vm = some (.ret (vm', v, e)) →
    ∃ k vmk, k < fuel ∧ quietSteps k vm = some vmk ∧ vmk.Stdout.Buffer = [] ∧
      ((∃ err, e = some err ∧ v = 0 ∧ vmk.Step = .ret (vm', some err)) ∨
       (e = none ∧ ∃ w vmo parms, vmk.GetInstruction = .ret (w, none) ∧
          (ParseParameterModes w).2 = 4 ∧
          loadParms vmk (ParseParameterModes w).1 1 0 = .ret (parms, none) ∧
          readParm parms 0 vmk = .ret (v, none) ∧
          vmk.Step = .ret (vmo, none) ∧ vmo.Stdout.Buffer = [v] ∧
          vm' = { vmo with Stdout := { Buffer := [] } })) := by
  induction fuel with
  | zero => intro vm _ vm' v e h; cases h
  | succ fuel ih =>
    intro vm hout vm' v e h
    cases hs : vm.Step with
    | panic =>
      simp only [runUntilOutputLoop, hs] at h
      cases h
    | ret r =>
      obtain ⟨vm1, e1⟩ := r
      cases e1 with
      | some err =>
        rw [runUntilOutputLoop_of_step_error vm vm1 err 0 fuel hs] at h
        cases h
        exact ⟨0, vm, by omega, rfl, hout, Or.inl ⟨err, rfl, rfl, hs⟩⟩
      | none =>
        obtain ⟨w, hf⟩ := step_ok_fetch vm vm1 hs
        have hso := step_ok_stdout vm vm1 w hf hs
        by_cases hop : (ParseParameterModes w).2 = 4
        · obtain ⟨parms, v0, hload, hread, hw⟩ := hso.2 hop
          have hbuf : vm1.Stdout.Buffer = [v0] := by
            rw [hw]; simp [IntCodePipe.Write, hout]
          rw [runUntilOutputLoop_of_step_output vm vm1 0 v0 [] fuel hs hbuf] at h
          cases h
          exact ⟨0, vm, by omega, rfl, hout,
            Or.inr ⟨rfl, w, vm1, parms, hf, hop, hload, hread, hs, hbuf, rfl⟩⟩
        · have hout1 : vm1.Stdout.Buffer = [] := by rw [hso.1 hop]; exact hout
          rw [runUntilOutputLoop_of_step_quiet vm vm1 0 fuel hs hout1] at h
          obtain ⟨k, vmk, hk, hq, hko, hfin⟩ := ih vm1 hout1 vm' v e h
          exact ⟨k + 1, vmk, by omega, by rw [quietSteps_succ vm vm1 w k hf hs hop]; exact hq,
            hko, hfin⟩

/-! ## Program text -/

theorem splitComma_ne_nil (s : List Char) : splitComma s ≠ [] := by
  cases s with
  | nil => simp [splitComma]
  | cons c cs =>
    unfold splitComma
    split
    · simp
    · split <;> simp

theorem splitComma_of_no_comma (t : List Char) (h : ',' ∉ t) : splitComma t = [t] := by
  induction t with
  | nil => rfl
  | cons c cs ih =>
    have hc : c ≠ ',' := fun hc => h (by simp [hc])
    have hcs : ',' ∉ cs := fun hm => h (List.mem_cons_of_mem _ hm)
    unfold splitComma
    rw [if_neg hc, ih hcs]

theorem splitComma_append_comma (t rest : List Char) (h : ',' ∉ t) :
    splitComma (t ++ ',' :: rest) = t :: splitComma rest := by
  induction t with
  | nil => simp [splitComma]
  | cons c cs ih =>
    have hc : c ≠ ',' := fun hc => h (by simp [hc])
    have hcs : ',' ∉ cs := fun hm => h (List.mem_cons_of_mem _ hm)
    rw [List.cons_append]
    simp only [splitComma, if_neg hc, ih hcs]

theorem splitComma_intercalate (t : List Char) (ts : List (List Char))
    (h : ∀ u ∈ t :: ts, ',' ∉ u) :
    splitComma (List.intercalate [','] (t :: ts)) = t :: ts := by
  induction ts generalizing t with
  | nil =>
    have hone : List.intercalate [','] [t] = t := by simp [List.intercalate]
    rw [hone]
    exact splitComma_of_no_comma t (h t (List.mem_cons_self _ _))
  | cons u us ih =>
    have ht : ',' ∉ t := h t (List.mem_cons_self _ _)
    have hrest : ∀ v ∈ u :: us, ',' ∉ v := fun v hv => h v (List.mem_cons_of_mem _ hv)
    have hsplit : List.intercalate [','] (t :: u :: us) =
        t ++ ',' :: List.intercalate [','] (u :: us) := by
      simp [List.intercalate]
    rw [hsplit, splitComma_append_comma t _ ht, ih u hrest]

/-- Tokens that `Atoi` accepts, one per cell to fill: the loop of `ParseProgram`
writes their values and returns no error. -/
theorem parseItems_ok : ∀ (items : List (List Char)) (xs pre mid : List Int),
    List.Forall₂ (fun item x => Atoi item = (x, none)) items xs →
    mid.length = items.length →
    parseItems (pre ++ mid) items pre.length = (pre ++ xs, none) := by
  intro items
  induction items with
  | nil =>
    intro xs pre mid hall hlen
    cases hall
    have : mid = [] := List.length_eq_zero.mp hlen
    subst this
    simp [parseItems]
  | cons item items ih =>
    intro xs pre mid hall hlen
    cases hall with
    | cons hx hrest =>
      rename_i x xs
      cases mid with
      | nil => simp at hlen
      | cons y mid =>
        have hlen' : mid.length = items.length := by simpa using hlen
        unfold parseItems
        rw [hx]
        simp only
        have hset : (pre ++ y :: mid).set pre.length x = (pre ++ [x]) ++ mid := by
          simp [List.append_assoc]
        have := ih xs (pre ++ [x]) mid hrest hlen'
        rw [List.length_append, List.length_singleton] at this
        rw [hset, this]
        simp [List.append_assoc]

/-- The loop of `ParseProgram` returns an error as soon as `Atoi` rejects a token. -/
theorem parseItems_error : ∀ (items : List (List Char)) (memory : List Int) (i : Nat),
    (∃ item ∈ items, (Atoi item).2 ≠ none) →
    (parseItems memory items i).2 ≠ none := by
  intro items
  induction items with
  | nil => intro memory i h; obtain ⟨_, hm, _⟩ := h; cases hm
  | cons item items ih =>
    intro memory i h
    unfold parseItems
    cases ha : Atoi item with
    | mk v e =>
      cases e with
      | some err => simp
      | none =>
        simp only
        apply ih
        obtain ⟨it, hm, hne⟩ := h
        rcases List.mem_cons.mp hm with rfl | hm'
        · rw [ha] at hne; exact absurd rfl hne
        · exact ⟨it, hm', hne⟩

theorem digitChar_toNat (d : Nat) (h : d < 10) : (Nat.digitChar d).toNat = 48 + d := by
  interval_cases d <;> rfl

theorem parseDigits_append (s t : List Char) : ∀ acc : Nat,
    parseDigits (s ++ t) acc = (parseDigits s acc).bind (parseDigits t) := by
  induction s with
  | nil => intro acc; rfl
  | cons c cs ih =>
    intro acc
    rw [List.cons_append]
    simp only [parseDigits]
    split
    · exact ih _
    · rfl

theorem parseDigits_digitChar (d acc : Nat) (h : d < 10) :
    parseDigits [Nat.digitChar d] acc = some (acc * 10 + d) := by
  have ht := digitChar_toNat d h
  simp only [parseDigits, ht]
  rw [if_pos (by omega)]
  congr 1
  omega

theorem parseDigits_digits : ∀ (L : List Nat), (∀ d ∈ L, d < 10) → ∀ acc : Nat,
    parseDigits (L.reverse.map Nat.digitChar) acc =
      some (acc * 10 ^ L.length + Nat.ofDigits 10 L) := by
  intro L
  induction L with
  | nil => intro _ acc; simp [parseDigits]
  | cons d L ih =>
    intro hall acc
    have hd : d < 10 := hall d (List.mem_cons_self _ _)
    have hL : ∀ x ∈ L, x < 10 := fun x hx => hall x (List.mem_cons_of_mem _ hx)
    rw [List.reverse_cons, List.map_append, parseDigits_append, ih hL acc]
    simp only [List.map_cons, List.map_nil, Option.some_bind]
    rw [parseDigits_digitChar _ _ hd, Nat.ofDigits_cons, List.length_cons]
    congr 1
    ring

theorem parseDigits_renderNat (n : Nat) : parseDigits (renderNat n) 0 = some n := by
  unfold renderNat
  by_cases h0 : n = 0
  · subst h0
    rfl
  · rw [if_neg h0, parseDigits_digits _ (fun d hd => Nat.digits_lt_base (by omega) hd) 0,
      Nat.ofDigits_digits]
    simp

theorem renderNat_digits (n : Nat) :
    ∃ c cs, renderNat n = c :: cs ∧ ∀ x ∈ c :: cs, 48 ≤ x.toNat ∧ x.toNat ≤ 57 := by
  unfold renderNat
  by_cases h0 : n = 0
  · subst h0
    refine ⟨'0', [], rfl, ?_⟩
    intro x hx
    rw [List.mem_singleton.mp hx]
    decide
  · rw [if_neg h0]
    have hne : (Nat.digits 10 n).reverse.map Nat.digitChar ≠ [] := by
      simp [Nat.digits_ne_nil_iff_ne_zero, h0]
    obtain ⟨c, cs, hcs⟩ := List.exists_cons_of_ne_nil hne
    refine ⟨c, cs, hcs, ?_⟩
    intro x hx
    rw [← hcs] at hx
    obtain ⟨d, hd, rfl⟩ := List.mem_map.mp hx
    have hd10 : d < 10 := Nat.digits_lt_base (by omega) (List.mem_reverse.mp hd)
    rw [digitChar_toNat d hd10]
    omega

/-- The decimal rendering of a Go `int` is read back by `Atoi`. -/
theorem atoi_renderInt (x : Int) (hx : InIntRange x) : Atoi (renderInt x) = (x, none) := by
  obtain ⟨c, cs, hcs, hdig⟩ := renderNat_digits x.natAbs
  have hp := parseDigits_renderNat x.natAbs
  rw [hcs] at hp
  have hc := hdig c (List.mem_cons_self _ _)
  have hminus : c ≠ '-' := by
    intro h; rw [h] at hc; revert hc; decide
  have hplus : c ≠ '+' := by
    intro h; rw [h] at hc; revert hc; decide
  unfold InIntRange at hx
  unfold renderInt
  by_cases hneg : x < 0
  · rw [if_pos hneg, hcs]
    have hle : x.natAbs ≤ 2 ^ 63 := by omega
    have hval : -((x.natAbs : Nat) : Int) = x := by omega
    have hbody : (if True ∨ some '-' = some '+' then c :: cs else '-' :: c :: cs) = c :: cs :=
      if_pos (Or.inl trivial)
    simp only [Atoi, List.head?_cons, List.tail_cons, hbody, hp, decide_True, if_true,
      if_pos hle, hval]
  · rw [if_neg hneg, hcs]
    have hlt : x.natAbs < 2 ^ 63 := by omega
    have hval : ((x.natAbs : Nat) : Int) = x := by omega
    have hcond : ¬ (some c = some '-' ∨ some c = some '+') := by
      simp [hminus, hplus]
    have hdec : decide (some c = some '-') = false := by simp [hminus]
    simp only [Atoi, List.head?_cons, List.tail_cons, if_neg hcond, hp, hdec,
      Bool.false_eq_true, if_false, if_pos hlt, hval]

theorem renderInt_no_comma (x : Int) : ',' ∉ renderInt x := by
  obtain ⟨c, cs, hcs, hdig⟩ := renderNat_digits x.natAbs
  have hnot : ',' ∉ renderNat x.natAbs := by
    intro hm
    rw [hcs] at hm
    have := hdig ',' hm
    revert this
    decide
  unfold renderInt
  split
  · intro hm
    rcases List.mem_cons.mp hm with h | h
    · revert h; decide
    · exact hnot h
  · exact hnot

/-- `ParseProgram` reads the comma-separated decimal rendering of a non-empty list of
Go `int` values back as that list. -/
theorem parseProgram_renderProgram (x : Int) (xs : List Int)
    (hrange : ∀ y ∈ x :: xs, InIntRange y) :
    ParseProgram (renderProgram (x :: xs)) = (x :: xs, none) := by
  have hsplit : splitComma (renderProgram (x :: xs)).data = (x :: xs).map renderInt := by
    show splitComma (List.intercalate [','] ((x :: xs).map renderInt)) = _
    rw [List.map_cons]
    apply splitComma_intercalate
    intro u hu
    rw [← List.map_cons] at hu
    obtain ⟨y, _, rfl⟩ := List.mem_map.mp hu
    exact renderInt_no_comma y
  have hall : List.Forall₂ (fun item y => Atoi item = (y, none))
      ((x :: xs).map renderInt) (x :: xs) := by
    rw [List.forall₂_map_left_iff]
    apply List.forall₂_same.mpr
    intro y hy
    exact atoi_renderInt y (hrange y hy)
  unfold ParseProgram
  simp only [hsplit]
  have := parseItems_ok ((x :: xs).map renderInt) (x :: xs) []
    (List.replicate ((x :: xs).map renderInt).length 0) hall (by simp)
  simpa using this

/-- `ParseProgram` returns an error whenever `Atoi` rejects one of the
comma-separated tokens of the program text. -/
theorem parseProgram_error (program : String)
    (h : ∃ item ∈ splitComma program.data, (Atoi item).2 ≠ none) :
    (ParseProgram program).2 ≠ none := by
  unfold ParseProgram
  exact parseItems_error _ _ _ h

/-- `NewVM` returns a VM whatever `ParseProgram` returns next to the parsed words. -/
theorem newVM_ignores_parse_error (program : String) (prog : List Int) (err : NumError)
    (hparse : ParseProgram program = (prog, some err)) (hlen : prog.length ≤ 102400) :
    NewVM program =
      .ret ⟨0, 0, prog ++ List.replicate (102400 - prog.length) 0, ⟨[]⟩, ⟨[]⟩⟩ :=
  newVM_eq program prog (some err) hparse hlen

/-- The memory `1,0,0` followed by zeros: the first `Step` is an add that returns no
error. -/
theorem step_of_malformed_program (pad : List Int) (hpad : (pad.length : Int) < 2 ^ 62) :
    IntCodeVM.Step ⟨0, 0, [1, 0, 0] ++ 0 :: pad, ⟨[]⟩, ⟨[]⟩⟩ =
      .ret (⟨4, 0, [2, 0, 0] ++ 0 :: pad, ⟨[]⟩, ⟨[]⟩⟩, none) := by
  have hcap : ((([1, 0, 0] ++ 0 :: pad).length : Nat) : Int) < 2 ^ 63 := by
    simp only [List.length_append, List.length_cons, List.length_nil]
    push_cast
    omega
  rw [step_three_ok ⟨0, 0, [1, 0, 0] ++ 0 :: pad, ⟨[]⟩, ⟨[]⟩⟩ 1 0 0 0 1 1 0
    ⟨"add", 1, 3, opAdd⟩ goAdd hcap
    (by simp) (by simp) rfl rfl
    (Or.inl ⟨rfl, rfl⟩) (by simp) (by simp) (by simp)
    (getByMode_position _ _ 1 (by decide) (by simp) (by simp))
    (getByMode_position _ _ 1 (by decide) (by simp) (by simp))
    (saveOffset_position _ _ (by decide)) (by simp)
    (by simp only [List.length_append, List.length_cons]; push_cast; omega)]
  have : goAdd 1 1 = 2 := by decide
  simp [this]

/-! ## Runs of the amplifier test programs -/

theorem length_three_append_lt (pad : List Int) (hpad : (pad.length : Int) < 2 ^ 62)
    (x y z : Int) : ((([x, y, z] ++ pad).length : Nat) : Int) < 2 ^ 63 := by
  simp only [List.length_append, List.length_cons, List.length_nil]
  push_cast
  omega

/-- The program `104,v,99` in front of any further memory, with any channels: it
writes `v` and halts. -/
theorem run_const_program (pad : List Int) (hpad : (pad.length : Int) < 2 ^ 62)
    (v : Int) (sin sout : IntCodePipe) (n : Nat) :
    IntCodeVM.RunUntilError (n + 2) ⟨0, 0, [104, v, 99] ++ pad, sin, sout⟩ =
      some (.ret (⟨2, 0, [104, v, 99] ++ pad, sin, sout.Write v⟩, .Halt)) := by
  have s1 : IntCodeVM.Step ⟨0, 0, [104, v, 99] ++ pad, sin, sout⟩ =
      .ret (⟨2, 0, [104, v, 99] ++ pad, sin, sout.Write v⟩, none) := by
    rw [step_output_ok ⟨0, 0, [104, v, 99] ++ pad, sin, sout⟩ 104 v v
      (length_three_append_lt pad hpad _ _ _) (by simp) (by simp) rfl (by simp)
      (getByMode_immediate _ _ (show modeAt (ParseParameterModes 104).1 0 = IMEDIATE_MODE
        by decide))]
    simp
  have s2 : IntCodeVM.Step ⟨2, 0, [104, v, 99] ++ pad, sin, sout.Write v⟩ =
      .ret (⟨2, 0, [104, v, 99] ++ pad, sin, sout.Write v⟩, some .Halt) :=
    step_halt _ 99 (length_three_append_lt pad hpad _ _ _) (by simp) (by simp) (by decide)
  rw [runUntilError_of_step_ok _ _ (n + 1) s1]
  exact runUntilError_of_step_error _ _ _ n s2

theorem newVM_positive_const_program :
    NewVM "104,5,99" =
      .ret ⟨0, 0, [104, 5, 99] ++ List.replicate 102397 0, ⟨[]⟩, ⟨[]⟩⟩ :=
  newVM_eq "104,5,99" [104, 5, 99] none (by decide) (by decide)

theorem newVM_const_program :
    NewVM "104,-5,99" =
      .ret ⟨0, 0, [104, -5, 99] ++ List.replicate 102397 0, ⟨[]⟩, ⟨[]⟩⟩ :=
  newVM_eq "104,-5,99" [104, -5, 99] none (by decide) (by decide)

theorem length_padding_lt_three :
    ((List.replicate 102397 (0 : Int)).length : Int) < 2 ^ 62 := by
  rw [List.length_replicate]; decide

/-- The program `3,0,3,1,99` with two values waiting: it reads both and halts. -/
theorem run_two_inputs_program (pad : List Int) (hpad : (pad.length : Int) < 2 ^ 62)
    (x y : Int) (rest : List Int) (sout : IntCodePipe) (n : Nat) :
    IntCodeVM.RunUntilError (n + 3) ⟨0, 0, [3, 0, 3, 1, 99] ++ pad, ⟨x :: y :: rest⟩, sout⟩ =
      some (.ret (⟨4, 0, [x, y, 3, 1, 99] ++ pad, ⟨rest⟩, sout⟩, .Halt)) := by
  have s1 : IntCodeVM.Step ⟨0, 0, [3, 0, 3, 1, 99] ++ pad, ⟨x :: y :: rest⟩, sout⟩ =
      .ret (⟨2, 0, [x, 0, 3, 1, 99] ++ pad, ⟨y :: rest⟩, sout⟩, none) := by
    rw [step_input_ok ⟨0, 0, [3, 0, 3, 1, 99] ++ pad, ⟨x :: y :: rest⟩, sout⟩ 3 0 0 x (y :: rest)
      (length_five_append_lt pad hpad _ _ _ _ _) (by simp) (by simp) rfl (by simp) rfl
      (saveOffset_position _ _ (by decide)) (by simp)
      (by simp only [List.length_append, List.length_cons]; push_cast; omega)]
    simp
  have s2 : IntCodeVM.Step ⟨2, 0, [x, 0, 3, 1, 99] ++ pad, ⟨y :: rest⟩, sout⟩ =
      .ret (⟨4, 0, [x, y, 3, 1, 99] ++ pad, ⟨rest⟩, sout⟩, none) := by
    rw [step_input_ok ⟨2, 0, [x, 0, 3, 1, 99] ++ pad, ⟨y :: rest⟩, sout⟩ 3 1 1 y rest
      (length_five_append_lt pad hpad _ _ _ _ _) (by simp) (by simp) rfl (by simp) rfl
      (saveOffset_position _ _ (by decide)) (by simp)
      (by simp only [List.length_append, List.length_cons]; push_cast; omega)]
    simp
  have s3 : IntCodeVM.Step ⟨4, 0, [x, y, 3, 1, 99] ++ pad, ⟨rest⟩, sout⟩ =
      .ret (⟨4, 0, [x, y, 3, 1, 99] ++ pad, ⟨rest⟩, sout⟩, some .Halt) :=
    step_halt _ 99 (length_five_append_lt pad hpad _ _ _ _ _) (by simp) (by simp) (by decide)
  rw [runUntilError_of_step_ok _ _ (n + 2) s1, runUntilError_of_step_ok _ _ (n + 1) s2]
  exact runUntilError_of_step_error _ _ _ n s3

/-- The program `3,0,3,1,99` after its halt: every further run halts at once. -/
theorem run_two_inputs_halted (pad : List Int) (hpad : (pad.length : Int) < 2 ^ 62)
    (x y : Int) (sin sout : IntCodePipe) (n : Nat) :
    IntCodeVM.RunUntilError (n + 1) ⟨4, 0, [x, y, 3, 1, 99] ++ pad, sin, sout⟩ =
      some (.ret (⟨4, 0, [x, y, 3, 1, 99] ++ pad, sin, sout⟩, .Halt)) :=
  runUntilError_of_step_error _ _ _ n
    (step_halt _ 99 (length_five_append_lt pad hpad _ _ _ _ _) (by simp) (by simp) (by decide))

/-- The program `3,0,3,1,99` with one value waiting: it reads it and stops at the
second input instruction with the empty-read error. -/
theorem run_one_input_program (pad : List Int) (hpad : (pad.length : Int) < 2 ^ 62)
    (x : Int) (sout : IntCodePipe) (n : Nat) :
    IntCodeVM.RunUntilError (n + 2) ⟨0, 0, [3, 0, 3, 1, 99] ++ pad, ⟨[x]⟩, sout⟩ =
      some (.ret (⟨2, 0, [x, 0, 3, 1, 99] ++ pad, ⟨[]⟩, sout⟩, .ReadError)) := by
  have s1 : IntCodeVM.Step ⟨0, 0, [3, 0, 3, 1, 99] ++ pad, ⟨[x]⟩, sout⟩ =
      .ret (⟨2, 0, [x, 0, 3, 1, 99] ++ pad, ⟨[]⟩, sout⟩, none) := by
    rw [step_input_ok ⟨0, 0, [3, 0, 3, 1, 99] ++ pad, ⟨[x]⟩, sout⟩ 3 0 0 x []
      (length_five_append_lt pad hpad _ _ _ _ _) (by simp) (by simp) rfl (by simp) rfl
      (saveOffset_position _ _ (by decide)) (by simp)
      (by simp only [List.length_append, List.length_cons]; push_cast; omega)]
    simp
  have s2 : IntCodeVM.Step ⟨2, 0, [x, 0, 3, 1, 99] ++ pad, ⟨[]⟩, sout⟩ =
      .ret (⟨2, 0, [x, 0, 3, 1, 99] ++ pad, ⟨[]⟩, sout⟩, some .ReadError) :=
    step_input_empty _ 3 1 (length_five_append_lt pad hpad _ _ _ _ _) (by simp) (by simp) rfl
      (by simp) rfl
  rw [runUntilError_of_step_ok _ _ (n + 1) s1]
  exact runUntilError_of_step_error _ _ _ n s2

/-- The program `3,0,3,1,99` waiting at its second input instruction with nothing
to read: every further run stops there again. -/
theorem run_one_input_blocked (pad : List Int) (hpad : (pad.length : Int) < 2 ^ 62)
    (x : Int) (sout : IntCodePipe) (n : Nat) :
    IntCodeVM.RunUntilError (n + 1) ⟨2, 0, [x, 0, 3, 1, 99] ++ pad, ⟨[]⟩, sout⟩ =
      some (.ret (⟨2, 0, [x, 0, 3, 1, 99] ++ pad, ⟨[]⟩, sout⟩, .ReadError)) :=
  runUntilError_of_step_error _ _ _ n
    (step_input_empty _ 3 1 (length_five_append_lt pad hpad _ _ _ _ _) (by simp) (by simp) rfl
      (by simp) rfl)

theorem newVM_two_inputs_program :
    NewVM "3,0,3,1,99" =
      .ret ⟨0, 0, [3, 0, 3, 1, 99] ++ List.replicate 102395 0, ⟨[]⟩, ⟨[]⟩⟩ :=
  newVM_eq "3,0,3,1,99" [3, 0, 3, 1, 99] none (by decide) (by decide)

/-! ## Amplifier networks of five amplifiers -/

theorem runUntilHalt_of_halt (fuel : Nat) (vm vm' : IntCodeVM)
    (h : vm.RunUntilError fuel = some (.ret (vm', .Halt))) :
    vm.RunUntilHalt fuel = some (.ret (vm', none)) := by
  simp [IntCodeVM.RunUntilHalt, h]

/-- The network both searches start from, for a permutation of five settings, before
the first VM runs: single-pass wiring. -/
theorem buildNetwork_five (program : String) (mem : Memory) (a b c d e : Int)
    (hnew : NewVM program = .ret ⟨0, 0, mem, ⟨[]⟩, ⟨[]⟩⟩) :
    buildNetwork false program [a, b, c, d, e] =
      .ret { amps := [⟨a, 0, 0, mem, 0, 2⟩, ⟨b, 0, 0, mem, 2, 4⟩, ⟨c, 0, 0, mem, 4, 6⟩,
                      ⟨d, 0, 0, mem, 6, 8⟩, ⟨e, 0, 0, mem, 8, 9⟩],
             pipes := [⟨[a, 0]⟩, ⟨[]⟩, ⟨[b]⟩, ⟨[]⟩, ⟨[c]⟩, ⟨[]⟩, ⟨[d]⟩, ⟨[]⟩, ⟨[e]⟩, ⟨[]⟩] } := by
  simp [buildNetwork, makeAmps, NewAmplifier, hnew, connectLoop, Network.Connect, initLoop,
    Network.Init, Network.pipeWrite, IntCodePipe.Write]

/-- The same with the looped wiring: the first VM reads from the pipe the last one
writes to. -/
theorem buildNetwork_five_looped (program : String) (mem : Memory) (a b c d e : Int)
    (hnew : NewVM program = .ret ⟨0, 0, mem, ⟨[]⟩, ⟨[]⟩⟩) :
    buildNetwork true program [a, b, c, d, e] =
      .ret { amps := [⟨a, 0, 0, mem, 9, 2⟩, ⟨b, 0, 0, mem, 2, 4⟩, ⟨c, 0, 0, mem, 4, 6⟩,
                      ⟨d, 0, 0, mem, 6, 8⟩, ⟨e, 0, 0, mem, 8, 9⟩],
             pipes := [⟨[]⟩, ⟨[]⟩, ⟨[b]⟩, ⟨[]⟩, ⟨[c]⟩, ⟨[]⟩, ⟨[d]⟩, ⟨[]⟩, ⟨[e]⟩, ⟨[a, 0]⟩] } := by
  simp [buildNetwork, makeAmps, NewAmplifier, hnew, connectLoop, Network.Connect, initLoop,
    Network.Init, Network.pipeWrite, IntCodePipe.Write]

/-- A single-pass chain of five VMs each of which writes `v` and halts, whatever it
is given: the value read from the last VM is `v`. -/
theorem chainSignal_of_const (fuel : Nat) (program : String) (mem : Memory) (v a b c d e : Int)
    (hnew : NewVM program = .ret ⟨0, 0, mem, ⟨[]⟩, ⟨[]⟩⟩)
    (hrun : ∀ sin sout : IntCodePipe, IntCodeVM.RunUntilError fuel ⟨0, 0, mem, sin, sout⟩ =
      some (.ret (⟨2, 0, mem, sin, sout.Write v⟩, .Halt))) :
    chainSignal fuel program [a, b, c, d, e] =
      some (.ret ({ amps := [⟨a, 2, 0, mem, 0, 2⟩, ⟨b, 2, 0, mem, 2, 4⟩, ⟨c, 2, 0, mem, 4, 6⟩,
                             ⟨d, 2, 0, mem, 6, 8⟩, ⟨e, 2, 0, mem, 8, 9⟩],
                    pipes := [⟨[a, 0]⟩, ⟨[]⟩, ⟨[b, v]⟩, ⟨[]⟩, ⟨[c, v]⟩, ⟨[]⟩, ⟨[d, v]⟩, ⟨[]⟩,
                              ⟨[e, v]⟩, ⟨[]⟩] }, (v, none), none)) := by
  have hhalt : ∀ sin sout : IntCodePipe, IntCodeVM.RunUntilHalt fuel ⟨0, 0, mem, sin, sout⟩ =
      some (.ret (⟨2, 0, mem, sin, sout.Write v⟩, none)) :=
    fun sin sout => runUntilHalt_of_halt _ _ _ (hrun sin sout)
  simp [chainSignal, buildNetwork_five program mem a b c d e hnew, runChain, Network.vmOf,
    hhalt, Network.put, Network.readLast, IntCodePipe.Write, IntCodePipe.Read]

/-- A looped network of five VMs of which the first halts in the first sweep and the
other four wait for input in every sweep: the sweep loop ends after five sweeps, the
counter at 5, with four VMs that never halted. -/
theorem loopedNetwork_of_stall (fuel k : Nat) (program : String) (mem : Memory)
    (mem1 : Int → Int → Memory) (mem2 : Int → Memory) (a b c d e : Int)
    (hnew : NewVM program = .ret ⟨0, 0, mem, ⟨[]⟩, ⟨[]⟩⟩)
    (r1 : ∀ (x y : Int) (sout : IntCodePipe),
      IntCodeVM.RunUntilError fuel ⟨0, 0, mem, ⟨[x, y]⟩, sout⟩ =
        some (.ret (⟨4, 0, mem1 x y, ⟨[]⟩, sout⟩, .Halt)))
    (r2 : ∀ (x y : Int) (sin sout : IntCodePipe),
      IntCodeVM.RunUntilError fuel ⟨4, 0, mem1 x y, sin, sout⟩ =
        some (.ret (⟨4, 0, mem1 x y, sin, sout⟩, .Halt)))
    (r3 : ∀ (x : Int) (sout : IntCodePipe),
      IntCodeVM.RunUntilError fuel ⟨0, 0, mem, ⟨[x]⟩, sout⟩ =
        some (.ret (⟨2, 0, mem2 x, ⟨[]⟩, sout⟩, .ReadError)))
    (r4 : ∀ (x : Int) (sout : IntCodePipe),
      IntCodeVM.RunUntilError fuel ⟨2, 0, mem2 x, ⟨[]⟩, sout⟩ =
        some (.ret (⟨2, 0, mem2 x, ⟨[]⟩, sout⟩, .ReadError))) :
    loopedNetwork fuel (k + 5) program [a, b, c, d, e] =
      some (.ret ({ amps := [⟨a, 4, 0, mem1 a 0, 9, 2⟩, ⟨b, 2, 0, mem2 b, 2, 4⟩,
                             ⟨c, 2, 0, mem2 c, 4, 6⟩, ⟨d, 2, 0, mem2 d, 6, 8⟩,
                             ⟨e, 2, 0, mem2 e, 8, 9⟩],
                    pipes := [⟨[]⟩, ⟨[]⟩, ⟨[]⟩, ⟨[]⟩, ⟨[]⟩, ⟨[]⟩, ⟨[]⟩, ⟨[]⟩, ⟨[]⟩, ⟨[]⟩] },
                  5, none)) := by
  simp [loopedNetwork, buildNetwork_five_looped program mem a b c d e hnew, sweepLoop, sweep,
    Network.vmOf, r1, r2, r3, r4, Network.put]

/-- The four VMs the stalled network leaves waiting, as VMs. -/
theorem stalled_network_vms (mem1 : Int → Int → Memory) (mem2 : Int → Memory)
    (a b c d e : Int) (i : Fin 4) :
    ∃ (amp : Amplifier) (x : Int),
      [(⟨a, 4, 0, mem1 a 0, 9, 2⟩ : Amplifier), ⟨b, 2, 0, mem2 b, 2, 4⟩,
        ⟨c, 2, 0, mem2 c, 4, 6⟩, ⟨d, 2, 0, mem2 d, 6, 8⟩,
        ⟨e, 2, 0, mem2 e, 8, 9⟩][i.val + 1]? = some amp ∧
      Network.vmOf { amps := [⟨a, 4, 0, mem1 a 0, 9, 2⟩, ⟨b, 2, 0, mem2 b, 2, 4⟩,
                             ⟨c, 2, 0, mem2 c, 4, 6⟩, ⟨d, 2, 0, mem2 d, 6, 8⟩,
                             ⟨e, 2, 0, mem2 e, 8, 9⟩],
                     pipes := [⟨[]⟩, ⟨[]⟩, ⟨[]⟩, ⟨[]⟩, ⟨[]⟩, ⟨[]⟩, ⟨[]⟩, ⟨[]⟩, ⟨[]⟩, ⟨[]⟩] }
          amp = some ⟨2, 0, mem2 x, ⟨[]⟩, ⟨[]⟩⟩ := by
  fin_cases i
  · exact ⟨_, b, rfl, by simp [Network.vmOf]⟩
  · exact ⟨_, c, rfl, by simp [Network.vmOf]⟩
  · exact ⟨_, d, rfl, by simp [Network.vmOf]⟩
  · exact ⟨_, e, rfl, by simp [Network.vmOf]⟩

/-- The value the looped search reads from the stalled network: none, so 0 with the
empty-read error of the pipe. -/
theorem loopedSignal_of_stall (fuel sweeps : Nat) (program : String)
    (mem1 : Int → Int → Memory) (mem2 : Int → Memory) (a b c d e : Int)
    (h : loopedNetwork fuel sweeps program [a, b, c, d, e] =
      some (.ret ({ amps := [⟨a, 4, 0, mem1 a 0, 9, 2⟩, ⟨b, 2, 0, mem2 b, 2, 4⟩,
                             ⟨c, 2, 0, mem2 c, 4, 6⟩, ⟨d, 2, 0, mem2 d, 6, 8⟩,
                             ⟨e, 2, 0, mem2 e, 8, 9⟩],
                    pipes := [⟨[]⟩, ⟨[]⟩, ⟨[]⟩, ⟨[]⟩, ⟨[]⟩, ⟨[]⟩, ⟨[]⟩, ⟨[]⟩, ⟨[]⟩, ⟨[]⟩] },
                  5, none))) :
    loopedSignal fuel sweeps program [a, b, c, d, e] =
      some (.ret ({ amps := [⟨a, 4, 0, mem1 a 0, 9, 2⟩, ⟨b, 2, 0, mem2 b, 2, 4⟩,
                             ⟨c, 2, 0, mem2 c, 4, 6⟩, ⟨d, 2, 0, mem2 d, 6, 8⟩,
                             ⟨e, 2, 0, mem2 e, 8, 9⟩],
                    pipes := [⟨[]⟩, ⟨[]⟩, ⟨[]⟩, ⟨[]⟩, ⟨[]⟩, ⟨[]⟩, ⟨[]⟩, ⟨[]⟩, ⟨[]⟩, ⟨[]⟩] },
                  (0, some .ReadError), none)) := by
  simp [loopedSignal, h, Network.readLast, IntCodePipe.Read]

/-! ## The search over the permutations -/

/-- Permutations whose value read is not above `best` leave `best` and `bestp` as
they are. -/
theorem searchLoop_of_low_signals
    (signal : List Int → Option (Outcome (Network × (Int × Option Err) × Option Err))) :
    ∀ (perms : List (List Int)) (best : Int) (bestp : List Int),
      (∀ p ∈ perms, ∃ net v err, signal p = some (.ret (net, (v, err), none)) ∧ v ≤ best) →
      searchLoop signal perms best bestp = some (.ret (bestp, best, none)) := by
  intro perms
  induction perms with
  | nil => intro best bestp _; rfl
  | cons p rest ih =>
    intro best bestp h
    obtain ⟨net, v, err, hs, hv⟩ := h p (List.mem_cons_self _ _)
    simp only [searchLoop, hs]
    rw [if_neg (by omega)]
    exact ih best bestp (fun q hq => h q (List.mem_cons_of_mem _ hq))

/-- A first permutation whose value read is above `best` takes its place. -/
theorem searchLoop_of_better
    (signal : List Int → Option (Outcome (Network × (Int × Option Err) × Option Err)))
    (p : List Int) (perms : List (List Int)) (best : Int) (bestp : List Int)
    (net : Network) (v : Int) (err : Option Err)
    (hs : signal p = some (.ret (net, (v, err), none))) (hv : best < v) :
    searchLoop signal (p :: perms) best bestp = searchLoop signal perms v p := by
  simp only [searchLoop, hs]
  rw [if_pos (by omega)]

/-- What the search returns when it returns no error, from any state `best`, `bestp`
of the running best: every permutation gave a value, none above the returned one;
the returned pair is the initial one, or a value above the initial `best` together
with the first permutation that gave it. -/
theorem searchLoop_inv
    (signal : List Int → Option (Outcome (Network × (Int × Option Err) × Option Err))) :
    ∀ (perms : List (List Int)) (best : Int) (bestp bp : List Int) (b : Int),
      searchLoop signal perms best bestp = some (.ret (bp, b, none)) →
      (∀ p ∈ perms, ∃ net v err, signal p = some (.ret (net, (v, err), none)) ∧ v ≤ b) ∧
      best ≤ b ∧
      ((b = best ∧ bp = bestp) ∨
        (best < b ∧ ∃ pre post net err, perms = pre ++ bp :: post ∧
          signal bp = some (.ret (net, (b, err), none)) ∧
          ∀ q ∈ pre, ∃ net1 v err1, signal q = some (.ret (net1, (v, err1), none)) ∧ v < b)) := by
  intro perms
  induction perms with
  | nil =>
    intro best bestp bp b h
    simp only [searchLoop, Option.some.injEq, Outcome.ret.injEq, Prod.mk.injEq, and_true] at h
    exact ⟨fun p hp => absurd hp (List.not_mem_nil _), le_of_eq h.2,
      Or.inl ⟨h.2.symm, h.1.symm⟩⟩
  | cons p rest ih =>
    intro best bestp bp b h
    rw [searchLoop] at h
    cases hs : signal p with
    | none => rw [hs] at h; cases h
    | some r =>
      rw [hs] at h
      cases r with
      | panic => cases h
      | ret res =>
        obtain ⟨net, ⟨v, err⟩, e⟩ := res
        cases e with
        | some e1 => simp at h
        | none =>
          simp only at h
          by_cases hv : v > best
          · rw [if_pos hv] at h
            obtain ⟨hall, hle, hor⟩ := ih v p bp b h
            refine ⟨?_, by omega, Or.inr ⟨by omega, ?_⟩⟩
            · intro q hq
              rcases List.mem_cons.mp hq with rfl | hq
              · exact ⟨net, v, err, hs, hle⟩
              · exact hall q hq
            · rcases hor with ⟨hb, hbp⟩ | ⟨hlt, pre, post, net1, err1, hsplit, hsig, hpre⟩
              · subst hb; subst hbp
                exact ⟨[], rest, net, err, rfl, hs, fun q hq => absurd hq (List.not_mem_nil _)⟩
              · refine ⟨p :: pre, post, net1, err1, by rw [hsplit]; rfl, hsig, ?_⟩
                intro q hq
                rcases List.mem_cons.mp hq with rfl | hq
                · exact ⟨net, v, err, hs, hlt⟩
                · exact hpre q hq
          · rw [if_neg hv] at h
            obtain ⟨hall, hle, hor⟩ := ih best bestp bp b h
            refine ⟨?_, hle, ?_⟩
            · intro q hq
              rcases List.mem_cons.mp hq with rfl | hq
              · exact ⟨net, v, err, hs, by omega⟩
              · exact hall q hq
            · rcases hor with hsame | ⟨hlt, pre, post, net1, err1, hsplit, hsig, hpre⟩
              · exact Or.inl hsame
              · refine Or.inr ⟨hlt, p :: pre, post, net1, err1, by rw [hsplit]; rfl, hsig, ?_⟩
                intro q hq
                rcases List.mem_cons.mp hq with rfl | hq
                · exact ⟨net, v, err, hs, by omega⟩
                · exact hpre q hq

/-- The single-pass search returns the maximum and its first producer as soon as one
permutation gives a value above -1; otherwise it returns -1 and a nil permutation. -/
theorem optimize_inv (fuel : Nat) (perms : List (List Int)) (program : String)
    (bp : List Int) (b : Int)
    (h : OptimizeAmplifierPhaseSettings fuel perms program = some (.ret (bp, b, none))) :
    (∀ p ∈ perms, ∃ net v err,
      chainSignal fuel program p = some (.ret (net, (v, err), none)) ∧ v ≤ b) ∧
    ((b = -1 ∧ bp = []) ∨
      (-1 < b ∧ ∃ pre post net err, perms = pre ++ bp :: post ∧
        chainSignal fuel program bp = some (.ret (net, (b, err), none)) ∧
        ∀ q ∈ pre, ∃ net1 v err1,
          chainSignal fuel program q = some (.ret (net1, (v, err1), none)) ∧ v < b)) := by
  obtain ⟨hall, _, hor⟩ := searchLoop_inv _ perms (-1) [] bp b h
  exact ⟨hall, hor⟩

/-! ## Properties of the specification -/

/-- C1: when `Step` executes opcode 1, 2, 7 or 8 and returns no error, then with `a`,
`b` the values `GetByMode` gives for the first two parameters in the state before the
step and `d` the offset `SaveByMode` computes for the third, the memory afterwards is
the memory before with cell `d` set to `a + b`, `a * b`, `1 if a < b else 0`,
`1 if a = b else 0` respectively (sum and product in Go's `int`, equal to the exact
ones whenever those fit in 64 bits), the instruction pointer has advanced by 4, and
relative base and channels are unchanged. The VM built by `NewVM` from `1,0,0,0,99`
halts with `memory[0] = 2`, the one built from `1101,100,-1,4,0` with
`memory[4] = 99`. -/
theorem step_arithmetic :
    (∀ (vm vm' : IntCodeVM) (w : Int),
      (vm.Memory.length : Int) < 2 ^ 63 →
      vm.GetInstruction = .ret (w, none) →
      ((ParseParameterModes w).2 = 1 ∨ (ParseParameterModes w).2 = 2 ∨
        (ParseParameterModes w).2 = 7 ∨ (ParseParameterModes w).2 = 8) →
      vm.Step = .ret (vm', none) →
      ∃ arg0 arg1 arg2 a b d r : Int,
        vm.Memory[(vm.IntructionPointer + 1).toNat]? = some arg0 ∧
        vm.Memory[(vm.IntructionPointer + 2).toNat]? = some arg1 ∧
        vm.Memory[(vm.IntructionPointer + 3).toNat]? = some arg2 ∧
        Parameter.GetByMode ⟨modeAt (ParseParameterModes w).1 0, arg0⟩ vm = .ret (a, none) ∧
        Parameter.GetByMode ⟨modeAt (ParseParameterModes w).1 1, arg1⟩ vm = .ret (b, none) ∧
        Parameter.saveOffset ⟨modeAt (ParseParameterModes w).1 2, arg2⟩ vm = some d ∧
        0 ≤ d ∧ d < vm.Memory.length ∧
        ((ParseParameterModes w).2 = 1 → r = goAdd a b ∧ (InIntRange (a + b) → r = a + b)) ∧
        ((ParseParameterModes w).2 = 2 → r = goMul a b ∧ (InIntRange (a * b) → r = a * b)) ∧
        ((ParseParameterModes w).2 = 7 → r = if a < b then 1 else 0) ∧
        ((ParseParameterModes w).2 = 8 → r = if a = b then 1 else 0) ∧
        vm'.Memory = vm.Memory.set d.toNat r ∧
        vm'.IntructionPointer = vm.IntructionPointer + 4 ∧
        vm'.RelativeBase = vm.RelativeBase ∧
        vm'.Stdin = vm.Stdin ∧ vm'.Stdout = vm.Stdout) ∧
    (∀ n : Nat, ∃ vm vm', NewVM "1,0,0,0,99" = .ret vm ∧
      vm.RunUntilError (n + 2) = some (.ret (vm', .Halt)) ∧ vm'.Memory[0]? = some 2) ∧
    (∀ n : Nat, ∃ vm vm', NewVM "1101,100,-1,4,0" = .ret vm ∧
      vm.RunUntilError (n + 2) = some (.ret (vm', .Halt)) ∧ vm'.Memory[4]? = some 99) := by
  refine ⟨?_, ?_, ?_⟩
  · intro vm vm' w hcap hfetch hop hstep
    have key : ∀ (opcode : OpCode) (f : Int → Int → Int),
        vmOpCodes (ParseParameterModes w).2 = some opcode → opcode.Argc = 3 →
        ((opcode.Operation = opAdd ∧ f = goAdd) ∨ (opcode.Operation = opMult ∧ f = goMul) ∨
          (opcode.Operation = opLessThan ∧ f = fun a b => if a < b then 1 else 0) ∨
          (opcode.Operation = opEquals ∧ f = fun a b => if a = b then 1 else 0)) →
        ∃ arg0 arg1 arg2 a b d : Int,
          vm.Memory[(vm.IntructionPointer + 1).toNat]? = some arg0 ∧
          vm.Memory[(vm.IntructionPointer + 2).toNat]? = some arg1 ∧
          vm.Memory[(vm.IntructionPointer + 3).toNat]? = some arg2 ∧
          Parameter.GetByMode ⟨modeAt (ParseParameterModes w).1 0, arg0⟩ vm = .ret (a, none) ∧
          Parameter.GetByMode ⟨modeAt (ParseParameterModes w).1 1, arg1⟩ vm = .ret (b, none) ∧
          Parameter.saveOffset ⟨modeAt (ParseParameterModes w).1 2, arg2⟩ vm = some d ∧
          0 ≤ d ∧ d < vm.Memory.length ∧
          vm'.Memory = vm.Memory.set d.toNat (f a b) ∧
          vm'.IntructionPointer = vm.IntructionPointer + 4 ∧
          vm'.RelativeBase = vm.RelativeBase ∧
          vm'.Stdin = vm.Stdin ∧ vm'.Stdout = vm.Stdout :=
      fun opcode f h1 h2 h3 => step_three_inv vm vm' w opcode f hcap hfetch h1 h2 h3 hstep
    rcases hop with h | h | h | h
    · obtain ⟨arg0, arg1, arg2, a, b, d, h1, h2, h3, h4, h5, h6, h7, h8, h9, h10⟩ :=
        key ⟨"add", 1, 3, opAdd⟩ goAdd (by rw [h]; rfl) rfl (Or.inl ⟨rfl, rfl⟩)
      refine ⟨arg0, arg1, arg2, a, b, d, goAdd a b, h1, h2, h3, h4, h5, h6, h7, h8,
        ?_, ?_, ?_, ?_, h9, h10⟩
      · intro _; exact ⟨rfl, fun hr => goAdd_of_inRange _ _ hr⟩
      · intro h'; rw [h] at h'; exact absurd h' (by decide)
      · intro h'; rw [h] at h'; exact absurd h' (by decide)
      · intro h'; rw [h] at h'; exact absurd h' (by decide)
    · obtain ⟨arg0, arg1, arg2, a, b, d, h1, h2, h3, h4, h5, h6, h7, h8, h9, h10⟩ :=
        key ⟨"mult", 2, 3, opMult⟩ goMul (by rw [h]; rfl) rfl (Or.inr (Or.inl ⟨rfl, rfl⟩))
      refine ⟨arg0, arg1, arg2, a, b, d, goMul a b, h1, h2, h3, h4, h5, h6, h7, h8,
        ?_, ?_, ?_, ?_, h9, h10⟩
      · intro h'; rw [h] at h'; exact absurd h' (by decide)
      · intro _; exact ⟨rfl, fun hr => goMul_of_inRange _ _ hr⟩
      · intro h'; rw [h] at h'; exact absurd h' (by decide)
      · intro h'; rw [h] at h'; exact absurd h' (by decide)
    · obtain ⟨arg0, arg1, arg2, a, b, d, h1, h2, h3, h4, h5, h6, h7, h8, h9, h10⟩ :=
        key ⟨"less-than", 7, 3, opLessThan⟩ (fun a b => if a < b then 1 else 0)
          (by rw [h]; rfl) rfl (Or.inr (Or.inr (Or.inl ⟨rfl, rfl⟩)))
      refine ⟨arg0, arg1, arg2, a, b, d, if a < b then 1 else 0, h1, h2, h3, h4, h5, h6, h7,
        h8, ?_, ?_, ?_, ?_, h9, h10⟩
      · intro h'; rw [h] at h'; exact absurd h' (by decide)
      · intro h'; rw [h] at h'; exact absurd h' (by decide)
      · intro _; rfl
      · intro h'; rw [h] at h'; exact absurd h' (by decide)
    · obtain ⟨arg0, arg1, arg2, a, b, d, h1, h2, h3, h4, h5, h6, h7, h8, h9, h10⟩ :=
        key ⟨"equals", 8, 3, opEquals⟩ (fun a b => if a = b then 1 else 0)
          (by rw [h]; rfl) rfl (Or.inr (Or.inr (Or.inr ⟨rfl, rfl⟩)))
      refine ⟨arg0, arg1, arg2, a, b, d, if a = b then 1 else 0, h1, h2, h3, h4, h5, h6, h7,
        h8, ?_, ?_, ?_, ?_, h9, h10⟩
      · intro h'; rw [h] at h'; exact absurd h' (by decide)
      · intro h'; rw [h] at h'; exact absurd h' (by decide)
      · intro h'; rw [h] at h'; exact absurd h' (by decide)
      · intro _; rfl
  · intro n
    exact ⟨_, _, newVM_add_program, run_add_program _ length_padding_lt n,
      (show ∀ pad : List Int, ([2, 0, 0, 0, 99] ++ pad)[0]? = some 2 from
        fun pad => by simp) _⟩
  · intro n
    exact ⟨_, _, newVM_immediate_add_program,
      run_immediate_add_program _ length_padding_lt n,
      (show ∀ pad : List Int, ([1101, 100, -1, 4, 99] ++ pad)[4]? = some 99 from
        fun pad => by simp) _⟩

/-- C1, witness: the add at the start of `1,0,0,0,99` on a five-cell memory. -/
theorem step_arithmetic_witness :
    IntCodeVM.GetInstruction ⟨0, 0, [1, 0, 0, 0, 99], ⟨[]⟩, ⟨[]⟩⟩ = .ret (1, none) ∧
    IntCodeVM.Step ⟨0, 0, [1, 0, 0, 0, 99], ⟨[]⟩, ⟨[]⟩⟩ =
      .ret (⟨4, 0, [2, 0, 0, 0, 99], ⟨[]⟩, ⟨[]⟩⟩, none) ∧
    ∃ a b d r : Int,
      Parameter.GetByMode ⟨0, 0⟩ ⟨0, 0, [1, 0, 0, 0, 99], ⟨[]⟩, ⟨[]⟩⟩ = .ret (a, none) ∧
      Parameter.GetByMode ⟨0, 0⟩ ⟨0, 0, [1, 0, 0, 0, 99], ⟨[]⟩, ⟨[]⟩⟩ = .ret (b, none) ∧
      r = goAdd a b ∧
      ([2, 0, 0, 0, 99] : Memory) = ([1, 0, 0, 0, 99] : Memory).set d.toNat r ∧
      (4 : Int) = 0 + 4 := by
  obtain ⟨arg0, arg1, arg2, a, b, d, r, h1, h2, _, hg0, hg1, _, _, _, hadd, _, _, _,
      hmem, hip, _⟩ :=
    step_arithmetic.1 ⟨0, 0, [1, 0, 0, 0, 99], ⟨[]⟩, ⟨[]⟩⟩ ⟨4, 0, [2, 0, 0, 0, 99], ⟨[]⟩, ⟨[]⟩⟩ 1
      (by decide) (by decide) (Or.inl (by decide)) (by decide)
  have e0 : arg0 = 0 := by
    have : ([1, 0, 0, 0, 99] : Memory)[((0 : Int) + 1).toNat]? = some 0 := by decide
    exact (Option.some.inj (h1.symm.trans this))
  have e1 : arg1 = 0 := by
    have : ([1, 0, 0, 0, 99] : Memory)[((0 : Int) + 2).toNat]? = some 0 := by decide
    exact (Option.some.inj (h2.symm.trans this))
  subst e0 e1
  exact ⟨by decide, by decide, a, b, d, r, hg0, hg1, (hadd (by decide)).1, hmem, hip⟩

/-- C2: for a non-negative instruction word `w`, `ParseParameterModes` returns the
opcode `w mod 100`, and the mode `Step` assigns to parameter `i` (the map entry for
`i`, position mode when there is none) is the `i`-th decimal digit of `w div 100`. -/
theorem parseParameterModes_decodes (w : Int) (hw : 0 ≤ w) :
    (ParseParameterModes w).2 = w % 100 ∧
    ∀ i : Nat, modeAt (ParseParameterModes w).1 i = (w / 100 / 10 ^ i) % 10 := by
  obtain ⟨n, rfl⟩ := Int.eq_ofNat_of_zero_le hw
  have hdiv : (n : Int).tdiv 100 = ((n / 100 : Nat) : Int) := by
    rw [Int.tdiv_eq_ediv (by omega) (by omega)]; norm_cast
  constructor
  · show (n : Int).tmod 100 = (n : Int) % 100
    exact Int.tmod_eq_emod (by omega) (by omega)
  · intro i
    show modeAt (parseLoop (((n : Int).tdiv 100).natAbs + 1) ((n : Int).tdiv 100) 0
      (fun _ => none)) i = _
    rw [hdiv, parseLoop_natCast _ _ _ _ (by omega) (by simp)]
    simp only [Nat.not_lt_zero, if_false, Nat.sub_zero]
    norm_cast

/-- C2, witness: the word `1002` decodes to opcode 2 with parameter modes position,
immediate, position. -/
theorem parseParameterModes_1002 :
    (0 : Int) ≤ 1002 ∧ (ParseParameterModes 1002).2 = 2 ∧
    modeAt (ParseParameterModes 1002).1 0 = POSITION_MODE ∧
    modeAt (ParseParameterModes 1002).1 1 = IMEDIATE_MODE ∧
    modeAt (ParseParameterModes 1002).1 2 = POSITION_MODE := by
  have h := parseParameterModes_decodes 1002 (by decide)
  refine ⟨by decide, ?_, ?_, ?_, ?_⟩
  · rw [h.1]; decide
  · rw [h.2 0]; decide
  · rw [h.2 1]; decide
  · rw [h.2 2]; decide

/-- C3: `GetByMode` returns, without error, the argument itself in immediate mode,
`memory[arg]` in position mode when `0 ≤ arg < capacity`, and
`memory[relativeBase + arg]` in relative mode when `0 ≤ relativeBase + arg < capacity`;
in particular the address `capacity - 1` is readable and the address `capacity`
yields `ErrSegFault`, in both modes. (`GetByMode` assigns nothing through `vm`: its
embedding returns no state.) -/
theorem getByMode_denotes (vm : IntCodeVM) (p : Parameter)
    (hcap : (vm.Memory.length : Int) < 2 ^ 63) :
    (p.Mode = IMEDIATE_MODE → p.GetByMode vm = .ret (p.Arg, none)) ∧
    (p.Mode = POSITION_MODE → 0 ≤ p.Arg → p.Arg < vm.Memory.length →
      ∃ v, vm.Memory[p.Arg.toNat]? = some v ∧ p.GetByMode vm = .ret (v, none)) ∧
    (p.Mode = RELATIVE_MODE → 0 ≤ vm.RelativeBase + p.Arg →
      vm.RelativeBase + p.Arg < vm.Memory.length →
      ∃ v, vm.Memory[(vm.RelativeBase + p.Arg).toNat]? = some v ∧
        p.GetByMode vm = .ret (v, none)) ∧
    (p.Mode = POSITION_MODE → 0 < vm.Memory.length → p.Arg = vm.Memory.length - 1 →
      ∃ v, vm.Memory[vm.Memory.length - 1]? = some v ∧ p.GetByMode vm = .ret (v, none)) ∧
    (p.Mode = RELATIVE_MODE → 0 < vm.Memory.length →
      vm.RelativeBase + p.Arg = vm.Memory.length - 1 →
      ∃ v, vm.Memory[vm.Memory.length - 1]? = some v ∧ p.GetByMode vm = .ret (v, none)) ∧
    (p.Mode = POSITION_MODE → p.Arg = vm.Memory.length →
      p.GetByMode vm = .ret (0, some .SegFault)) ∧
    (p.Mode = RELATIVE_MODE → vm.RelativeBase + p.Arg = vm.Memory.length →
      p.GetByMode vm = .ret (0, some .SegFault)) := by
  have hpos : p.Mode = POSITION_MODE → 0 ≤ p.Arg → p.Arg < vm.Memory.length →
      ∃ v, vm.Memory[p.Arg.toNat]? = some v ∧ p.GetByMode vm = .ret (v, none) := by
    intro hm h0 h1
    obtain ⟨v, hv, hidx⟩ := memIndex_of_lt vm.Memory p.Arg h0 h1
    refine ⟨v, hv, ?_⟩
    unfold Parameter.GetByMode
    rw [if_neg (by rw [hm]; decide), if_neg (by rw [hm]; decide), if_neg (by omega), hidx]
  have hrel : p.Mode = RELATIVE_MODE → 0 ≤ vm.RelativeBase + p.Arg →
      vm.RelativeBase + p.Arg < vm.Memory.length →
      ∃ v, vm.Memory[(vm.RelativeBase + p.Arg).toNat]? = some v ∧
        p.GetByMode vm = .ret (v, none) := by
    intro hm h0 h1
    obtain ⟨v, hv, hidx⟩ := memIndex_of_lt vm.Memory _ h0 h1
    refine ⟨v, hv, ?_⟩
    have hw : goAdd vm.RelativeBase p.Arg = vm.RelativeBase + p.Arg :=
      goAdd_of_inRange _ _ ⟨by omega, by omega⟩
    unfold Parameter.GetByMode
    rw [if_neg (by rw [hm]; decide), if_pos hm]
    simp only [hw]
    rw [if_neg (by omega), hidx]
  refine ⟨?_, hpos, hrel, ?_, ?_, ?_, ?_⟩
  · intro hm
    unfold Parameter.GetByMode
    rw [if_pos hm]
  · intro hm hlen harg
    obtain ⟨v, hv, hget⟩ := hpos hm (by omega) (by omega)
    have : p.Arg.toNat = vm.Memory.length - 1 := by omega
    rw [this] at hv
    exact ⟨v, hv, hget⟩
  · intro hm hlen harg
    obtain ⟨v, hv, hget⟩ := hrel hm (by omega) (by omega)
    have : (vm.RelativeBase + p.Arg).toNat = vm.Memory.length - 1 := by omega
    rw [this] at hv
    exact ⟨v, hv, hget⟩
  · intro hm harg
    unfold Parameter.GetByMode
    rw [if_neg (by rw [hm]; decide), if_neg (by rw [hm]; decide), if_pos (by omega)]
  · intro hm harg
    have hw : goAdd vm.RelativeBase p.Arg = vm.RelativeBase + p.Arg :=
      goAdd_of_inRange _ _ ⟨by omega, by omega⟩
    unfold Parameter.GetByMode
    rw [if_neg (by rw [hm]; decide), if_pos hm]
    simp only [hw]
    rw [if_pos (by omega)]

/-- C3, witness: with relative base 1, the relative-mode parameter with argument 1
reads cell 2 of a three-cell memory. -/
theorem getByMode_denotes_witness :
    ((([10, 20, 30] : Memory).length : Int) < 2 ^ 63) ∧
    ∃ v, ([10, 20, 30] : Memory)[((1 : Int) + 1).toNat]? = some v ∧
      Parameter.GetByMode ⟨RELATIVE_MODE, 1⟩ ⟨0, 1, [10, 20, 30], ⟨[]⟩, ⟨[]⟩⟩ = .ret (v, none) :=
  ⟨by decide,
   (getByMode_denotes ⟨0, 1, [10, 20, 30], ⟨[]⟩, ⟨[]⟩⟩ ⟨RELATIVE_MODE, 1⟩ (by decide)).2.2.1
     rfl (by decide) (by decide)⟩

/-- C4: a store through a position-mode or relative-mode parameter whose effective
address `e` (`arg`, resp. `relativeBase + arg`) lies in `[0, capacity)` returns no
error; afterwards cell `e` holds the value, every other cell, the capacity, the
instruction pointer, the relative base and both channels are as before. Second part:
when opcode 9 (here `109,b`) has moved the relative base to `relativeBase + b`, the
opcode 3 in relative mode that follows (`203,o`) stores the input in cell
`relativeBase + b + o`. -/
theorem saveByMode_stores :
    (∀ (vm : IntCodeVM) (p : Parameter) (v e : Int),
      (vm.Memory.length : Int) < 2 ^ 63 →
      ((p.Mode = POSITION_MODE ∧ e = p.Arg) ∨
        (p.Mode = RELATIVE_MODE ∧ e = vm.RelativeBase + p.Arg)) →
      0 ≤ e → e < vm.Memory.length →
      ∃ vm', p.SaveByMode vm v = (vm', none) ∧
        vm'.Memory[e.toNat]? = some v ∧
        (∀ j : Nat, j ≠ e.toNat → vm'.Memory[j]? = vm.Memory[j]?) ∧
        vm'.Memory.length = vm.Memory.length ∧
        vm'.IntructionPointer = vm.IntructionPointer ∧
        vm'.RelativeBase = vm.RelativeBase ∧
        vm'.Stdin = vm.Stdin ∧ vm'.Stdout = vm.Stdout) ∧
    (∀ (vm : IntCodeVM) (b o v : Int) (rest : List Int),
      (vm.Memory.length : Int) < 2 ^ 63 →
      0 ≤ vm.IntructionPointer →
      vm.Memory[vm.IntructionPointer.toNat]? = some 109 →
      vm.Memory[(vm.IntructionPointer + 1).toNat]? = some b →
      vm.Memory[(vm.IntructionPointer + 2).toNat]? = some 203 →
      vm.Memory[(vm.IntructionPointer + 3).toNat]? = some o →
      vm.Stdin.Buffer = v :: rest →
      InIntRange (vm.RelativeBase + b) →
      0 ≤ vm.RelativeBase + b + o → vm.RelativeBase + b + o < vm.Memory.length →
      vm.Step = .ret ({ vm with
          RelativeBase := vm.RelativeBase + b,
          IntructionPointer := vm.IntructionPointer + 2 }, none) ∧
      IntCodeVM.Step { vm with
          RelativeBase := vm.RelativeBase + b,
          IntructionPointer := vm.IntructionPointer + 2 } =
        .ret ({ vm with
          RelativeBase := vm.RelativeBase + b,
          IntructionPointer := vm.IntructionPointer + 4,
          Memory := vm.Memory.set (vm.RelativeBase + b + o).toNat v,
          Stdin := { Buffer := rest } }, none)) := by
  refine ⟨?_, adjust_then_input⟩
  intro vm p v e hcap hmode h0 h1
  have hoff : p.saveOffset vm = some e := by
    rcases hmode with ⟨hm, he⟩ | ⟨hm, he⟩
    · rw [he]; exact saveOffset_position vm p hm
    · rw [he]; exact saveOffset_relative vm p hm ⟨by omega, by omega⟩
  refine ⟨_, saveByMode_ok vm p v e hoff h0 h1, ?_, ?_, ?_, rfl, rfl, rfl, rfl⟩
  · have hlt : e.toNat < vm.Memory.length := by omega
    simp [List.getElem?_set, hlt]
  · intro j hj
    simp [List.getElem?_set, Ne.symm hj]
  · simp

/-- C4, witness: a position-mode store to cell 1 of a three-cell memory; and the
program `109,7,203,3,99` with 55 on the input channel, which stores 55 in cell
`7 + 3 = 10` and leaves cell 3 alone. -/
theorem saveByMode_stores_witness :
    (∃ vm', Parameter.SaveByMode ⟨POSITION_MODE, 1⟩ ⟨0, 0, [10, 20, 30], ⟨[]⟩, ⟨[]⟩⟩ 5
        = (vm', none) ∧
      vm'.Memory[((1 : Int)).toNat]? = some 5 ∧
      (∀ j : Nat, j ≠ ((1 : Int)).toNat → vm'.Memory[j]? = ([10, 20, 30] : Memory)[j]?) ∧
      vm'.Memory.length = ([10, 20, 30] : Memory).length ∧
      vm'.IntructionPointer = 0 ∧ vm'.RelativeBase = 0 ∧
      vm'.Stdin = ⟨[]⟩ ∧ vm'.Stdout = ⟨[]⟩) ∧
    (IntCodeVM.Step ⟨0, 0, [109, 7, 203, 3, 99, 0, 0, 0, 0, 0, 0], ⟨[55]⟩, ⟨[]⟩⟩ =
        .ret (⟨2, 7, [109, 7, 203, 3, 99, 0, 0, 0, 0, 0, 0], ⟨[55]⟩, ⟨[]⟩⟩, none) ∧
      IntCodeVM.Step ⟨2, 7, [109, 7, 203, 3, 99, 0, 0, 0, 0, 0, 0], ⟨[55]⟩, ⟨[]⟩⟩ =
        .ret (⟨4, 7, [109, 7, 203, 3, 99, 0, 0, 0, 0, 0, 55], ⟨[]⟩, ⟨[]⟩⟩, none)) :=
  ⟨saveByMode_stores.1 ⟨0, 0, [10, 20, 30], ⟨[]⟩, ⟨[]⟩⟩ ⟨POSITION_MODE, 1⟩ 5 1
    (by decide) (Or.inl ⟨rfl, rfl⟩) (by decide) (by decide),
   saveByMode_stores.2 ⟨0, 0, [109, 7, 203, 3, 99, 0, 0, 0, 0, 0, 0], ⟨[55]⟩, ⟨[]⟩⟩ 7 3 55 []
    (by decide) (by decide) (by decide) (by decide) (by decide) (by decide) rfl
    (by decide) (by decide) (by decide)⟩

/-- C5, the failing read: a position-mode parameter with a negative argument makes
`GetByMode` index the slice at a negative offset (a run-time panic), where the
relative-mode branch and `SaveByMode` return `ErrSegFault`; so does the `Step` that
executes `4,-1`. -/
theorem getByMode_position_negative_panics :
    Parameter.GetByMode ⟨POSITION_MODE, -1⟩ ⟨0, 0, [4, -1, 99], ⟨[]⟩, ⟨[]⟩⟩ = .panic ∧
    IntCodeVM.Step ⟨0, 0, [4, -1, 99], ⟨[]⟩, ⟨[]⟩⟩ = .panic ∧
    Parameter.GetByMode ⟨RELATIVE_MODE, -1⟩ ⟨0, 0, [4, -1, 99], ⟨[]⟩, ⟨[]⟩⟩
      = .ret (0, some .SegFault) ∧
    Parameter.SaveByMode ⟨POSITION_MODE, -1⟩ ⟨0, 0, [4, -1, 99], ⟨[]⟩, ⟨[]⟩⟩ 7
      = (⟨0, 0, [4, -1, 99], ⟨[]⟩, ⟨[]⟩⟩, some .SegFault) := by
  decide

/-- C6: whatever the argument and the value, a store through an immediate-mode
parameter returns an error other than `ErrSegFault`, `ErrHalt` and `ReadError`, and
returns the VM as it was: no cell is written. -/
theorem saveByMode_immediate_rejected (vm : IntCodeVM) (arg value : Int) :
    ∃ e, Parameter.SaveByMode ⟨IMEDIATE_MODE, arg⟩ vm value = (vm, some e) ∧
      e ≠ .SegFault ∧ e ≠ .Halt ∧ e ≠ .ReadError :=
  ⟨.ImediateMemset, rfl, by decide, by decide, by decide⟩

/-- C7, the failing jump: a taken jump whose target is the address of the jump
instruction itself leaves the handler with the instruction pointer equal to `oldIp`,
so `Step` takes it for "not modified" and advances by 3: from address 0 the machine
lands on 3, not on the target 0 (jump-if-true `1105,1,0` and jump-if-false
`1106,0,0` alike), while a jump to another address lands on its target. -/
theorem step_jump_to_own_address :
    IntCodeVM.Step ⟨0, 0, [1105, 1, 0], ⟨[]⟩, ⟨[]⟩⟩ =
      .ret (⟨3, 0, [1105, 1, 0], ⟨[]⟩, ⟨[]⟩⟩, none) ∧
    IntCodeVM.Step ⟨0, 0, [1106, 0, 0], ⟨[]⟩, ⟨[]⟩⟩ =
      .ret (⟨3, 0, [1106, 0, 0], ⟨[]⟩, ⟨[]⟩⟩, none) ∧
    IntCodeVM.Step ⟨0, 0, [1105, 1, 2], ⟨[]⟩, ⟨[]⟩⟩ =
      .ret (⟨2, 0, [1105, 1, 2], ⟨[]⟩, ⟨[]⟩⟩, none) := by
  decide

/-- C8, counterexample: the input instruction `103,0` (immediate-mode destination)
with an empty input channel. The first `Step` returns `ReadError` and changes nothing;
after 5 is written to the input channel the second `Step` returns the immediate-mode
error: 5 is not stored, the instruction pointer is still 0, and 5 is gone from the
channel. -/
theorem step_input_retry_immediate :
    (⟨0, 0, [103, 0, 99], ⟨[]⟩, ⟨[]⟩⟩ : IntCodeVM).GetInstruction = .ret (103, none) ∧
    (ParseParameterModes 103).2 = 3 ∧
    IntCodeVM.Step ⟨0, 0, [103, 0, 99], ⟨[]⟩, ⟨[]⟩⟩ =
      .ret (⟨0, 0, [103, 0, 99], ⟨[]⟩, ⟨[]⟩⟩, some .ReadError) ∧
    IntCodeVM.Step ⟨0, 0, [103, 0, 99], (⟨[]⟩ : IntCodePipe).Write 5, ⟨[]⟩⟩ =
      .ret (⟨0, 0, [103, 0, 99], ⟨[]⟩, ⟨[]⟩⟩, some .ImediateMemset) ∧
    ¬ ∃ vm', IntCodeVM.Step ⟨0, 0, [103, 0, 99], (⟨[]⟩ : IntCodePipe).Write 5, ⟨[]⟩⟩ =
      .ret (vm', none) := by
  refine ⟨by decide, by decide, by decide, by decide, ?_⟩
  rintro ⟨vm', h⟩
  have h' : IntCodeVM.Step ⟨0, 0, [103, 0, 99], (⟨[]⟩ : IntCodePipe).Write 5, ⟨[]⟩⟩ =
      .ret (⟨0, 0, [103, 0, 99], ⟨[]⟩, ⟨[]⟩⟩, some .ImediateMemset) := by decide
  rw [h'] at h
  cases h

/-- C8, amended: let the instruction pointer address an input instruction whose
parameter word lies inside the memory, and let the input channel be empty. Then
`Step` returns `ReadError` and leaves the VM as it was; and if the parameter is in
position or relative mode with effective address `d` in `[0, capacity)`, then after
`v` is written to the input channel the next `Step` executes that same instruction:
`v` is stored in cell `d`, the input channel is empty again, the instruction pointer
has advanced by 2, and nothing else has changed. -/
theorem step_input_retry (vm : IntCodeVM) (w arg v : Int)
    (hcap : (vm.Memory.length : Int) < 2 ^ 63)
    (hfetch : vm.GetInstruction = .ret (w, none))
    (hop : (ParseParameterModes w).2 = 3)
    (harg : vm.Memory[(vm.IntructionPointer + 1).toNat]? = some arg)
    (hempty : vm.Stdin.Buffer = []) :
    vm.Step = .ret (vm, some .ReadError) ∧
    ∀ d : Int,
      ((modeAt (ParseParameterModes w).1 0 = POSITION_MODE ∧ d = arg) ∨
        (modeAt (ParseParameterModes w).1 0 = RELATIVE_MODE ∧ d = vm.RelativeBase + arg)) →
      0 ≤ d → d < vm.Memory.length →
      IntCodeVM.Step { vm with Stdin := vm.Stdin.Write v } =
        .ret ({ vm with
          Memory := vm.Memory.set d.toNat v,
          IntructionPointer := vm.IntructionPointer + 2,
          Stdin := { Buffer := [] } }, none) := by
  obtain ⟨h0, hw⟩ := (getInstruction_ret_iff vm w).mp hfetch
  refine ⟨step_input_empty vm w arg hcap h0 hw hop harg hempty, ?_⟩
  intro d hmode hd0 hd1
  have hoff : Parameter.saveOffset ⟨modeAt (ParseParameterModes w).1 0, arg⟩
      { vm with Stdin := vm.Stdin.Write v } = some d := by
    rcases hmode with ⟨hm, he⟩ | ⟨hm, he⟩
    · rw [he]; exact saveOffset_position _ _ hm
    · rw [he]
      exact saveOffset_relative _ ⟨_, arg⟩ hm
        (show InIntRange (vm.RelativeBase + arg) from ⟨by omega, by omega⟩)
  exact step_input_ok { vm with Stdin := vm.Stdin.Write v } w arg d v [] hcap h0 hw hop harg
    (by simp [IntCodePipe.Write, hempty]) hoff hd0 hd1

/-- C8, witness: the input instruction `3,2` on an empty channel, then with 5 supplied. -/
theorem step_input_retry_witness :
    IntCodeVM.Step ⟨0, 0, [3, 2, 99], ⟨[]⟩, ⟨[]⟩⟩ =
      .ret (⟨0, 0, [3, 2, 99], ⟨[]⟩, ⟨[]⟩⟩, some .ReadError) ∧
    IntCodeVM.Step ⟨0, 0, [3, 2, 99], (⟨[]⟩ : IntCodePipe).Write 5, ⟨[]⟩⟩ =
      .ret (⟨0 + 2, 0, ([3, 2, 99] : Memory).set (2 : Int).toNat 5, ⟨[]⟩, ⟨[]⟩⟩, none) :=
  have h := step_input_retry ⟨0, 0, [3, 2, 99], ⟨[]⟩, ⟨[]⟩⟩ 3 2 5
    (by decide) (by decide) (by decide) (by decide) rfl
  ⟨h.1, h.2 2 (Or.inl ⟨by decide, rfl⟩) (by decide) (by decide)⟩

/-- C9: for every integer `v`, the VM built by `NewVM` from `3,0,4,0,99`, with `v`
written to its input channel, runs to `ErrHalt` (at its third `Step`); at that point
the output channel holds exactly `[v]`, the input channel is empty and
`memory[0] = v`. -/
theorem echo_program_halts (v : Int) (n : Nat) :
    ∃ vm vm', NewVM "3,0,4,0,99" = .ret vm ∧
      IntCodeVM.RunUntilError (n + 3) { vm with Stdin := vm.Stdin.Write v } =
        some (.ret (vm', .Halt)) ∧
      vm'.Stdout.Buffer = [v] ∧ vm'.Stdin.Buffer = [] ∧ vm'.Memory[0]? = some v :=
  ⟨_, _, newVM_echo_program, run_echo_program _ length_padding_lt v n, rfl, rfl,
    (show ∀ pad : List Int, ([v, 0, 4, 0, 99] ++ pad)[0]? = some v from
      fun pad => by simp) _⟩

/-- C9, the instance `v = 42`. -/
theorem echo_program_halts_42 :
    ∃ vm vm', NewVM "3,0,4,0,99" = .ret vm ∧
      IntCodeVM.RunUntilError 3 { vm with Stdin := vm.Stdin.Write 42 } =
        some (.ret (vm', .Halt)) ∧
      vm'.Stdout.Buffer = [42] ∧ vm'.Stdin.Buffer = [] ∧ vm'.Memory[0]? = some 42 :=
  echo_program_halts 42 0

/-- C10: when `Step` returns no error, opcode 9 adds the value `a` of its parameter
to the relative base (in Go's `int`; the exact sum whenever it fits in 64 bits),
advances the instruction pointer by 2 and leaves memory and channels unchanged;
every other opcode leaves the relative base as it was. -/
theorem step_relativeBase (vm vm' : IntCodeVM) (w : Int)
    (hcap : (vm.Memory.length : Int) < 2 ^ 63)
    (hfetch : vm.GetInstruction = .ret (w, none))
    (hstep : vm.Step = .ret (vm', none)) :
    ((ParseParameterModes w).2 = 9 →
      ∃ arg a : Int,
        vm.Memory[(vm.IntructionPointer + 1).toNat]? = some arg ∧
        Parameter.GetByMode ⟨modeAt (ParseParameterModes w).1 0, arg⟩ vm = .ret (a, none) ∧
        vm'.RelativeBase = goAdd vm.RelativeBase a ∧
        (InIntRange (vm.RelativeBase + a) → vm'.RelativeBase = vm.RelativeBase + a) ∧
        vm'.IntructionPointer = vm.IntructionPointer + 2 ∧
        vm'.Memory = vm.Memory ∧ vm'.Stdin = vm.Stdin ∧ vm'.Stdout = vm.Stdout) ∧
    ((ParseParameterModes w).2 ≠ 9 → vm'.RelativeBase = vm.RelativeBase) := by
  refine ⟨?_, fun hne => step_relativeBase_of_ne vm vm' w none hcap hfetch hne hstep⟩
  intro hop
  obtain ⟨h0, h1⟩ := getInstruction_bounds vm w hfetch
  rw [step_of_fetch vm w ⟨"adjust-base", 9, 1, opAdjustBase⟩ hcap hfetch
    (by rw [hop]; rfl)] at hstep
  simp only [Nat.cast_one] at hstep
  by_cases hroom : vm.IntructionPointer + 1 < vm.Memory.length
  · rw [if_pos hroom] at hstep
    obtain ⟨vm1, hres, hvm'⟩ := finishStep_ok_inv _ _ _ _ hstep
    rw [stepParms_one] at hres
    simp only [opAdjustBase, readParm, List.getElem?_cons_zero] at hres
    refine ⟨vm.Memory.getD (vm.IntructionPointer + 1).toNat 0, ?_⟩
    cases hg : Parameter.GetByMode ⟨modeAt (ParseParameterModes w).1 0,
        vm.Memory.getD (vm.IntructionPointer + 1).toNat 0⟩ vm with
    | panic => rw [hg] at hres; cases hres
    | ret r =>
      obtain ⟨a, e⟩ := r
      cases e with
      | some err => rw [hg] at hres; cases hres
      | none =>
        rw [hg] at hres
        simp only [Outcome.ret.injEq, Prod.mk.injEq, and_true] at hres
        have hip : vm.IntructionPointer = vm1.IntructionPointer := by rw [← hres]
        rw [if_pos hip] at hvm'
        have h2 : goAdd 1 ((1 : Nat) : Int) = 2 := by decide
        have hadv : goAdd vm1.IntructionPointer (goAdd 1 ((1 : Nat) : Int)) =
            vm.IntructionPointer + 2 := by
          rw [← hip, h2, goAdd_of_inRange _ _ ⟨by omega, by omega⟩]
        rw [hadv, ← hres] at hvm'
        refine ⟨a, getElem?_getD_of_lt _ _ (by omega) hroom, rfl, ?_, ?_, ?_, ?_, ?_, ?_⟩
        · rw [hvm']
        · intro hr; rw [hvm']; exact goAdd_of_inRange _ _ hr
        · rw [hvm']
        · rw [hvm']
        · rw [hvm']
        · rw [hvm']
  · rw [if_neg hroom] at hstep
    cases hstep

/-- C10, witness: `109,5` adds 5 to the relative base 3. -/
theorem step_relativeBase_witness :
    (⟨0, 3, [109, 5, 99], ⟨[]⟩, ⟨[]⟩⟩ : IntCodeVM).Step =
      .ret (⟨2, 8, [109, 5, 99], ⟨[]⟩, ⟨[]⟩⟩, none) ∧
    ∃ arg a : Int,
      ([109, 5, 99] : Memory)[((0 : Int) + 1).toNat]? = some arg ∧
      Parameter.GetByMode ⟨modeAt (ParseParameterModes 109).1 0, arg⟩
        ⟨0, 3, [109, 5, 99], ⟨[]⟩, ⟨[]⟩⟩ = .ret (a, none) ∧
      (8 : Int) = goAdd 3 a ∧ (InIntRange (3 + a) → (8 : Int) = 3 + a) ∧
      (2 : Int) = 0 + 2 ∧ ([109, 5, 99] : Memory) = [109, 5, 99] ∧
      (⟨[]⟩ : IntCodePipe) = ⟨[]⟩ ∧ (⟨[]⟩ : IntCodePipe) = ⟨[]⟩ :=
  ⟨by decide,
   (step_relativeBase ⟨0, 3, [109, 5, 99], ⟨[]⟩, ⟨[]⟩⟩ ⟨2, 8, [109, 5, 99], ⟨[]⟩, ⟨[]⟩⟩ 109
     (by decide) (by decide) (by decide)).1 (by decide)⟩

/-- C11: with the instruction pointer in range, `Step` returns the unknown-opcode
error exactly when the opcode decoded from the fetched word is none of 1, 2, 3, 4, 5,
6, 7, 8, 9, 99; the error carries that opcode value, differs from `ErrSegFault`,
`ErrHalt` and `ReadError`, and the VM returned with it is the VM as it was. -/
theorem step_unknown_opcode (vm : IntCodeVM)
    (h0 : 0 ≤ vm.IntructionPointer) (h1 : vm.IntructionPointer < vm.Memory.length) :
    ∃ w, vm.Memory[vm.IntructionPointer.toNat]? = some w ∧
      ((∃ vm' k, vm.Step = .ret (vm', some (.UnknownOpcode k))) ↔
        (ParseParameterModes w).2 ∉ ([1, 2, 3, 4, 5, 6, 7, 8, 9, 99] : List Int)) ∧
      (∀ vm' k, vm.Step = .ret (vm', some (.UnknownOpcode k)) →
        vm' = vm ∧ k = (ParseParameterModes w).2) ∧
      ((ParseParameterModes w).2 ∉ ([1, 2, 3, 4, 5, 6, 7, 8, 9, 99] : List Int) →
        vm.Step = .ret (vm, some (.UnknownOpcode (ParseParameterModes w).2))) ∧
      (∀ k, Err.UnknownOpcode k ≠ .SegFault ∧ Err.UnknownOpcode k ≠ .Halt ∧
        Err.UnknownOpcode k ≠ .ReadError) := by
  obtain ⟨w, hw, _⟩ := memIndex_of_lt vm.Memory _ h0 h1
  have hfetch : vm.GetInstruction = .ret (w, none) :=
    (getInstruction_ret_iff vm w).mpr ⟨h0, hw⟩
  have key : ∀ vm' k, vm.Step = .ret (vm', some (.UnknownOpcode k)) →
      vmOpCodes (ParseParameterModes w).2 = none ∧ vm' = vm ∧
        k = (ParseParameterModes w).2 := by
    intro vm' k hstep
    rcases step_inv vm vm' _ hstep with ⟨_, he⟩ | ⟨w', hf', hnone, hv, he⟩ |
      ⟨w', opcode, parms, hf', hop, _, hfin⟩
    · cases he
    · rw [hfetch] at hf'
      cases hf'
      cases he
      exact ⟨hnone, hv, rfl⟩
    · have hres := finishStep_error_inv _ _ _ _ _ hfin
      rcases handler_error _ opcode vm vm' parms _ hop hres with
        ⟨_, he | he | ⟨he, _⟩ | ⟨he, _⟩⟩ | ⟨_, p, v, rest, _, _, _, hsave⟩
      · cases he
      · cases he
      · cases he
      · cases he
      · rcases (saveByMode_error _ _ _ _ _ hsave).2 with he | he <;> cases he
  refine ⟨w, hw, ⟨?_, ?_⟩, ?_, ?_, ?_⟩
  · rintro ⟨vm', k, hstep⟩
    exact (vmOpCodes_none_iff _).mp (key vm' k hstep).1
  · intro hnot
    exact ⟨vm, _, step_unknown vm w hfetch ((vmOpCodes_none_iff _).mpr hnot)⟩
  · intro vm' k hstep
    exact (key vm' k hstep).2
  · intro hnot
    exact step_unknown vm w hfetch ((vmOpCodes_none_iff _).mpr hnot)
  · intro k
    refine ⟨?_, ?_, ?_⟩ <;> (intro h; cases h)

/-- C11, witness: the word 1000 (opcode 0) at address 0. -/
theorem step_unknown_opcode_witness :
    ∃ w, ([1000, 0, 0] : Memory)[(0 : Int).toNat]? = some w ∧
      ((∃ vm' k, IntCodeVM.Step ⟨0, 0, [1000, 0, 0], ⟨[]⟩, ⟨[]⟩⟩ =
          .ret (vm', some (.UnknownOpcode k))) ↔
        (ParseParameterModes w).2 ∉ ([1, 2, 3, 4, 5, 6, 7, 8, 9, 99] : List Int)) ∧
      IntCodeVM.Step ⟨0, 0, [1000, 0, 0], ⟨[]⟩, ⟨[]⟩⟩ =
        .ret (⟨0, 0, [1000, 0, 0], ⟨[]⟩, ⟨[]⟩⟩, some (.UnknownOpcode 0)) := by
  obtain ⟨w, hw, hiff, _, _, _⟩ :=
    step_unknown_opcode ⟨0, 0, [1000, 0, 0], ⟨[]⟩, ⟨[]⟩⟩ (by decide) (by decide)
  exact ⟨w, hw, hiff, by decide⟩

/-- C12, the failing fetches: with the instruction pointer equal to the capacity, or
negative, `GetInstruction` indexes the slice outside its bounds, and with an add
instruction whose third parameter word lies at the capacity the parameter loop does:
`Step` panics in all three states, where it returns `ErrSegFault` only for an
instruction pointer above the capacity. The VM built by `NewVM` from
`1105,1,102400` jumps to address 102400 and panics at its second `Step`. -/
theorem step_fetch_at_capacity_panics :
    IntCodeVM.Step ⟨1, 0, [99], ⟨[]⟩, ⟨[]⟩⟩ = .panic ∧
    IntCodeVM.Step ⟨-1, 0, [99], ⟨[]⟩, ⟨[]⟩⟩ = .panic ∧
    IntCodeVM.Step ⟨0, 0, [1, 0, 0], ⟨[]⟩, ⟨[]⟩⟩ = .panic ∧
    IntCodeVM.Step ⟨2, 0, [99], ⟨[]⟩, ⟨[]⟩⟩ =
      .ret (⟨2, 0, [99], ⟨[]⟩, ⟨[]⟩⟩, some .SegFault) ∧
    (∀ n : Nat, ∃ vm, NewVM "1105,1,102400" = .ret vm ∧
      vm.RunUntilError (n + 2) = some .panic) :=
  ⟨by decide, by decide, by decide, by decide,
   fun n => ⟨_, newVM_jump_to_capacity,
     run_jump_to_capacity _ (List.length_replicate _ _) n⟩⟩

/-- C20: when `Step` returns an error, the memory (contents and length), the
instruction pointer, the relative base and the output channel are as before; the
input channel is as before or has lost its first value, and it has lost its first
value exactly when an input instruction took a value from it and the store of that
value failed. A VM on which `Step` returned `ErrHalt` is unchanged, and every later
`Step` on it returns `ErrHalt` again. -/
theorem step_error_no_effect (vm vm' : IntCodeVM) (e : Err)
    (h : vm.Step = .ret (vm', some e)) :
    vm'.Memory = vm.Memory ∧ vm'.Memory.length = vm.Memory.length ∧
    vm'.IntructionPointer = vm.IntructionPointer ∧
    vm'.RelativeBase = vm.RelativeBase ∧ vm'.Stdout = vm.Stdout ∧
    (vm'.Stdin = vm.Stdin ∨ ∃ v, vm.Stdin.Buffer = v :: vm'.Stdin.Buffer) ∧
    ((∃ v, vm.Stdin.Buffer = v :: vm'.Stdin.Buffer) ↔
      ∃ w parms p v rest, vm.GetInstruction = .ret (w, none) ∧
        (ParseParameterModes w).2 = 3 ∧
        loadParms vm (ParseParameterModes w).1 1 0 = .ret (parms, none) ∧
        parms[0]? = some p ∧ vm.Stdin.Buffer = v :: rest ∧
        (p.SaveByMode { vm with Stdin := { Buffer := rest } } v).2 = some e) ∧
    (e = .Halt → vm' = vm ∧ vm'.Step = .ret (vm', some .Halt) ∧
      ∀ n, vm'.RunUntilError (n + 1) = some (.ret (vm', .Halt))) := by
  have hinv := step_error_inv vm vm' e h
  have hframe : vm'.Memory = vm.Memory ∧ vm'.IntructionPointer = vm.IntructionPointer ∧
      vm'.RelativeBase = vm.RelativeBase ∧ vm'.Stdout = vm.Stdout := by
    rcases hinv with hv | ⟨w, parms, p, v, rest, _, _, _, _, _, hv, _⟩
    · rw [hv]; exact ⟨rfl, rfl, rfl, rfl⟩
    · rw [hv]; exact ⟨rfl, rfl, rfl, rfl⟩
  refine ⟨hframe.1, by rw [hframe.1], hframe.2.1, hframe.2.2.1, hframe.2.2.2, ?_, ⟨?_, ?_⟩, ?_⟩
  · rcases hinv with hv | ⟨w, parms, p, v, rest, _, _, _, _, hin, hv, _⟩
    · exact Or.inl (by rw [hv])
    · exact Or.inr ⟨v, by rw [hv]; exact hin⟩
  · rintro ⟨v, hlost⟩
    rcases hinv with hv | ⟨w, parms, p, v', rest, hf, hop, hl, hp, hin, hv, hsave⟩
    · rw [hv] at hlost
      exact absurd hlost.symm (List.cons_ne_self _ _)
    · exact ⟨w, parms, p, v', rest, hf, hop, hl, hp, hin, by rw [hsave]⟩
  · rintro ⟨w, parms, p, v, rest, hf, hop, hl, hp, hin, hsave⟩
    have hsave' : p.SaveByMode { vm with Stdin := { Buffer := rest } } v =
        ((p.SaveByMode { vm with Stdin := { Buffer := rest } } v).1, some e) := by
      rw [← hsave]
    have hstep := step_input_store_failed vm _ w v parms p rest e hf hop hl hp hin hsave'
    rw [h] at hstep
    have hv : vm' = { vm with Stdin := { Buffer := rest } } := by
      cases hstep; rfl
    exact ⟨v, by rw [hv]; exact hin⟩
  · intro he
    subst he
    have hv : vm' = vm := by
      rcases hinv with hv | ⟨w, parms, p, v, rest, _, _, _, _, _, _, hsave⟩
      · exact hv
      · rcases (saveByMode_error _ _ _ _ _ hsave).2 with he | he <;> cases he
    subst hv
    exact ⟨rfl, h, fun n => runUntilError_of_step_error _ _ _ n h⟩

/-- C20, witness: the halt instruction at address 4 of `2,0,0,0,99`. -/
theorem step_error_no_effect_witness :
    IntCodeVM.Step ⟨4, 0, [2, 0, 0, 0, 99], ⟨[]⟩, ⟨[]⟩⟩ =
      .ret (⟨4, 0, [2, 0, 0, 0, 99], ⟨[]⟩, ⟨[]⟩⟩, some .Halt) ∧
    ∀ n, IntCodeVM.RunUntilError (n + 1) ⟨4, 0, [2, 0, 0, 0, 99], ⟨[]⟩, ⟨[]⟩⟩ =
      some (.ret (⟨4, 0, [2, 0, 0, 0, 99], ⟨[]⟩, ⟨[]⟩⟩, .Halt)) :=
  have h := step_error_no_effect ⟨4, 0, [2, 0, 0, 0, 99], ⟨[]⟩, ⟨[]⟩⟩
    ⟨4, 0, [2, 0, 0, 0, 99], ⟨[]⟩, ⟨[]⟩⟩ .Halt (by decide)
  ⟨(h.2.2.2.2.2.2.2 rfl).2.1, (h.2.2.2.2.2.2.2 rfl).2.2⟩

/-- C13: `IntCodePipe` is a first-in-first-out queue. Writing the elements of `xs`
in order to a pipe holding `q` (a write returns no error) leaves it holding
`q ++ xs`; the first `k` reads then return the first `k` elements of `q ++ xs`, in
that order and without error, and leave the remaining ones in the pipe, so
`len(q) + len(xs)` reads return all of `q ++ xs` and empty the pipe; a read on the
empty pipe returns `ReadError`, which is not `nil`, and leaves the pipe empty. -/
theorem pipe_fifo (q xs : List Int) :
    (writeAll { Buffer := q } xs).Buffer = q ++ xs ∧
    (∀ k, readN k (writeAll { Buffer := q } xs) =
      (((q ++ xs).take k).map (fun x => (x, none)) ++
          List.replicate (k - (q ++ xs).length) (0, some Err.ReadError),
        { Buffer := (q ++ xs).drop k })) ∧
    readN (q.length + xs.length) (writeAll { Buffer := q } xs) =
      ((q ++ xs).map (fun x => (x, none)), { Buffer := [] }) ∧
    IntCodePipe.Read { Buffer := [] } = ((0, some .ReadError), { Buffer := [] }) ∧
    (some Err.ReadError ≠ none ∧ Err.ReadError ≠ .SegFault ∧ Err.ReadError ≠ .Halt) := by
  refine ⟨by rw [writeAll_eq], fun k => by rw [writeAll_eq, readN_eq], ?_, rfl,
    by decide, by decide, by decide⟩
  rw [writeAll_eq, readN_eq]
  simp [← List.length_append]

/-- C15: when `RunUntilError` ends with error `e` in state `vm'`, `RunUntilHalt` from
the same state ends in the same state `vm'`; it returns `nil` exactly when `e` is
`ErrHalt`, and returns `e` itself otherwise. The number of `Step` calls granted to
the loop does not matter once it suffices. -/
theorem runUntilHalt_spec (fuel : Nat) (vm vm' : IntCodeVM) (e : Err)
    (h : vm.RunUntilError fuel = some (.ret (vm', e))) :
    (∀ n, vm.RunUntilError (fuel + n) = some (.ret (vm', e))) ∧
    (∀ n, ∃ r, vm.RunUntilHalt (fuel + n) = some (.ret (vm', r)) ∧
      (r = none ↔ e = .Halt) ∧ (e ≠ .Halt → r = some e)) := by
  have hmono := runUntilError_mono fuel vm _ h
  refine ⟨hmono, fun n => ?_⟩
  unfold IntCodeVM.RunUntilHalt
  rw [hmono n]
  by_cases he : e = .Halt
  · refine ⟨none, ?_, ?_, ?_⟩
    · simp [he]
    · simp [he]
    · intro hne; exact absurd he hne
  · refine ⟨some e, ?_, ?_, ?_⟩
    · simp [he]
    · simp [he]
    · intro _; rfl

/-- C15, witness: `1,0,0,0,99` runs to `ErrHalt`, so `RunUntilHalt` returns `nil`;
`3,0,99` with an empty input channel stops with `ReadError`, which `RunUntilHalt`
returns. -/
theorem runUntilHalt_spec_witness :
    (∀ n, IntCodeVM.RunUntilHalt (2 + n) ⟨0, 0, [1, 0, 0, 0, 99], ⟨[]⟩, ⟨[]⟩⟩ =
      some (.ret (⟨4, 0, [2, 0, 0, 0, 99], ⟨[]⟩, ⟨[]⟩⟩, none))) ∧
    (∀ n, IntCodeVM.RunUntilHalt (1 + n) ⟨0, 0, [3, 0, 99], ⟨[]⟩, ⟨[]⟩⟩ =
      some (.ret (⟨0, 0, [3, 0, 99], ⟨[]⟩, ⟨[]⟩⟩, some .ReadError))) := by
  constructor
  · intro n
    obtain ⟨r, hr, hiff, _⟩ := (runUntilHalt_spec 2 ⟨0, 0, [1, 0, 0, 0, 99], ⟨[]⟩, ⟨[]⟩⟩
      ⟨4, 0, [2, 0, 0, 0, 99], ⟨[]⟩, ⟨[]⟩⟩ .Halt (by decide)).2 n
    rw [hr, hiff.mpr rfl]
  · intro n
    obtain ⟨r, hr, _, hne⟩ := (runUntilHalt_spec 1 ⟨0, 0, [3, 0, 99], ⟨[]⟩, ⟨[]⟩⟩
      ⟨0, 0, [3, 0, 99], ⟨[]⟩, ⟨[]⟩⟩ .ReadError (by decide)).2 n
    rw [hr, hne (by decide)]

/-- C14, counterexample: with 7 already in the output channel, `RunUntilOutput` on
`1,0,0,0,99` returns `(7, nil)` after a single step, and that step executed the add
instruction (opcode 1), not an output instruction. -/
theorem runUntilOutput_returns_old_value :
    (∀ n, IntCodeVM.RunUntilOutput (n + 1) ⟨0, 0, [1, 0, 0, 0, 99], ⟨[]⟩, ⟨[7]⟩⟩ =
      some (.ret (⟨4, 0, [2, 0, 0, 0, 99], ⟨[]⟩, ⟨[]⟩⟩, 7, none))) ∧
    IntCodeVM.GetInstruction ⟨0, 0, [1, 0, 0, 0, 99], ⟨[]⟩, ⟨[7]⟩⟩ = .ret (1, none) ∧
    (ParseParameterModes 1).2 = 1 ∧
    IntCodeVM.Step ⟨0, 0, [1, 0, 0, 0, 99], ⟨[]⟩, ⟨[7]⟩⟩ =
      .ret (⟨4, 0, [2, 0, 0, 0, 99], ⟨[]⟩, ⟨[7]⟩⟩, none) := by
  refine ⟨fun n => ?_, by decide, by decide, by decide⟩
  exact runUntilOutputLoop_of_step_output _ ⟨4, 0, [2, 0, 0, 0, 99], ⟨[]⟩, ⟨[7]⟩⟩ 0 7 [] n
    (by decide) rfl

/-- C14, amended: let the output channel be empty when `RunUntilOutput` is called.
If it returns `(v, nil)`, then the last step it executed was an output instruction
(opcode 4), no earlier step of the call was one, and `v` is the value of that
instruction's parameter, which the step wrote and `RunUntilOutput` removed again.
If a step returns an error (`ErrHalt` or a fault) before any output instruction has
executed, `RunUntilOutput` returns that error; and an error it returns is the error
of such a step. After steps that are no output instructions, an output instruction
that succeeds makes `RunUntilOutput` return the value it wrote. -/
theorem runUntilOutput_spec (vm : IntCodeVM) (hout : vm.Stdout.Buffer = []) :
    (∀ fuel vm' v, vm.RunUntilOutput fuel = some (.ret (vm', v, none)) →
      ∃ k vmk w vmo parms, k < fuel ∧ quietSteps k vm = some vmk ∧
        vmk.GetInstruction = .ret (w, none) ∧ (ParseParameterModes w).2 = 4 ∧
        loadParms vmk (ParseParameterModes w).1 1 0 = .ret (parms, none) ∧
        readParm parms 0 vmk = .ret (v, none) ∧
        vmk.Step = .ret (vmo, none) ∧ vmo.Stdout.Buffer = [v] ∧
        vm' = { vmo with Stdout := { Buffer := [] } }) ∧
    (∀ k vmk vm' e n, quietSteps k vm = some vmk → vmk.Step = .ret (vm', some e) →
      vm.RunUntilOutput (k + 1 + n) = some (.ret (vm', 0, some e))) ∧
    (∀ fuel vm' v e, vm.RunUntilOutput fuel = some (.ret (vm', v, some e)) →
      ∃ k vmk, k < fuel ∧ quietSteps k vm = some vmk ∧
        vmk.Step = .ret (vm', some e) ∧ v = 0) ∧
    (∀ k vmk w vmo n, quietSteps k vm = some vmk →
      vmk.GetInstruction = .ret (w, none) → (ParseParameterModes w).2 = 4 →
      vmk.Step = .ret (vmo, none) →
      ∃ v, vmo.Stdout.Buffer = [v] ∧
        vm.RunUntilOutput (k + 1 + n) =
          some (.ret ({ vmo with Stdout := { Buffer := [] } }, v, none))) := by
  refine ⟨?_, ?_, ?_, ?_⟩
  · intro fuel vm' v h
    obtain ⟨k, vmk, hk, hq, _, hfin⟩ := runUntilOutputLoop_inv fuel vm hout vm' v none h
    rcases hfin with ⟨err, he, _⟩ | ⟨_, w, vmo, parms, h1, h2, h3, h4, h5, h6, h7⟩
    · cases he
    · exact ⟨k, vmk, w, vmo, parms, hk, hq, h1, h2, h3, h4, h5, h6, h7⟩
  · intro k vmk vm' e n hq hs
    obtain ⟨_, hrun⟩ := runUntilOutputLoop_skip k vm vmk hout hq
    unfold IntCodeVM.RunUntilOutput
    rw [hrun n 0, runUntilOutputLoop_of_step_error vmk vm' e _ n hs]
    simp
  · intro fuel vm' v e h
    obtain ⟨k, vmk, hk, hq, _, hfin⟩ := runUntilOutputLoop_inv fuel vm hout vm' v (some e) h
    rcases hfin with ⟨err, he, hv, hs⟩ | ⟨he, _⟩
    · cases he
      exact ⟨k, vmk, hk, hq, hs, hv⟩
    · cases he
  · intro k vmk w vmo n hq hf hop hs
    obtain ⟨hko, hrun⟩ := runUntilOutputLoop_skip k vm vmk hout hq
    obtain ⟨parms, v, _, _, hw⟩ := (step_ok_stdout vmk vmo w hf hs).2 hop
    have hbuf : vmo.Stdout.Buffer = [v] := by
      rw [hw]; simp [IntCodePipe.Write, hko]
    refine ⟨v, hbuf, ?_⟩
    unfold IntCodeVM.RunUntilOutput
    rw [hrun n 0, runUntilOutputLoop_of_step_output vmk vmo _ v [] n hs hbuf]

/-- C14, witness: `1,0,0,0,4,0,99` with empty channels: an add, then the output of
cell 0, which holds 2. -/
theorem runUntilOutput_spec_witness :
    IntCodeVM.RunUntilOutput 2 ⟨0, 0, [1, 0, 0, 0, 4, 0, 99], ⟨[]⟩, ⟨[]⟩⟩ =
      some (.ret (⟨6, 0, [2, 0, 0, 0, 4, 0, 99], ⟨[]⟩, ⟨[]⟩⟩, 2, none)) ∧
    ∃ k vmk w vmo parms, k < 2 ∧
      quietSteps k ⟨0, 0, [1, 0, 0, 0, 4, 0, 99], ⟨[]⟩, ⟨[]⟩⟩ = some vmk ∧
      vmk.GetInstruction = .ret (w, none) ∧ (ParseParameterModes w).2 = 4 ∧
      loadParms vmk (ParseParameterModes w).1 1 0 = .ret (parms, none) ∧
      readParm parms 0 vmk = .ret (2, none) ∧
      vmk.Step = .ret (vmo, none) ∧ vmo.Stdout.Buffer = [2] ∧
      (⟨6, 0, [2, 0, 0, 0, 4, 0, 99], ⟨[]⟩, ⟨[]⟩⟩ : IntCodeVM) =
        { vmo with Stdout := { Buffer := [] } } :=
  ⟨by decide,
   (runUntilOutput_spec ⟨0, 0, [1, 0, 0, 0, 4, 0, 99], ⟨[]⟩, ⟨[]⟩⟩ rfl).1 2
     ⟨6, 0, [2, 0, 0, 0, 4, 0, 99], ⟨[]⟩, ⟨[]⟩⟩ 2 (by decide)⟩

/-- C16: for a non-empty list `xs` of at most 102400 Go `int` values, `ParseProgram`
reads the comma-separated decimal rendering of `xs` back as `xs` with no error, and
`NewVM` on that string returns a VM whose memory has 102400 cells, cell `i` holding
`xs[i]` for `i < len(xs)` and 0 from there on, with instruction pointer and relative
base 0 and both channels empty. (The input and the output channel are two buffers of
the VM in this development; that is how the two `new(IntCodePipe)` values appear.) -/
theorem newVM_of_rendering (xs : List Int) (hne : xs ≠ [])
    (hrange : ∀ y ∈ xs, InIntRange y) (hlen : xs.length ≤ 102400) :
    ParseProgram (renderProgram xs) = (xs, none) ∧
    ∃ vm, NewVM (renderProgram xs) = .ret vm ∧
      vm.Memory.length = 102400 ∧
      (∀ i, i < xs.length → vm.Memory[i]? = xs[i]?) ∧
      (∀ i, xs.length ≤ i → i < 102400 → vm.Memory[i]? = some 0) ∧
      vm.IntructionPointer = 0 ∧ vm.RelativeBase = 0 ∧
      vm.Stdin.Buffer = [] ∧ vm.Stdout.Buffer = [] := by
  obtain ⟨x, rest, rfl⟩ := List.exists_cons_of_ne_nil hne
  have hparse := parseProgram_renderProgram x rest hrange
  refine ⟨hparse, _, newVM_eq _ _ none hparse hlen, ?_, ?_, ?_, rfl, rfl, rfl, rfl⟩
  · show ((x :: rest) ++ List.replicate (102400 - (x :: rest).length) 0).length = 102400
    rw [List.length_append, List.length_replicate]
    omega
  · intro i hi
    show ((x :: rest) ++ List.replicate (102400 - (x :: rest).length) 0)[i]? = _
    rw [List.getElem?_append_left hi]
  · intro i hi1 hi2
    show ((x :: rest) ++ List.replicate (102400 - (x :: rest).length) 0)[i]? = _
    rw [List.getElem?_append_right hi1, List.getElem?_replicate, if_pos (by omega)]

/-- C16, witness: the list `3, 0, -4`, whose rendering is `3,0,-4`. -/
theorem newVM_of_rendering_witness :
    renderProgram [3, 0, -4] = "3,0,-4" ∧
    ParseProgram (renderProgram [3, 0, -4]) = ([3, 0, -4], none) ∧
    ∃ vm, NewVM (renderProgram [3, 0, -4]) = .ret vm ∧
      vm.Memory.length = 102400 ∧
      (∀ i, i < ([3, 0, -4] : List Int).length → vm.Memory[i]? = ([3, 0, -4] : List Int)[i]?) ∧
      (∀ i, ([3, 0, -4] : List Int).length ≤ i → i < 102400 → vm.Memory[i]? = some 0) ∧
      vm.IntructionPointer = 0 ∧ vm.RelativeBase = 0 ∧
      vm.Stdin.Buffer = [] ∧ vm.Stdout.Buffer = [] := by
  have h := newVM_of_rendering [3, 0, -4] (by decide) (by decide) (by decide)
  refine ⟨?_, h.1, h.2⟩
  norm_num [renderProgram, renderInt, renderNat, List.intercalate]
  rfl

/-- C17, the failing construction: on `1,x,99` and on the empty string `ParseProgram`
returns an error (next to the words parsed so far), but `NewVM` drops that error:
it returns a VM whose memory starts with those words, and on the VM built from
`1,x,99` the first `Step` executes an add and returns no error. -/
theorem newVM_of_malformed_program :
    ParseProgram "1,x,99" = ([1, 0, 0], some .Syntax) ∧
    NewVM "1,x,99" = .ret ⟨0, 0, [1, 0, 0] ++ List.replicate 102397 0, ⟨[]⟩, ⟨[]⟩⟩ ∧
    (∃ vm vm', NewVM "1,x,99" = .ret vm ∧ vm.Step = .ret (vm', none)) ∧
    ParseProgram "" = ([0], some .Syntax) ∧
    NewVM "" = .ret ⟨0, 0, [0] ++ List.replicate 102399 0, ⟨[]⟩, ⟨[]⟩⟩ := by
  have h1 : ParseProgram "1,x,99" = ([1, 0, 0], some .Syntax) := by decide
  have h2 : ParseProgram "" = ([0], some .Syntax) := by decide
  have hnew : NewVM "1,x,99" =
      .ret ⟨0, 0, [1, 0, 0] ++ List.replicate 102397 0, ⟨[]⟩, ⟨[]⟩⟩ :=
    newVM_ignores_parse_error "1,x,99" [1, 0, 0] .Syntax h1 (by decide)
  have hrep : List.replicate 102397 (0 : Int) = 0 :: List.replicate 102396 0 :=
    List.replicate_succ 0 102396
  have hstep : IntCodeVM.Step ⟨0, 0, [1, 0, 0] ++ List.replicate 102397 0, ⟨[]⟩, ⟨[]⟩⟩ =
      .ret (⟨4, 0, [2, 0, 0] ++ List.replicate 102397 0, ⟨[]⟩, ⟨[]⟩⟩, none) := by
    rw [hrep]
    exact step_of_malformed_program _ (by rw [List.length_replicate]; decide)
  exact ⟨h1, hnew, ⟨_, _, hnew, hstep⟩,
    h2, newVM_ignores_parse_error "" [0] .Syntax h2 (by decide)⟩

/-- C18, the failing search: the program `104,-5,99` writes -5 and halts, so the
single-pass chain of any five phase settings ends with -5 as the first output of the
last VM and no error. Whatever five-setting permutations are enumerated, in whatever
order, `OptimizeAmplifierPhaseSettings` returns the signal -1, which no permutation
produced, together with a nil permutation and a nil error: the running best starts
at -1 and is replaced only by a greater value. With `104,5,99` it returns 5 and the
first permutation enumerated. -/
theorem optimize_negative_signals (n : Nat) (t : Int × Int × Int × Int × Int)
    (ps : List (Int × Int × Int × Int × Int)) :
    (∀ a b c d e : Int, ∃ net : Network,
      chainSignal (n + 2) "104,-5,99" [a, b, c, d, e] = some (.ret (net, (-5, none), none))) ∧
    OptimizeAmplifierPhaseSettings (n + 2) (ps.map settingsOf) "104,-5,99" =
      some (.ret ([], -1, none)) ∧
    OptimizeAmplifierPhaseSettings (n + 2) ((t :: ps).map settingsOf) "104,5,99" =
      some (.ret (settingsOf t, 5, none)) := by
  have hneg : ∀ a b c d e : Int, ∃ net : Network,
      chainSignal (n + 2) "104,-5,99" [a, b, c, d, e] =
        some (.ret (net, (-5, none), none)) := fun a b c d e =>
    ⟨_, chainSignal_of_const (n + 2) "104,-5,99" _ (-5) a b c d e newVM_const_program
      (fun sin sout => run_const_program _ length_padding_lt_three (-5) sin sout n)⟩
  have hpos : ∀ a b c d e : Int, ∃ net : Network,
      chainSignal (n + 2) "104,5,99" [a, b, c, d, e] =
        some (.ret (net, (5, none), none)) := fun a b c d e =>
    ⟨_, chainSignal_of_const (n + 2) "104,5,99" _ 5 a b c d e newVM_positive_const_program
      (fun sin sout => run_const_program _ length_padding_lt_three 5 sin sout n)⟩
  refine ⟨hneg, ?_, ?_⟩
  · refine searchLoop_of_low_signals _ _ _ _ (fun p hp => ?_)
    obtain ⟨⟨a, b, c, d, e⟩, _, rfl⟩ := List.mem_map.mp hp
    obtain ⟨net, hnet⟩ := hneg a b c d e
    exact ⟨net, -5, none, hnet, by decide⟩
  · obtain ⟨a, b, c, d, e⟩ := t
    obtain ⟨net, hnet⟩ := hpos a b c d e
    show searchLoop _ ([a, b, c, d, e] :: _) (-1) [] = some (.ret ([a, b, c, d, e], 5, none))
    rw [searchLoop_of_better _ _ _ (-1) [] net 5 none hnet (by decide)]
    refine searchLoop_of_low_signals _ _ _ _ (fun p hp => ?_)
    obtain ⟨⟨a', b', c', d', e'⟩, _, rfl⟩ := List.mem_map.mp hp
    obtain ⟨net', hnet'⟩ := hpos a' b' c' d' e'
    exact ⟨net', 5, none, hnet', le_refl _⟩

/-- C19, the failing sweep: with the program `3,0,3,1,99` (read two values, halt) and
any five phase settings, the first VM reads its setting and the initial 0 and halts
in the first sweep; each of the other four reads its setting and then finds its input
pipe empty, in every sweep. The halted VM returns Halt again in each later sweep and
is counted again, so after five sweeps the counter is 5 and the loop
`for halts < len(amps)` exits without an error, with four VMs whose instruction
pointer is 2, on an input instruction, and whose next `Step` returns the empty-read
error. The read of the result then finds the last VM's pipe empty and gives 0, which
the search returns as the best signal. -/
theorem looped_sweep_counts_one_vm_five_times (n k : Nat) (a b c d e : Int)
    (ps : List (Int × Int × Int × Int × Int)) :
    ∃ net : Network,
      loopedNetwork (n + 3) (k + 5) "3,0,3,1,99" [a, b, c, d, e] =
        some (.ret (net, 5, none)) ∧
      net.amps.length = 5 ∧
      (∀ i : Fin 4, ∃ (amp : Amplifier) (vm : IntCodeVM),
        net.amps[i.val + 1]? = some amp ∧ net.vmOf amp = some vm ∧
        vm.IntructionPointer = 2 ∧ vm.Memory[2]? = some 3 ∧
        vm.Step = .ret (vm, some .ReadError) ∧
        vm.RunUntilError (n + 3) = some (.ret (vm, .ReadError))) ∧
      loopedSignal (n + 3) (k + 5) "3,0,3,1,99" [a, b, c, d, e] =
        some (.ret (net, (0, some .ReadError), none)) ∧
      OptimizeLoopedAmplifierPhaseSettings (n + 3) (k + 5)
          ([a, b, c, d, e] :: ps.map settingsOf) "3,0,3,1,99" =
        some (.ret ([a, b, c, d, e], 0, none)) := by
  have hnet : ∀ a b c d e : Int, _ := fun a b c d e =>
    loopedNetwork_of_stall (n + 3) k "3,0,3,1,99" _
      (fun x y => [x, y, 3, 1, 99] ++ List.replicate 102395 0)
      (fun x => [x, 0, 3, 1, 99] ++ List.replicate 102395 0) a b c d e
      newVM_two_inputs_program
      (fun x y sout => run_two_inputs_program _ length_padding_lt x y [] sout n)
      (fun x y sin sout => run_two_inputs_halted _ length_padding_lt x y sin sout (n + 2))
      (fun x sout => run_one_input_program _ length_padding_lt x sout (n + 1))
      (fun x sout => run_one_input_blocked _ length_padding_lt x sout (n + 2))
  have hsig : ∀ a b c d e : Int, _ := fun a b c d e =>
    loopedSignal_of_stall (n + 3) (k + 5) "3,0,3,1,99"
      (fun x y => [x, y, 3, 1, 99] ++ List.replicate 102395 0)
      (fun x => [x, 0, 3, 1, 99] ++ List.replicate 102395 0) a b c d e (hnet a b c d e)
  refine ⟨_, hnet a b c d e, rfl, fun i => ?_, hsig a b c d e, ?_⟩
  · obtain ⟨amp, x, hamp, hvm⟩ := stalled_network_vms
      (fun x y => [x, y, 3, 1, 99] ++ List.replicate 102395 0)
      (fun x => [x, 0, 3, 1, 99] ++ List.replicate 102395 0) a b c d e i
    have hstep : ∀ pad : List Int, (pad.length : Int) < 2 ^ 62 →
        IntCodeVM.Step ⟨2, 0, [x, 0, 3, 1, 99] ++ pad, ⟨[]⟩, ⟨[]⟩⟩ =
          .ret (⟨2, 0, [x, 0, 3, 1, 99] ++ pad, ⟨[]⟩, ⟨[]⟩⟩, some .ReadError) :=
      fun pad hpad => step_input_empty _ 3 1 (length_five_append_lt pad hpad _ _ _ _ _)
        (by simp) (by simp) rfl (by simp) rfl
    exact ⟨amp, _, hamp, hvm, rfl,
      (show ∀ pad : List Int, ([x, 0, 3, 1, 99] ++ pad)[2]? = some 3 from
        fun pad => by simp) _,
      hstep _ length_padding_lt,
      run_one_input_blocked _ length_padding_lt x ⟨[]⟩ (n + 2)⟩
  · unfold OptimizeLoopedAmplifierPhaseSettings
    rw [searchLoop_of_better _ _ _ (-1) [] _ 0 (some .ReadError) (hsig a b c d e) (by decide)]
    refine searchLoop_of_low_signals _ _ _ _ (fun p hp => ?_)
    obtain ⟨⟨a', b', c', d', e'⟩, _, rfl⟩ := List.mem_map.mp hp
    exact ⟨_, 0, some .ReadError, hsig a' b' c' d' e', le_refl _⟩

end Intcode
